import Mathlib

/-! QCamber step-and-repeat engine: a shallow embedding.

Embedding of `src/graphicsview/layerfeatures.cpp` (class `LayerFeatures`) together with
the small part of the Qt value types it relies on (`QPointF`, `QRectF`, `QTransform`,
`QMap`), followed by `src/symbol/surfacesymbol.cpp`, `src/graphicsview/graphicslayerscene.cpp`,
`src/gui/gotocoordinatedialog.cpp` and the sizing statements of `src/gui/pngexporter.cpp`.

Conventions of the embedding

* `qreal` (a C++ `double`) is modelled by exact rationals `ℚ`; rounding is not modelled.
* The affine part of `QTransform` is modelled (the projective column stays `0 0 1` under
  every operation used by the source). Qt uses the row-vector convention: a point `p`
  is mapped to `p * M`, and `A * B` applies `A` first, then `B`.
* C++ exceptions, null dereferences and non-termination are made explicit in the
  result type `Result`.
* Pointers to Qt scene objects are replaced by the values they point to; the back
  pointer `m_virtualParent` (never read in the source file) is not represented.
-/

namespace QCamber

/-! ## Results of fallible code -/

/-- Kinds of C++ exception that the source distinguishes in its handlers:
`StructuredTextDataStore::InvalidKeyException`, anything derived from
`std::exception`, and anything else (caught by `catch (...)`). -/
inductive Exn where
  | invalidKey
  | stdException
  | unknown
  deriving DecidableEq, Repr

/-- Ways in which a call can fail to return a value: a C++ exception (which a
`try`/`catch` can intercept), a fault such as a null-pointer dereference (which it
cannot), and exhaustion of the recursion budget of the embedding. -/
inductive Failure where
  | exception (e : Exn)
  | fault
  | outOfFuel
  deriving DecidableEq, Repr

/-- Result of a call that may fail. -/
abbrev Result (α : Type) := Except Failure α

/-- Lookup `hds->get(key)`: a missing key raises `InvalidKeyException`. -/
def GET {α : Type} (v : Option α) : Result α :=
  match v with
  | some a => .ok a
  | none => .error (.exception .invalidKey)

/-! ## Qt value types -/

/-- Point with `qreal` coordinates (`QPointF`). -/
structure QPointF where
  x : ℚ
  y : ℚ
  deriving DecidableEq, Repr

/-- Rectangle `QRectF`, stored as in Qt by its top-left corner and its size. -/
structure QRectF where
  xp : ℚ
  yp : ℚ
  w : ℚ
  h : ℚ
  deriving DecidableEq, Repr

namespace QRectF

/-- Default constructor `QRectF()`: the null rectangle. -/
def null : QRectF := ⟨0, 0, 0, 0⟩

/-- Test `QRectF::isNull()`: `w == 0 && h == 0`. -/
def isNull (r : QRectF) : Bool := decide (r.w = 0) && decide (r.h = 0)

/-- Test `QRectF::isEmpty()`: `w <= 0 || h <= 0`. -/
def isEmpty (r : QRectF) : Bool := decide (r.w ≤ 0) || decide (r.h ≤ 0)

/-- Method `QRectF::translate(const QPointF&)`. -/
def translate (r : QRectF) (p : QPointF) : QRectF :=
  { r with xp := r.xp + p.x, yp := r.yp + p.y }

/-- Method `QRectF::setX`, which is `setLeft`: moves the left edge, keeps the right one. -/
def setX (r : QRectF) (pos : ℚ) : QRectF :=
  let diff := pos - r.xp
  { r with xp := r.xp + diff, w := r.w - diff }

/-- Method `QRectF::setY`, which is `setTop`: moves the top edge, keeps the bottom one. -/
def setY (r : QRectF) (pos : ℚ) : QRectF :=
  let diff := pos - r.yp
  { r with yp := r.yp + diff, h := r.h - diff }

/-- Method `QRectF::setWidth`. -/
def setWidth (r : QRectF) (w : ℚ) : QRectF := { r with w := w }

/-- Method `QRectF::setHeight`. -/
def setHeight (r : QRectF) (h : ℚ) : QRectF := { r with h := h }

/-- Method `QRectF::united` (`operator|`): the bounding rectangle of the two rectangles;
a null operand is ignored. -/
def united (a r : QRectF) : QRectF :=
  if a.isNull then r
  else if r.isNull then a
  else
    let left0 := if a.w < 0 then a.xp + a.w else a.xp
    let right0 := if a.w < 0 then a.xp else a.xp + a.w
    let left := if r.w < 0 then min left0 (r.xp + r.w) else min left0 r.xp
    let right := if r.w < 0 then max right0 r.xp else max right0 (r.xp + r.w)
    let top0 := if a.h < 0 then a.yp + a.h else a.yp
    let bottom0 := if a.h < 0 then a.yp else a.yp + a.h
    let top := if r.h < 0 then min top0 (r.yp + r.h) else min top0 r.yp
    let bottom := if r.h < 0 then max bottom0 r.yp else max bottom0 (r.yp + r.h)
    ⟨left, top, right - left, bottom - top⟩

end QRectF

/-- Affine part of a `QTransform`: the point `(x, y)` is mapped to
`(m11*x + m21*y + dx, m12*x + m22*y + dy)`. -/
structure QTransform where
  m11 : ℚ
  m12 : ℚ
  m21 : ℚ
  m22 : ℚ
  dx : ℚ
  dy : ℚ
  deriving DecidableEq, Repr

namespace QTransform

/-- Default constructor `QTransform()`: the identity. -/
def identity : QTransform := ⟨1, 0, 0, 1, 0, 0⟩

/-- Product `a * b` of `QTransform::operator*`: apply `a`, then `b`. -/
def mul (a b : QTransform) : QTransform :=
  { m11 := a.m11 * b.m11 + a.m12 * b.m21
    m12 := a.m11 * b.m12 + a.m12 * b.m22
    m21 := a.m21 * b.m11 + a.m22 * b.m21
    m22 := a.m21 * b.m12 + a.m22 * b.m22
    dx := a.dx * b.m11 + a.dy * b.m21 + b.dx
    dy := a.dx * b.m12 + a.dy * b.m22 + b.dy }

/-- Static `QTransform::fromTranslate(dx, dy)`. -/
def fromTranslate (dx dy : ℚ) : QTransform := ⟨1, 0, 0, 1, dx, dy⟩

/-- Method `QTransform::translate(dx, dy)`: moves the coordinate system, that is the
translation is applied to a point before the transform held so far. -/
def translate (t : QTransform) (dx dy : ℚ) : QTransform :=
  { t with dx := t.dx + (dx * t.m11 + dy * t.m21), dy := t.dy + (dy * t.m22 + dx * t.m12) }

/-- Method `QTransform::scale(sx, sy)`: scales the coordinate system. -/
def scale (t : QTransform) (sx sy : ℚ) : QTransform :=
  { t with m11 := t.m11 * sx, m12 := t.m12 * sx, m21 := t.m21 * sy, m22 := t.m22 * sy }

/-- Sine and cosine used by `QTransform::rotate(a)`: Qt hard-wires the right angles and
calls `qSin`/`qCos` (given here in degrees, as parameters) for every other angle. The
result is the pair `(sina, cosa)`. -/
def sinCos (qSin qCos : ℚ → ℚ) (a : ℚ) : ℚ × ℚ :=
  if a = 90 ∨ a = -270 then (1, 0)
  else if a = 270 ∨ a = -90 then (-1, 0)
  else if a = 180 then (0, -1)
  else (qSin a, qCos a)

/-- Method `QTransform::rotate(a)` about the z axis: rotates the coordinate system by `a`
degrees; `a == 0` leaves the transform untouched. -/
def rotate (qSin qCos : ℚ → ℚ) (t : QTransform) (a : ℚ) : QTransform :=
  if a = 0 then t
  else
    let sina := (sinCos qSin qCos a).1
    let cosa := (sinCos qSin qCos a).2
    { t with
      m11 := cosa * t.m11 + sina * t.m21
      m12 := cosa * t.m12 + sina * t.m22
      m21 := -sina * t.m11 + cosa * t.m21
      m22 := -sina * t.m12 + cosa * t.m22 }

/-- Method `QTransform::map(const QPointF&)`. -/
def map (t : QTransform) (p : QPointF) : QPointF :=
  ⟨t.m11 * p.x + t.m21 * p.y + t.dx, t.m12 * p.x + t.m22 * p.y + t.dy⟩

/-- Method `QTransform::inverted()`: the inverse, or the identity when the matrix is
singular. -/
def inverted (t : QTransform) : QTransform :=
  let det := t.m11 * t.m22 - t.m12 * t.m21
  if det = 0 then identity
  else
    { m11 := t.m22 / det
      m12 := -t.m12 / det
      m21 := -t.m21 / det
      m22 := t.m11 / det
      dx := (t.m21 * t.dy - t.m22 * t.dx) / det
      dy := (t.m12 * t.dx - t.m11 * t.dy) / det }

end QTransform

/-! ## Count tables (`FeaturesDataStore::CountMapType`, a `QMap`) -/

/-- Modelled from the spec: `FeaturesDataStore::CountMapType` is declared in
`parser/featuresparser.h`, which is absent; the spec describes it as a mapping "from
attribute name to integer count". The `QMap` is represented by an association list and
only read through the operations below; counts are natural numbers. -/
abbrev CountMapType := List (String × Nat)

namespace CountMapType

/-- Keys of the map, in storage order. -/
def keys (m : CountMapType) : List String := m.map Prod.fst

/-- Method `QMap::contains`. -/
def contains : CountMapType → String → Bool
  | [], _ => false
  | (k', _) :: rest, k => if k' = k then true else contains rest k

/-- Method `QMap::value(key)`: the stored value, or a default-constructed value (zero)
when the key is absent. -/
def value : CountMapType → String → Nat
  | [], _ => 0
  | (k', v') :: rest, k => if k' = k then v' else value rest k

/-- Statement `m[key] += v`: `operator[]` inserts a default-constructed value (zero) when
the key is absent and returns a reference to the stored value, which is then increased. -/
def addAt : CountMapType → String → Nat → CountMapType
  | [], k, v => [(k, 0 + v)]
  | (k', v') :: rest, k, v =>
    if k' = k then (k', v' + v) :: rest else (k', v') :: addAt rest k v

/-- Loop `for (it = countMap.begin(); it != countMap.end(); ++it) m[it.key()] += it.value();`
run on the parent map `m` with `countMap` a copy of the child map. -/
def aggregate (m countMap : CountMapType) : CountMapType :=
  countMap.foldl (fun acc it => addAt acc it.1 it.2) m

end CountMapType

/-! ## Symbols, records and the features data store -/

/-- The part of a `Symbol` (a `QGraphicsItem`) that `LayerFeatures` reads or writes: its
bounding rectangle, its position, its transform and its visibility. -/
structure Symbol where
  boundingRect : QRectF
  pos : QPointF
  transform : QTransform
  visible : Bool
  deriving DecidableEq, Repr

/-- Call `symbol->setTransform(matrix, false)`. -/
def Symbol.setTransform (s : Symbol) (matrix : QTransform) : Symbol :=
  { s with transform := matrix }

/-- Call `symbol->setVisible(status)`. -/
def Symbol.setVisible (s : Symbol) (status : Bool) : Symbol :=
  { s with visible := status }

/-- A geometry record, seen through the only operation the constructor applies to it:
`createSymbol()` returns a symbol, returns a null pointer (`none`), or throws. -/
structure Record where
  createSymbol : Except Exn (Option Symbol)

/-- The features data store `FeaturesDataStore` as read by `LayerFeatures`: the ordered
records and the twelve count tables, under the names of their accessors. -/
structure FeaturesDataStore where
  records : List Record
  posLineCountMap : CountMapType
  negLineCountMap : CountMapType
  posPadCountMap : CountMapType
  negPadCountMap : CountMapType
  posArcCountMap : CountMapType
  negArcCountMap : CountMapType
  posSurfaceCount : Nat
  negSurfaceCount : Nat
  posTextCount : Nat
  negTextCount : Nat
  posBarcodeCount : Nat
  negBarcodeCount : Nat

/-! ## Step header -/

/-- One `STEP-REPEAT` block of a step header. Every key may be missing (`none`); the
values are given after the conversion the source applies (`toDouble`, `toInt`). -/
structure StepRepeatBlock where
  NAME : Option String
  X : Option ℚ
  Y : Option ℚ
  DX : Option ℚ
  DY : Option ℚ
  NX : Option Int
  NY : Option Int
  ANGLE : Option ℚ
  MIRROR : Option String
  deriving DecidableEq, Repr

/-- The parsed step header (`steps/<step>/stephdr`): the top-level keys read by
`loadStepAndRepeat` and the `STEP-REPEAT` blocks in file order. -/
structure StepHeader where
  X_DATUM : Option ℚ
  Y_DATUM : Option ℚ
  X_ORIGIN : Option ℚ
  Y_ORIGIN : Option ℚ
  TOP_ACTIVE : Option ℚ
  BOTTOM_ACTIVE : Option ℚ
  LEFT_ACTIVE : Option ℚ
  RIGHT_ACTIVE : Option ℚ
  stepRepeat : List StepRepeatBlock
  deriving DecidableEq, Repr

/-- Members of `LayerFeatures` that the constructor's initialiser list does not set and
whose value is therefore indeterminate until they are assigned. The six counts are
natural numbers like every count of the embedding: the width and the signedness of the
C++ members (declared in a header that is not among the sources) are not represented,
so nothing is concluded below from the size of an indeterminate count. -/
structure Uninitialized where
  x_datum : ℚ
  y_datum : ℚ
  x_origin : ℚ
  y_origin : ℚ
  posSurfaceCount : Nat
  negSurfaceCount : Nat
  posTextCount : Nat
  negTextCount : Nat
  posBarcodeCount : Nat
  negBarcodeCount : Nat

/-- Everything `LayerFeatures` obtains from outside the class: the cached parsers applied
to the archive (`CachedFeaturesParser::parse(ctx.loader->absPath(path.arg(step)))`, given
the path pattern and the step, and `CachedStructuredTextParser::parse` of the header of a
step; `none` is a null pointer), the trigonometric functions behind `QTransform::rotate`,
and the indeterminate values of unset members. -/
structure Context where
  parseFeatures : String → String → Option FeaturesDataStore
  parseStepHdr : String → Option StepHeader
  qSin : ℚ → ℚ
  qCos : ℚ → ℚ
  uninit : Uninitialized

/-- Method `QString::toLower`, on the characters Lean lowers (ASCII letters). -/
def toLower (s : String) : String := String.mk (s.data.map Char.toLower)

/-! ## LayerFeatures -/

/-- One instantiated step: class `LayerFeatures`. `transform` and `pos` are the state of
the `QGraphicsItem` base; `m_scene` holds a scene handle once `addToScene` ran. -/
structure LayerFeatures where
  m_step : String
  m_path : String
  m_ds : Option FeaturesDataStore
  m_symbols : List Symbol
  m_repeats : List LayerFeatures
  m_scene : Option Nat
  m_stepRepeatLoaded : Bool
  m_showStepRepeat : Bool
  m_posLineCount : CountMapType
  m_negLineCount : CountMapType
  m_posPadCount : CountMapType
  m_negPadCount : CountMapType
  m_posArcCount : CountMapType
  m_negArcCount : CountMapType
  m_posSurfaceCount : Nat
  m_negSurfaceCount : Nat
  m_posTextCount : Nat
  m_negTextCount : Nat
  m_posBarcodeCount : Nat
  m_negBarcodeCount : Nat
  m_x_datum : ℚ
  m_y_datum : ℚ
  m_x_origin : ℚ
  m_y_origin : ℚ
  m_activeRect : QRectF
  transform : QTransform
  pos : QPointF

namespace LayerFeatures

/-- Accessor `x_datum()`. -/
def x_datum (self : LayerFeatures) : ℚ := self.m_x_datum

/-- Accessor `y_datum()`. -/
def y_datum (self : LayerFeatures) : ℚ := self.m_y_datum

mutual
/-- Method `LayerFeatures::setPos(qreal x, qreal y)`: every own symbol gets the translation
appended to its transform, every child is repositioned recursively, and the item itself
gets the translation as its transform and `(x, y)` as its position. -/
def setPos (self : LayerFeatures) (x y : ℚ) : LayerFeatures :=
  match self with
  | self@{ m_repeats := repeats, .. } =>
    let trans := QTransform.fromTranslate x y
    { self with
      m_symbols := self.m_symbols.map (fun symbol =>
        symbol.setTransform (symbol.transform.mul trans))
      m_repeats := setPosAll repeats x y
      transform := trans
      pos := ⟨x, y⟩ }
/-- The loop of `setPos` over `m_repeats`. -/
def setPosAll (repeats : List LayerFeatures) (x y : ℚ) : List LayerFeatures :=
  match repeats with
  | [] => []
  | r :: rest => r.setPos x y :: setPosAll rest x y
end

/-- The matrix `trans` that `setTransform` builds around the point `o`:
`translate(-o)`, then `matrix * trans`, then `translate(o)`. -/
def aroundPoint (matrix : QTransform) (o : QPointF) : QTransform :=
  let trans := QTransform.identity
  let trans := trans.translate (-o.x) (-o.y)
  let trans := matrix.mul trans
  trans.translate o.x o.y

mutual
/-- Method `LayerFeatures::setTransform(matrix, combine)`: every own symbol and every child
receives the matrix conjugated around a point, and the item itself combines the matrix
with its current transform (`QGraphicsItem::setTransform(matrix, true)`). -/
def setTransform (self : LayerFeatures) (matrix : QTransform) (combine : Bool) :
    LayerFeatures :=
  match self with
  | self@{ m_repeats := repeats, .. } =>
    { self with
      m_symbols := self.m_symbols.map (fun symbol =>
        let o := self.transform.inverted.map symbol.pos
        symbol.setTransform (symbol.transform.mul (aroundPoint matrix o)))
      m_repeats :=
        setTransformAll repeats (aroundPoint matrix (self.transform.inverted.map self.pos))
          combine
      transform := matrix.mul self.transform }
/-- The loop of `setTransform` over `m_repeats`; `trans` is the same for every child. -/
def setTransformAll (repeats : List LayerFeatures) (trans : QTransform) (combine : Bool) :
    List LayerFeatures :=
  match repeats with
  | [] => []
  | r :: rest => r.setTransform trans combine :: setTransformAll rest trans combine
end

mutual
/-- Method `LayerFeatures::setVisible(status)`: own symbols and, recursively, children. -/
def setVisible (self : LayerFeatures) (status : Bool) : LayerFeatures :=
  match self with
  | self@{ m_repeats := repeats, .. } =>
    { self with
      m_symbols := self.m_symbols.map (fun symbol => symbol.setVisible status)
      m_repeats := setVisibleAll repeats status }
/-- The loop of `setVisible` over `m_repeats`. -/
def setVisibleAll (repeats : List LayerFeatures) (status : Bool) : List LayerFeatures :=
  match repeats with
  | [] => []
  | r :: rest => r.setVisible status :: setVisibleAll rest status
end

mutual
/-- Method `LayerFeatures::addToScene(scene)`: records the scene and adds every child to it,
giving each child the visibility `m_showStepRepeat` of this instance. (The scene's own
item list is not represented.) -/
def addToScene (self : LayerFeatures) (scene : Nat) : LayerFeatures :=
  match self with
  | self@{ m_repeats := repeats, .. } =>
    { self with
      m_scene := some scene
      m_repeats := addToSceneAll repeats scene self.m_showStepRepeat }
/-- The loop of `addToScene` over `m_repeats`. -/
def addToSceneAll (repeats : List LayerFeatures) (scene : Nat) (show_ : Bool) :
    List LayerFeatures :=
  match repeats with
  | [] => []
  | r :: rest => (r.addToScene scene).setVisible show_ :: addToSceneAll rest scene show_
end

/-- First loop of `boundingRect()`: the running `bounds` and the flag `firstSymbol` after
all own symbols; each symbol's rectangle is translated by the symbol's position. -/
def symbolBounds (symbols : List Symbol) : QRectF × Bool :=
  symbols.foldl (fun (acc : QRectF × Bool) symbol =>
    let symbolBounds := symbol.boundingRect.translate symbol.pos
    if acc.2 then (symbolBounds, false) else (acc.1.united symbolBounds, false))
    (QRectF.null, true)

mutual
/-- Method `LayerFeatures::boundingRect()`. -/
def boundingRect (self : LayerFeatures) : QRectF :=
  match self with
  | self@{ m_repeats := repeats, .. } =>
    if self.m_symbols.isEmpty then QRectF.null
    else includeRepeats (symbolBounds self.m_symbols).1 repeats
/-- Second loop of `boundingRect()` ("Include repeats"): unite `bounds` with the bounding
rectangle of every child whose rectangle is not empty. -/
def includeRepeats (bounds : QRectF) (repeats : List LayerFeatures) : QRectF :=
  match repeats with
  | [] => bounds
  | r :: rest =>
    let repeatBounds := r.boundingRect
    includeRepeats (if !repeatBounds.isEmpty then bounds.united repeatBounds else bounds) rest
end

/-- The record loop of the constructor: `createSymbol()` is tried on every record in
order; a non-null symbol is appended to `m_symbols`, a null result and an exception of
either handler are logged only. -/
def createSymbols (records : List Record) : List Symbol :=
  records.foldl (fun m_symbols record =>
    match record.createSymbol with
    | .ok (some symbol) => m_symbols ++ [symbol]
    | .ok none => m_symbols
    | .error _ => m_symbols) []

/-- The statements "Copy count maps" of the constructor. -/
def copyCounts (self : LayerFeatures) (ds : FeaturesDataStore) : LayerFeatures :=
  { self with
    m_posLineCount := ds.posLineCountMap
    m_negLineCount := ds.negLineCountMap
    m_posPadCount := ds.posPadCountMap
    m_negPadCount := ds.negPadCountMap
    m_posArcCount := ds.posArcCountMap
    m_negArcCount := ds.negArcCountMap
    m_posSurfaceCount := ds.posSurfaceCount
    m_negSurfaceCount := ds.negSurfaceCount
    m_posTextCount := ds.posTextCount
    m_negTextCount := ds.negTextCount
    m_posBarcodeCount := ds.posBarcodeCount
    m_negBarcodeCount := ds.negBarcodeCount }

/-- The statements after `m_repeats.append(step)` in the grid loop: the six count maps of
`step` are added key by key, the six scalar counts are added. -/
def aggregateCounts (self step : LayerFeatures) : LayerFeatures :=
  { self with
    m_posLineCount := CountMapType.aggregate self.m_posLineCount step.m_posLineCount
    m_negLineCount := CountMapType.aggregate self.m_negLineCount step.m_negLineCount
    m_posPadCount := CountMapType.aggregate self.m_posPadCount step.m_posPadCount
    m_negPadCount := CountMapType.aggregate self.m_negPadCount step.m_negPadCount
    m_posArcCount := CountMapType.aggregate self.m_posArcCount step.m_posArcCount
    m_negArcCount := CountMapType.aggregate self.m_negArcCount step.m_negArcCount
    m_posSurfaceCount := self.m_posSurfaceCount + step.m_posSurfaceCount
    m_negSurfaceCount := self.m_negSurfaceCount + step.m_negSurfaceCount
    m_posTextCount := self.m_posTextCount + step.m_posTextCount
    m_negTextCount := self.m_negTextCount + step.m_negTextCount
    m_posBarcodeCount := self.m_posBarcodeCount + step.m_posBarcodeCount
    m_negBarcodeCount := self.m_negBarcodeCount + step.m_negBarcodeCount }

/-- The matrix `trans` built for a grid cell: identity, `scale(-1, 1)` when mirrored,
`rotate(angle)`, `translate(-x_datum, y_datum)`. -/
def stepTransform (ctx : Context) (mirror : Bool) (angle x_datum y_datum : ℚ) : QTransform :=
  let trans := QTransform.identity
  let trans := if mirror then trans.scale (-1) 1 else trans
  let trans := trans.rotate ctx.qSin ctx.qCos angle
  trans.translate (-x_datum) y_datum

/-- The statements of the grid loop between `new LayerFeatures` and `m_repeats.append`:
the new child `step` is positioned with `setPos` and then given the cell's matrix with
`setTransform`. -/
def placeStep (ctx : Context) (x y dx dy angle : ℚ) (mirror : Bool) (i j : Nat)
    (step : LayerFeatures) : LayerFeatures :=
  let step := step.setPos (x + dx * (i : ℚ)) (-(y + dy * (j : ℚ)))
  let trans := stepTransform ctx mirror angle step.x_datum step.y_datum
  step.setTransform trans false

/-- Body of the grid loop for cell `(i, j)` of block number `b`. The outcome of
`new LayerFeatures(name, m_path, true)` is supplied by `newLayerFeatures`, indexed by the
cell because the outcome of a construction may differ from call to call. An exception
is caught (both handlers only log); a fault or divergence is not. -/
def stepRepeatCell (ctx : Context)
    (newLayerFeatures : Nat → Nat → Nat → String → Result LayerFeatures)
    (b : Nat) (name : String) (x y dx dy angle : ℚ) (mirror : Bool)
    (self : LayerFeatures) (i j : Nat) : Result LayerFeatures :=
  match newLayerFeatures b i j name with
  | .ok step =>
    let step := placeStep ctx x y dx dy angle mirror i j step
    let self := { self with m_repeats := self.m_repeats ++ [step] }
    .ok (aggregateCounts self step)
  | .error (.exception _) => .ok self
  | .error f => .error f

/-- The nine values read at the top of the loop over the `STEP-REPEAT` blocks. -/
structure StepRepeatParams where
  name : String
  x : ℚ
  y : ℚ
  dx : ℚ
  dy : ℚ
  nx : Int
  ny : Int
  angle : ℚ
  mirror : Bool
  deriving DecidableEq, Repr

/-- The nine `GET`s at the top of the loop over the `STEP-REPEAT` blocks: `NAME` is
lower-cased and `mirror` is the comparison of `MIRROR` with `"YES"`; the first missing
key throws `InvalidKeyException` (outside any `try`). -/
def readStepRepeat (blk : StepRepeatBlock) : Result StepRepeatParams := do
  let name := toLower (← GET blk.NAME)
  let x ← GET blk.X
  let y ← GET blk.Y
  let dx ← GET blk.DX
  let dy ← GET blk.DY
  let nx ← GET blk.NX
  let ny ← GET blk.NY
  let angle ← GET blk.ANGLE
  let mirror := decide ((← GET blk.MIRROR) = "YES")
  pure { name := name, x := x, y := y, dx := dx, dy := dy, nx := nx, ny := ny,
         angle := angle, mirror := mirror }

/-- Body of the loop over the `STEP-REPEAT` blocks: the nine keys are read (a missing key
throws out of the loop), then the `nx` by `ny` grid is walked, `j` innermost. -/
def stepRepeatBlock (ctx : Context)
    (newLayerFeatures : Nat → Nat → Nat → String → Result LayerFeatures)
    (self : LayerFeatures) (b : Nat) (blk : StepRepeatBlock) : Result LayerFeatures := do
  let p ← readStepRepeat blk
  (List.range p.nx.toNat).foldlM (fun self i =>
    (List.range p.ny.toNat).foldlM (fun self j =>
      stepRepeatCell ctx newLayerFeatures b p.name p.x p.y p.dx p.dy p.angle p.mirror
        self i j) self) self

/-- The first `try` block of `loadStepAndRepeat`: the eight header keys are read in
order; the first missing key abandons the rest of the block (the exception is caught and
logged), so earlier assignments persist and `m_activeRect` changes only when all eight
keys are present. -/
def readStepParameters (hds : StepHeader) (self : LayerFeatures) : LayerFeatures :=
  match hds.X_DATUM with
  | none => self
  | some x_datum =>
  let self := { self with m_x_datum := x_datum }
  match hds.Y_DATUM with
  | none => self
  | some y_datum =>
  let self := { self with m_y_datum := y_datum }
  match hds.X_ORIGIN with
  | none => self
  | some x_origin =>
  let self := { self with m_x_origin := x_origin }
  match hds.Y_ORIGIN with
  | none => self
  | some y_origin =>
  let self := { self with m_y_origin := y_origin }
  match hds.TOP_ACTIVE, hds.BOTTOM_ACTIVE, hds.LEFT_ACTIVE, hds.RIGHT_ACTIVE with
  | some top_active, some bottom_active, some left_active, some right_active =>
    let r := self.m_activeRect
    let r := r.setX (r.xp + left_active)
    let r := r.setY (r.yp + top_active)
    let r := r.setWidth (r.w - right_active)
    let r := r.setHeight (r.h - bottom_active)
    { self with m_activeRect := r }
  | _, _, _, _ => self

/-- The statements of `loadStepAndRepeat` before the loop over the blocks: the header
parameters are read, and the active rectangle is reset to `QRectF()` when the header has
no `STEP-REPEAT` block. -/
def beginStepAndRepeat (hds : StepHeader) (self : LayerFeatures) : LayerFeatures :=
  let self := readStepParameters hds self
  if hds.stepRepeat.isEmpty then { self with m_activeRect := QRectF.null } else self

/-- The statements of `loadStepAndRepeat` after the loop over the blocks: the children
are added to the scene when there is one, and `m_stepRepeatLoaded` is set. -/
def endStepAndRepeat (self : LayerFeatures) : LayerFeatures :=
  let self := match self.m_scene with
    | some scene =>
      { self with m_repeats := self.m_repeats.map (fun (r : LayerFeatures) => r.addToScene scene) }
    | none => self
  { self with m_stepRepeatLoaded := true }

/-- Method `LayerFeatures::loadStepAndRepeat()`. A null header store is dereferenced
(fault); otherwise the header parameters are read, the blocks are processed in file
order, and the closing statements run. -/
def loadStepAndRepeat (ctx : Context)
    (newLayerFeatures : Nat → Nat → Nat → String → Result LayerFeatures)
    (self : LayerFeatures) : Result LayerFeatures :=
  match ctx.parseStepHdr self.m_step with
  | none => .error .fault
  | some hds => do
    let self ← hds.stepRepeat.enum.foldlM (fun self (bblk : Nat × StepRepeatBlock) =>
      stepRepeatBlock ctx newLayerFeatures self bblk.1 bblk.2) (beginStepAndRepeat hds self)
    pure (endStepAndRepeat self)

/-- The object after the constructor's initialiser list: no data, no symbols, no
children, default-constructed Qt members, indeterminate scalars. -/
def initial (ctx : Context) (step path : String) (stepRepeat : Bool) : LayerFeatures :=
  { m_step := step
    m_path := path
    m_ds := none
    m_symbols := []
    m_repeats := []
    m_scene := none
    m_stepRepeatLoaded := false
    m_showStepRepeat := stepRepeat
    m_posLineCount := []
    m_negLineCount := []
    m_posPadCount := []
    m_negPadCount := []
    m_posArcCount := []
    m_negArcCount := []
    m_posSurfaceCount := ctx.uninit.posSurfaceCount
    m_negSurfaceCount := ctx.uninit.negSurfaceCount
    m_posTextCount := ctx.uninit.posTextCount
    m_negTextCount := ctx.uninit.negTextCount
    m_posBarcodeCount := ctx.uninit.posBarcodeCount
    m_negBarcodeCount := ctx.uninit.negBarcodeCount
    m_x_datum := ctx.uninit.x_datum
    m_y_datum := ctx.uninit.y_datum
    m_x_origin := ctx.uninit.x_origin
    m_y_origin := ctx.uninit.y_origin
    m_activeRect := QRectF.null
    transform := QTransform.identity
    pos := ⟨0, 0⟩ }

/-- The constructor's work up to and including "Copy count maps", for a parsed data store:
`m_ds` is set, the symbols are created and the twelve count tables are copied. -/
def loadFeatures (self : LayerFeatures) (ds : FeaturesDataStore) : LayerFeatures :=
  copyCounts { self with m_ds := some ds, m_symbols := createSymbols ds.records } ds

/-- Constructor `LayerFeatures::LayerFeatures(step, path, stepRepeat)`. The recursion
through `loadStepAndRepeat` is bounded by `fuel`, the number of nested constructions
allowed; a null data store ends the constructor early. -/
def new (ctx : Context) : Nat → String → String → Bool → Result LayerFeatures
  | 0, _, _, _ => .error .outOfFuel
  | fuel + 1, step, path, stepRepeat =>
    let self := initial ctx step path stepRepeat
    match ctx.parseFeatures path step with
    | none => .ok self
    | some ds =>
      let self := loadFeatures self ds
      if self.m_showStepRepeat then
        loadStepAndRepeat ctx (fun _ _ _ name => new ctx fuel name self.m_path true) self
      else .ok self

/-- Method `LayerFeatures::setShowStepRepeat(status)`. When expansion is triggered here,
`m_scene->items()` is evaluated afterwards, which faults without a scene (the pen and
brush it assigns are not represented). -/
def setShowStepRepeat (ctx : Context) (fuel : Nat) (self : LayerFeatures) (status : Bool) :
    Result LayerFeatures := do
  let self := { self with m_showStepRepeat := status }
  let self ←
    if status && !self.m_stepRepeatLoaded then
      (do
        let self ← loadStepAndRepeat ctx
          (fun _ _ _ name => new ctx fuel name self.m_path true) self
        match self.m_scene with
        | none => .error .fault
        | some _ => pure self)
    else pure self
  pure { self with m_repeats := self.m_repeats.map (fun (r : LayerFeatures) => r.setVisible status) }

end LayerFeatures

/-! ## The object after a call that did not return

A C++ exception that leaves a method does not undo what the method did to the object up
to the throw. The definitions below follow the same statements as the ones above and
keep, besides the way a call ends, the state in which it leaves the object. -/

/-- A loop whose body may end the loop by failing: the state after the last iteration
that ran, and the failure if one occurred. -/
def foldlExit {σ α : Type} (body : σ → α → σ × Option Failure) :
    List α → σ → σ × Option Failure
  | [], s => (s, none)
  | a :: rest, s =>
    match body s a with
    | (s', none) => foldlExit body rest s'
    | (s', some f) => (s', some f)

/-- The outcome of a call as a `Result`: the state is dropped when the call failed. -/
def exitResult {σ : Type} (r : σ × Option Failure) : Result σ :=
  match r with
  | (s, none) => .ok s
  | (_, some f) => .error f

namespace LayerFeatures

/-- Body of the grid loop, with the state it leaves: a construction that faults has not
touched the parent yet. -/
def stepRepeatCellExit (ctx : Context)
    (newLayerFeatures : Nat → Nat → Nat → String → Result LayerFeatures)
    (b : Nat) (name : String) (x y dx dy angle : ℚ) (mirror : Bool)
    (self : LayerFeatures) (i j : Nat) : LayerFeatures × Option Failure :=
  match stepRepeatCell ctx newLayerFeatures b name x y dx dy angle mirror self i j with
  | .ok self' => (self', none)
  | .error f => (self, some f)

/-- Body of the loop over the `STEP-REPEAT` blocks, with the state it leaves: a missing
key throws before any cell of the block ran; a fault in a cell leaves the children of
the cells before it appended and aggregated. -/
def stepRepeatBlockExit (ctx : Context)
    (newLayerFeatures : Nat → Nat → Nat → String → Result LayerFeatures)
    (self : LayerFeatures) (b : Nat) (blk : StepRepeatBlock) :
    LayerFeatures × Option Failure :=
  match readStepRepeat blk with
  | .error f => (self, some f)
  | .ok p =>
    foldlExit (fun self i =>
      foldlExit (fun self j =>
        stepRepeatCellExit ctx newLayerFeatures b p.name p.x p.y p.dx p.dy p.angle p.mirror
          self i j) (List.range p.ny.toNat) self) (List.range p.nx.toNat) self

/-- Method `LayerFeatures::loadStepAndRepeat()`, with the state it leaves: when a block
throws, the header parameters are read and the children of the blocks before it are
appended and aggregated, but the closing statements did not run, so
`m_stepRepeatLoaded` is still false. -/
def loadStepAndRepeatExit (ctx : Context)
    (newLayerFeatures : Nat → Nat → Nat → String → Result LayerFeatures)
    (self : LayerFeatures) : LayerFeatures × Option Failure :=
  match ctx.parseStepHdr self.m_step with
  | none => (self, some .fault)
  | some hds =>
    match foldlExit (fun self (bblk : Nat × StepRepeatBlock) =>
        stepRepeatBlockExit ctx newLayerFeatures self bblk.1 bblk.2)
        hds.stepRepeat.enum (beginStepAndRepeat hds self) with
    | (self, none) => (endStepAndRepeat self, none)
    | (self, some f) => (self, some f)

/-- Method `LayerFeatures::setShowStepRepeat(status)`, with the state it leaves: the flag
`m_showStepRepeat` is assigned first; when the expansion does not return, the loop over
the children at the end is not reached. -/
def setShowStepRepeatExit (ctx : Context) (fuel : Nat) (self : LayerFeatures)
    (status : Bool) : LayerFeatures × Option Failure :=
  let self := { self with m_showStepRepeat := status }
  let r : LayerFeatures × Option Failure :=
    if status && !self.m_stepRepeatLoaded then
      match loadStepAndRepeatExit ctx
          (fun _ _ _ name => new ctx fuel name self.m_path true) self with
      | (self, none) =>
        match self.m_scene with
        | none => (self, some .fault)
        | some _ => (self, none)
      | (self, some f) => (self, some f)
    else (self, none)
  match r with
  | (self, none) =>
    ({ self with
       m_repeats := self.m_repeats.map (fun (r : LayerFeatures) => r.setVisible status) },
     none)
  | (self, some f) => (self, some f)

end LayerFeatures

/-! ## Specification vocabulary -/

/-- The twelve count tables of an instance or of a data store, as one value: six
per-attribute maps and six scalar counts. -/
structure CountTables where
  posLine : CountMapType
  negLine : CountMapType
  posPad : CountMapType
  negPad : CountMapType
  posArc : CountMapType
  negArc : CountMapType
  posSurface : Nat
  negSurface : Nat
  posText : Nat
  negText : Nat
  posBarcode : Nat
  negBarcode : Nat
  deriving DecidableEq, Repr

/-- The aggregated count tables of a `LayerFeatures` instance (its twelve `m_*Count`
members). -/
def LayerFeatures.countTables (self : LayerFeatures) : CountTables :=
  { posLine := self.m_posLineCount
    negLine := self.m_negLineCount
    posPad := self.m_posPadCount
    negPad := self.m_negPadCount
    posArc := self.m_posArcCount
    negArc := self.m_negArcCount
    posSurface := self.m_posSurfaceCount
    negSurface := self.m_negSurfaceCount
    posText := self.m_posTextCount
    negText := self.m_negTextCount
    posBarcode := self.m_posBarcodeCount
    negBarcode := self.m_negBarcodeCount }

/-- The own-layer count tables of a features data store (its twelve accessors). -/
def FeaturesDataStore.countTables (ds : FeaturesDataStore) : CountTables :=
  { posLine := ds.posLineCountMap
    negLine := ds.negLineCountMap
    posPad := ds.posPadCountMap
    negPad := ds.negPadCountMap
    posArc := ds.posArcCountMap
    negArc := ds.negArcCountMap
    posSurface := ds.posSurfaceCount
    negSurface := ds.negSurfaceCount
    posText := ds.posTextCount
    negText := ds.negTextCount
    posBarcode := ds.posBarcodeCount
    negBarcode := ds.negBarcodeCount }

/-- A `QMap` holds every key once. -/
def CountMapType.UniqueKeys (m : CountMapType) : Prop := m.keys.Nodup

/-- Map `new` is the key-wise sum of `old` and `add`: at every key the value of `new` is
the value of `old` (zero when absent) plus the value of `add` (zero when absent), and
`new` holds exactly the keys of `old` and of `add`. -/
def CountMapType.IsSum (old add new : CountMapType) : Prop :=
  ∀ k, new.value k = old.value k + add.value k ∧
    new.contains k = (old.contains k || add.contains k)

/-- Every count of `a` is at most the corresponding count of `b`. -/
def CountMapType.LE (a b : CountMapType) : Prop := ∀ k, a.value k ≤ b.value k

/-- All six maps hold every key once. -/
def CountTables.UniqueKeys (t : CountTables) : Prop :=
  t.posLine.UniqueKeys ∧ t.negLine.UniqueKeys ∧ t.posPad.UniqueKeys ∧
  t.negPad.UniqueKeys ∧ t.posArc.UniqueKeys ∧ t.negArc.UniqueKeys

/-- Tables `new` are the sum of `old` and `add`: key-wise for the six maps, plain for the
six scalars. -/
def CountTables.IsSum (old add new : CountTables) : Prop :=
  CountMapType.IsSum old.posLine add.posLine new.posLine ∧
  CountMapType.IsSum old.negLine add.negLine new.negLine ∧
  CountMapType.IsSum old.posPad add.posPad new.posPad ∧
  CountMapType.IsSum old.negPad add.negPad new.negPad ∧
  CountMapType.IsSum old.posArc add.posArc new.posArc ∧
  CountMapType.IsSum old.negArc add.negArc new.negArc ∧
  new.posSurface = old.posSurface + add.posSurface ∧
  new.negSurface = old.negSurface + add.negSurface ∧
  new.posText = old.posText + add.posText ∧
  new.negText = old.negText + add.negText ∧
  new.posBarcode = old.posBarcode + add.posBarcode ∧
  new.negBarcode = old.negBarcode + add.negBarcode

/-- Every one of the twelve counts of `a` is at most the corresponding count of `b`. -/
def CountTables.LE (a b : CountTables) : Prop :=
  CountMapType.LE a.posLine b.posLine ∧ CountMapType.LE a.negLine b.negLine ∧
  CountMapType.LE a.posPad b.posPad ∧ CountMapType.LE a.negPad b.negPad ∧
  CountMapType.LE a.posArc b.posArc ∧ CountMapType.LE a.negArc b.negArc ∧
  a.posSurface ≤ b.posSurface ∧ a.negSurface ≤ b.negSurface ∧
  a.posText ≤ b.posText ∧ a.negText ≤ b.negText ∧
  a.posBarcode ≤ b.posBarcode ∧ a.negBarcode ≤ b.negBarcode

/-- The cells of an `nx` by `ny` grid in the order the nested loops visit them: `i`
outermost, `j` innermost; no cell when `nx <= 0` or `ny <= 0`. -/
def gridCells (nx ny : Int) : List (Nat × Nat) :=
  (List.range nx.toNat).flatMap (fun i => (List.range ny.toNat).map (fun j => (i, j)))

/-- The child that cell `c` of a block contributes to `m_repeats`: the constructed step
after `placeStep`, or nothing when the construction did not return. -/
def cellChild (ctx : Context)
    (newLayerFeatures : Nat → Nat → Nat → String → Result LayerFeatures)
    (b : Nat) (p : LayerFeatures.StepRepeatParams) (c : Nat × Nat) : Option LayerFeatures :=
  match newLayerFeatures b c.1 c.2 p.name with
  | .ok step => some (LayerFeatures.placeStep ctx p.x p.y p.dx p.dy p.angle p.mirror c.1 c.2 step)
  | .error _ => none

/-- No construction requested by the `nx` by `ny` grid of block `b` for the step `name`
faults or diverges: each either returns or throws an exception. -/
def GridReturnsOrThrows (newLayerFeatures : Nat → Nat → Nat → String → Result LayerFeatures)
    (b : Nat) (name : String) (nx ny : Int) : Prop :=
  ∀ c ∈ gridCells nx ny, ∀ f, newLayerFeatures b c.1 c.2 name = .error f →
    ∃ e, f = .exception e

/-- During step-repeat loading the identity of the instance, its data store, its own
symbols and its scene stay as they are, and none of the twelve counts decreases. -/
def Grows (s s' : LayerFeatures) : Prop :=
  s'.m_step = s.m_step ∧ s'.m_path = s.m_path ∧ s'.m_ds = s.m_ds ∧
  s'.m_symbols = s.m_symbols ∧ s'.m_scene = s.m_scene ∧
  CountTables.LE s.countTables s'.countTables

/-- Reference behaviour of a block from which grid cells are absent: the keys are read as
in `stepRepeatBlock`, then the cells of the grid other than those marked `absent` are
processed in loop order. -/
def stepRepeatBlockWithout (absent : Nat → Nat → Bool) (ctx : Context)
    (newLayerFeatures : Nat → Nat → Nat → String → Result LayerFeatures)
    (self : LayerFeatures) (b : Nat) (blk : StepRepeatBlock) : Result LayerFeatures := do
  let p ← LayerFeatures.readStepRepeat blk
  ((gridCells p.nx p.ny).filter (fun c => !absent c.1 c.2)).foldlM (fun self c =>
    LayerFeatures.stepRepeatCell ctx newLayerFeatures b p.name p.x p.y p.dx p.dy p.angle
      p.mirror self c.1 c.2) self

/-- Reference behaviour of `loadStepAndRepeat` on a header from which the grid cells
marked `absent` (by block number and grid indices) are absent; everything else is as in
`LayerFeatures.loadStepAndRepeat`. -/
def loadStepAndRepeatWithout (absent : Nat → Nat → Nat → Bool) (ctx : Context)
    (newLayerFeatures : Nat → Nat → Nat → String → Result LayerFeatures)
    (self : LayerFeatures) : Result LayerFeatures :=
  match ctx.parseStepHdr self.m_step with
  | none => .error .fault
  | some hds => do
    let self ← hds.stepRepeat.enum.foldlM (fun self (bblk : Nat × StepRepeatBlock) =>
      stepRepeatBlockWithout (absent bblk.1) ctx newLayerFeatures self bblk.1 bblk.2)
      (LayerFeatures.beginStepAndRepeat hds self)
    pure (LayerFeatures.endStepAndRepeat self)

/-- States of a `LayerFeatures` instance reachable from its construction by calls of its
public mutators `setShowStepRepeat`, `addToScene`, `setPos`, `setTransform` and
`setVisible`. A call of `setShowStepRepeat` that throws an exception leaves the instance
alive in the state reached at the throw; a construction that throws leaves no instance,
and a fault ends the process. -/
inductive Reachable (ctx : Context) : LayerFeatures → Prop where
  | construct (fuel : Nat) (step path : String) (stepRepeat : Bool) (self : LayerFeatures) :
      LayerFeatures.new ctx fuel step path stepRepeat = .ok self → Reachable ctx self
  | setShowStepRepeat (fuel : Nat) (status : Bool) (self self' : LayerFeatures) :
      Reachable ctx self → LayerFeatures.setShowStepRepeat ctx fuel self status = .ok self' →
      Reachable ctx self'
  | setShowStepRepeatThrows (fuel : Nat) (status : Bool) (self self' : LayerFeatures)
      (e : Exn) :
      Reachable ctx self →
      LayerFeatures.setShowStepRepeatExit ctx fuel self status = (self', some (.exception e)) →
      Reachable ctx self'
  | addToScene (scene : Nat) (self : LayerFeatures) :
      Reachable ctx self → Reachable ctx (self.addToScene scene)
  | setPos (x y : ℚ) (self : LayerFeatures) :
      Reachable ctx self → Reachable ctx (self.setPos x y)
  | setTransform (matrix : QTransform) (combine : Bool) (self : LayerFeatures) :
      Reachable ctx self → Reachable ctx (self.setTransform matrix combine)
  | setVisible (status : Bool) (self : LayerFeatures) :
      Reachable ctx self → Reachable ctx (self.setVisible status)

/-- The count invariant of the step-and-repeat engine for one instance that has a data
store: every aggregated count is at least the own-layer count of the store, and the
tables are equal when expansion has not been loaded or the header of the step has no
`STEP-REPEAT` block. -/
def CountInvariant (ctx : Context) (self : LayerFeatures) : Prop :=
  ∀ ds, self.m_ds = some ds →
    CountTables.LE ds.countTables self.countTables ∧
    ((self.m_stepRepeatLoaded = false ∨
      ∃ hds, ctx.parseStepHdr self.m_step = some hds ∧ hds.stepRepeat = []) →
      self.countTables = ds.countTables)

/-- Symbol that a record contributes to `m_symbols`: the symbol returned by
`createSymbol()`, nothing when it returned null or threw. -/
def Record.symbol? (r : Record) : Option Symbol :=
  match r.createSymbol with
  | .ok (some symbol) => some symbol
  | .ok none => none
  | .error _ => none

/-! ## A small archive used to instantiate the theorems -/

/-- A symbol with a 10 by 5 bounding rectangle at the origin. -/
def exampleSymbol : Symbol :=
  { boundingRect := ⟨0, 0, 10, 5⟩, pos := ⟨0, 0⟩, transform := QTransform.identity,
    visible := true }

/-- Features of the board step `pcb`: three records, of which the first yields a symbol,
the second returns null and the third throws; two positive lines of attribute `r10`. -/
def pcbFeatures : FeaturesDataStore :=
  { records := [⟨.ok (some exampleSymbol)⟩, ⟨.ok none⟩, ⟨.error .stdException⟩]
    posLineCountMap := [("r10", 2)]
    negLineCountMap := []
    posPadCountMap := [("s40", 1)]
    negPadCountMap := []
    posArcCountMap := []
    negArcCountMap := []
    posSurfaceCount := 1
    negSurfaceCount := 0
    posTextCount := 0
    negTextCount := 0
    posBarcodeCount := 0
    negBarcodeCount := 0 }

/-- Features of the panel step `panel`: no record on this layer, one line counted by the
parser for attribute `r5`. -/
def panelFeatures : FeaturesDataStore :=
  { records := []
    posLineCountMap := [("r5", 1)]
    negLineCountMap := []
    posPadCountMap := []
    negPadCountMap := []
    posArcCountMap := []
    negArcCountMap := []
    posSurfaceCount := 0
    negSurfaceCount := 0
    posTextCount := 0
    negTextCount := 0
    posBarcodeCount := 0
    negBarcodeCount := 0 }

/-- The `STEP-REPEAT` block of the panel: a 2 by 3 grid of `pcb`, mirrored and rotated
by 90 degrees. -/
def panelBlock : StepRepeatBlock :=
  { NAME := some "PCB", X := some 1, Y := some 2, DX := some 3, DY := some 4,
    NX := some 2, NY := some 3, ANGLE := some 90, MIRROR := some "YES" }

/-- Header of the panel step. -/
def panelHeader : StepHeader :=
  { X_DATUM := some 0, Y_DATUM := some 0, X_ORIGIN := some 0, Y_ORIGIN := some 0,
    TOP_ACTIVE := some 0, BOTTOM_ACTIVE := some 0, LEFT_ACTIVE := some 0,
    RIGHT_ACTIVE := some 0, stepRepeat := [panelBlock] }

/-- Header of the board step: datum `(1, 2)`, no `STEP-REPEAT` block. -/
def pcbHeader : StepHeader :=
  { X_DATUM := some 1, Y_DATUM := some 2, X_ORIGIN := some 0, Y_ORIGIN := some 0,
    TOP_ACTIVE := some 0, BOTTOM_ACTIVE := some 0, LEFT_ACTIVE := some 0,
    RIGHT_ACTIVE := some 0, stepRepeat := [] }

/-- An archive with the two steps `panel` and `pcb`. -/
def exampleContext : Context :=
  { parseFeatures := fun _ step =>
      if step = "panel" then some panelFeatures
      else if step = "pcb" then some pcbFeatures
      else none
    parseStepHdr := fun step =>
      if step = "panel" then some panelHeader
      else if step = "pcb" then some pcbHeader
      else none
    qSin := fun _ => 0
    qCos := fun _ => 1
    uninit := ⟨0, 0, 0, 0, 0, 0, 0, 0, 0, 0⟩ }

/-- Whether a count map holds every key once can be computed. -/
instance CountMapType.decidableUniqueKeys (m : CountMapType) : Decidable m.UniqueKeys :=
  inferInstanceAs (Decidable m.keys.Nodup)

/-- Whether all six maps hold every key once can be computed. -/
instance CountTables.decidableUniqueKeys (t : CountTables) : Decidable t.UniqueKeys :=
  inferInstanceAs (Decidable (t.posLine.UniqueKeys ∧ t.negLine.UniqueKeys ∧
    t.posPad.UniqueKeys ∧ t.negPad.UniqueKeys ∧ t.posArc.UniqueKeys ∧ t.negArc.UniqueKeys))

/-- The board instance right after its features were loaded (no step-repeat yet). -/
def pcbLoaded : LayerFeatures :=
  LayerFeatures.loadFeatures (LayerFeatures.initial exampleContext "pcb" "features" true)
    pcbFeatures

/-- The panel instance right after its features were loaded (no step-repeat yet). -/
def panelLoaded : LayerFeatures :=
  LayerFeatures.loadFeatures (LayerFeatures.initial exampleContext "panel" "features" true)
    panelFeatures

/-- The panel instance as built by the constructor with step-repeat enabled. -/
def panelInstance : LayerFeatures :=
  match LayerFeatures.new exampleContext 2 "panel" "features" true with
  | .ok self => self
  | .error _ => panelLoaded

/-- A construction that throws for cell `(1, 2)` and returns the board for every other
cell. -/
def failingAt12 : Nat → Nat → Nat → String → Result LayerFeatures :=
  fun _ i j _ => if i = 1 ∧ j = 2 then .error (.exception .stdException) else .ok pcbLoaded

/-! ## Calls on an instance and what their failures look like -/

/-- The failure of a call, if it did not return. -/
def Result.failure? {α : Type} (r : Result α) : Option Failure :=
  match r with
  | .ok _ => none
  | .error f => some f

/-- A call of a public mutator on a `LayerFeatures` instance, as the viewer issues them:
`setShowStepRepeat(status)` or `addToScene(scene)`. -/
inductive Call where
  | setShowStepRepeat (status : Bool)
  | addToScene (scene : Nat)
  deriving DecidableEq, Repr

/-- Effect of one call on the instance: the state it leaves and, when it did not return,
the failure. -/
def Call.exit (ctx : Context) (fuel : Nat) (self : LayerFeatures) :
    Call → LayerFeatures × Option Failure
  | .setShowStepRepeat status => LayerFeatures.setShowStepRepeatExit ctx fuel self status
  | .addToScene scene => (self.addToScene scene, none)

/-- Number of times a call made in state `self` enters `loadStepAndRepeat`:
`setShowStepRepeat(status)` does so exactly when its guard
`status && !m_stepRepeatLoaded` holds, `addToScene` never does. -/
def Call.expansions (self : LayerFeatures) : Call → Nat
  | .setShowStepRepeat status => if status && !self.m_stepRepeatLoaded then 1 else 0
  | .addToScene _ => 0

/-- A sequence of calls on one instance: the final state and the number of times
`loadStepAndRepeat` was entered on the way. A call that throws an exception leaves the
instance in the state reached at the throw and the sequence goes on from there (the
caller handled the exception); a fault ends the process and with it the sequence. -/
def runCalls (ctx : Context) (fuel : Nat) : LayerFeatures → List Call →
    Result (LayerFeatures × Nat)
  | self, [] => .ok (self, 0)
  | self, c :: rest =>
    match c.exit ctx fuel self with
    | (next, none) => do
      let r ← runCalls ctx fuel next rest
      pure (r.1, c.expansions self + r.2)
    | (next, some (.exception _)) => do
      let r ← runCalls ctx fuel next rest
      pure (r.1, c.expansions self + r.2)
    | (_, some f) => .error f

/-- Number of times the constructor enters `loadStepAndRepeat`: once when step-repeat is
requested and the features file parsed, never otherwise. -/
def constructionExpansions (ctx : Context) (step path : String) (stepRepeat : Bool) : Nat :=
  if stepRepeat && (ctx.parseFeatures path step).isSome then 1 else 0

/-- The children that the blocks of a header contribute to `m_repeats`, in file order
(block by block, each block in grid order). -/
def headerChildren (ctx : Context)
    (newLayerFeatures : Nat → Nat → Nat → String → Result LayerFeatures)
    (blocks : List (Nat × StepRepeatBlock)) : List LayerFeatures :=
  blocks.flatMap (fun bblk =>
    match LayerFeatures.readStepRepeat bblk.2 with
    | .ok p => (gridCells p.nx p.ny).filterMap (cellChild ctx newLayerFeatures bblk.1 p)
    | .error _ => [])

/-- Every block has its nine keys and no construction requested by any grid faults or
diverges. -/
def BlocksReturnOrThrow (newLayerFeatures : Nat → Nat → Nat → String → Result LayerFeatures)
    (blocks : List (Nat × StepRepeatBlock)) : Prop :=
  ∀ bblk ∈ blocks, ∃ p, LayerFeatures.readStepRepeat bblk.2 = .ok p ∧
    GridReturnsOrThrows newLayerFeatures bblk.1 p.name p.nx p.ny

/-- Some of the eight header keys read by the first `try` block is missing. -/
def StepHeader.lacksParameter (hds : StepHeader) : Prop :=
  hds.X_DATUM = none ∨ hds.Y_DATUM = none ∨ hds.X_ORIGIN = none ∨ hds.Y_ORIGIN = none ∨
  hds.TOP_ACTIVE = none ∨ hds.BOTTOM_ACTIVE = none ∨ hds.LEFT_ACTIVE = none ∨
  hds.RIGHT_ACTIVE = none

/-! ## Archives with a defective panel header -/

/-- The block of the panel with its `MIRROR` key missing. -/
def blockWithoutMirror : StepRepeatBlock := { panelBlock with MIRROR := none }

/-- A panel header whose second of three `STEP-REPEAT` blocks lacks the key `MIRROR`. -/
def panelHeaderWithBadBlock : StepHeader :=
  { panelHeader with stepRepeat := [panelBlock, blockWithoutMirror, panelBlock] }

/-- The example archive with the defective panel header. -/
def badBlockContext : Context :=
  { exampleContext with
    parseStepHdr := fun step =>
      if step = "panel" then some panelHeaderWithBadBlock
      else exampleContext.parseStepHdr step }

/-- The example archive in which the header file of the panel cannot be parsed (the
parser returns a null pointer). -/
def noHeaderContext : Context :=
  { exampleContext with
    parseStepHdr := fun step =>
      if step = "panel" then none else exampleContext.parseStepHdr step }

/-! ## Surface symbols (`symbol/surfacesymbol.cpp`) -/

/-- A closed subpath of a `QPainterPath`, reduced to what the surface code observes of it:
the points it encloses and the rectangle around its control points (of non-negative
width and height). -/
structure Subpath where
  encloses : QPointF → Bool
  bounds : QRectF

/-- A `QPainterPath` as a list of closed subpaths. The fill rule is the default of a
fresh path, `Qt::OddEvenFill`; the source never sets another. -/
structure QPainterPath where
  subpaths : List Subpath

namespace QPainterPath

/-- Default constructor `QPainterPath()`: no subpath. -/
def empty : QPainterPath := ⟨[]⟩

/-- Method `QPainterPath::addPath(other)`: the subpaths of `other` are appended. -/
def addPath (self other : QPainterPath) : QPainterPath :=
  ⟨self.subpaths ++ other.subpaths⟩

/-- Smallest rectangle around two rectangles of non-negative size, degenerate ones
included (a control point counts even if its rectangle has no area). -/
def hull (a b : QRectF) : QRectF :=
  let left := min a.xp b.xp
  let top := min a.yp b.yp
  let right := max (a.xp + a.w) (b.xp + b.w)
  let bottom := max (a.yp + a.h) (b.yp + b.h)
  ⟨left, top, right - left, bottom - top⟩

/-- Method `QPainterPath::boundingRect()`: `QRectF()` for an empty path, else the
rectangle around all control points. -/
def boundingRect (self : QPainterPath) : QRectF :=
  match self.subpaths with
  | [] => QRectF.null
  | s :: rest => rest.foldl (fun acc t => hull acc t.bounds) s.bounds

/-- Method `QPainterPath::contains(point)` under `Qt::OddEvenFill`: the point is inside
when it is enclosed by an odd number of subpaths. -/
def contains (self : QPainterPath) (pt : QPointF) : Bool :=
  (self.subpaths.filter (fun s => s.encloses pt)).length % 2 == 1

end QPainterPath

/-- Polygon type `PolygonRecord::I` (island) or `PolygonRecord::H` (hole). -/
inductive PolyType where
  | I
  | H
  deriving DecidableEq, Repr

/-- Operation type `SurfaceOperation::SEGMENT` or `SurfaceOperation::CURVE`. -/
inductive OperationType where
  | SEGMENT
  | CURVE
  deriving DecidableEq, Repr

/-- The fields of a `SurfaceOperation` read by `getAngle()`: the end point `(x, y)` of a
segment, the end point `(xe, ye)` of a curve. -/
structure SurfaceOperation where
  type : OperationType
  x : ℚ
  y : ℚ
  xe : ℚ
  ye : ℚ
  deriving DecidableEq, Repr

/-- A `PolygonRecord` as the surface symbol uses it: its type, its start point
`(xbs, ybs)`, its operations in file order, and the path its own `painterPath()`
returns (that method is not part of the sources at hand, so its result is data). -/
structure PolygonRecord where
  poly_type : PolyType
  xbs : ℚ
  ybs : ℚ
  operations : List SurfaceOperation
  painterPath : QPainterPath

/-- The part of a `SurfaceRecord` the symbol constructor copies: the polygons in file
order. -/
structure SurfaceRecord where
  polygons : List PolygonRecord

/-- Rounding of a number to the nearest integer, ties to the even one. -/
def roundHalfEven (y : ℚ) : Int :=
  let f := ⌊y⌋
  let r := y - f
  if r < 1 / 2 then f
  else if 1 / 2 < r then f + 1
  else if f % 2 = 0 then f else f + 1

/-- Rounding to the nearest binary64 number (53 significant bits, ties to even), the
rounding of an arithmetic operation on `double`; for magnitudes in the normal range
(overflow and subnormal numbers are not represented). -/
def roundToDouble (x : ℚ) : ℚ :=
  if x = 0 then 0
  else
    let ulp : ℚ := 2 ^ (Int.log 2 |x| - 52)
    (roundHalfEven (x / ulp) : ℚ) * ulp

/-- Class `SurfaceSymbol`: its polygons, its two counters and the bounding rectangle
`m_bounding` of the `Symbol` base. -/
structure SurfaceSymbol where
  m_polygons : List PolygonRecord
  m_holeCount : Nat
  m_islandCount : Nat
  m_bounding : QRectF

namespace SurfaceSymbol

/-- Method `SurfaceSymbol::painterPath()`: both counters are reset, then every polygon
in order has its path added with `addPath` and is counted as an island or as a hole.
The result is the path together with the symbol carrying the new counters. -/
def painterPath (self : SurfaceSymbol) : QPainterPath × SurfaceSymbol :=
  self.m_polygons.foldl (fun (acc : QPainterPath × SurfaceSymbol) rec =>
    let path := acc.1.addPath rec.painterPath
    if rec.poly_type = PolyType.I then
      (path, { acc.2 with m_islandCount := acc.2.m_islandCount + 1 })
    else
      (path, { acc.2 with m_holeCount := acc.2.m_holeCount + 1 }))
    (QPainterPath.empty, { self with m_islandCount := 0, m_holeCount := 0 })

/-- Constructor `SurfaceSymbol::SurfaceSymbol(rec)`: counters zero, polygons copied, and
`m_bounding = painterPath().boundingRect()`. -/
def new (rec : SurfaceRecord) : SurfaceSymbol :=
  let self : SurfaceSymbol :=
    { m_polygons := rec.polygons, m_holeCount := 0, m_islandCount := 0,
      m_bounding := QRectF.null }
  let r := self.painterPath
  { r.2 with m_bounding := r.1.boundingRect }

/-- Method `SurfaceSymbol::getWidth()`. -/
def getWidth (self : SurfaceSymbol) : ℚ :=
  let width := self.m_bounding.w
  let height := self.m_bounding.h
  if width ≤ 0 ∨ height ≤ 0 then -1
  else min width height

/-- Method `SurfaceSymbol::isTrace()`, with its threshold `2.0`. -/
def isTrace (self : SurfaceSymbol) : Bool :=
  let width := self.m_bounding.w
  let height := self.m_bounding.h
  if width ≤ 0 ∨ height ≤ 0 then false
  else
    let ratio := max width height / min width height
    let TRACE_ASPECT_RATIO_THRESHOLD : ℚ := 2
    decide (ratio > TRACE_ASPECT_RATIO_THRESHOLD)

/-- The two closing statements of both branches of `getAngle()`:
`angle = qAtan2(dy, dx) * 180.0 / M_PI; if (angle < 0) angle += 360.0;`. The arctangent
in degrees as the first statement computes it, `atan2Degrees dy dx`, is a parameter; the
sum of the second statement is the `double` sum, rounded to the nearest binary64
number. -/
def directionDegrees (atan2Degrees : ℚ → ℚ → ℚ) (dx dy : ℚ) : ℚ :=
  let angle := atan2Degrees dy dx
  if angle < 0 then roundToDouble (angle + 360) else angle

/-- Method `SurfaceSymbol::getAngle()`. -/
def getAngle (atan2Degrees : ℚ → ℚ → ℚ) (self : SurfaceSymbol) : ℚ :=
  match self.m_polygons with
  | [] => -1
  | polygon :: _ =>
    match polygon.operations with
    | [] =>
      let dx := self.m_bounding.w
      let dy := self.m_bounding.h
      if dx = 0 ∧ dy = 0 then -1
      else directionDegrees atan2Degrees dx dy
    | op :: _ =>
      let sx := polygon.xbs
      let sy := polygon.ybs
      let e : ℚ × ℚ :=
        if op.type = OperationType.SEGMENT then (op.x, op.y) else (op.xe, op.ye)
      let dx := e.1 - sx
      let dy := e.2 - sy
      if dx = 0 ∧ dy = 0 then -1
      else directionDegrees atan2Degrees dx dy

end SurfaceSymbol

/-- What the theorems assume of the arctangent in degrees: its values lie in
`(-180, 180]`, and it is exact on the four axis directions. -/
structure IsAtan2Degrees (f : ℚ → ℚ → ℚ) : Prop where
  range : ∀ dy dx, -180 < f dy dx ∧ f dy dx ≤ 180
  east : ∀ dx, 0 < dx → f 0 dx = 0
  north : ∀ dy, 0 < dy → f dy 0 = 90
  west : ∀ dx, dx < 0 → f 0 dx = 180
  south : ∀ dy, dy < 0 → f dy 0 = -90

/-- End point of an operation as `getAngle()` reads it: `(x, y)` of a segment, `(xe, ye)`
of a curve. -/
def SurfaceOperation.endPoint (op : SurfaceOperation) : QPointF :=
  match op.type with
  | .SEGMENT => ⟨op.x, op.y⟩
  | .CURVE => ⟨op.xe, op.ye⟩

/-- Reading of "an island is united into the accumulated path, a hole is subtracted
from it", on the filled points: whether `pt` is filled after the polygons were
combined in file order in that way. -/
def filledByTypeInOrder (polygons : List PolygonRecord) (pt : QPointF) : Bool :=
  polygons.foldl (fun filled rec =>
    if rec.poly_type = PolyType.I then filled || rec.painterPath.contains pt
    else filled && !rec.painterPath.contains pt) false

/-- Reading of "the union of the island paths minus the union of the hole paths", on the
filled points. -/
def islandsMinusHoles (polygons : List PolygonRecord) (pt : QPointF) : Bool :=
  polygons.any (fun rec => decide (rec.poly_type = PolyType.I) && rec.painterPath.contains pt)
    && !polygons.any (fun rec =>
      decide (rec.poly_type = PolyType.H) && rec.painterPath.contains pt)

/-- Axis-parallel square `[lo, hi] x [lo, hi]` as a one-subpath path. -/
def squarePath (lo hi : ℚ) : QPainterPath :=
  ⟨[{ encloses := fun pt => decide (lo ≤ pt.x ∧ pt.x ≤ hi ∧ lo ≤ pt.y ∧ pt.y ≤ hi),
      bounds := ⟨lo, lo, hi - lo, hi - lo⟩ }]⟩

/-- Polygon record of the square `[lo, hi] x [lo, hi]`, drawn by four segments from its
corner `(lo, lo)`. -/
def squarePolygon (t : PolyType) (lo hi : ℚ) : PolygonRecord :=
  { poly_type := t, xbs := lo, ybs := lo,
    operations := [⟨.SEGMENT, hi, lo, 0, 0⟩, ⟨.SEGMENT, hi, hi, 0, 0⟩,
      ⟨.SEGMENT, lo, hi, 0, 0⟩, ⟨.SEGMENT, lo, lo, 0, 0⟩],
    painterPath := squarePath lo hi }

/-- A surface with an island inside a hole inside an island: squares of side 10, 6
and 2 around the point `(5, 5)`. -/
def nestedSurface : SurfaceSymbol :=
  SurfaceSymbol.new
    ⟨[squarePolygon .I 0 10, squarePolygon .H 2 8, squarePolygon .I 4 6]⟩

/-- A surface whose file lists a hole before the island that contains it. -/
def holeFirstSurface : SurfaceSymbol :=
  SurfaceSymbol.new ⟨[squarePolygon .H 2 8, squarePolygon .I 0 10]⟩

/-- A coarse arctangent in degrees, exact on the axes: enough to instantiate
`IsAtan2Degrees`. -/
def coarseAtan2Degrees (dy dx : ℚ) : ℚ :=
  if dy = 0 then (if 0 ≤ dx then 0 else 180)
  else if 0 < dy then 90 else -90

/-- A first-order arctangent in degrees for directions right of the `y` axis (the
arctangent of a slope `t` is `t` up to terms of third order), the coarse one elsewhere:
enough to evaluate directions of very small slope. -/
def slopeAtan2Degrees (dy dx : ℚ) : ℚ :=
  if 0 < dx then dy / dx * (5729578 / 100000) else coarseAtan2Degrees dy dx

/-- A thin triangle that starts at `(0, 1e-15)` and whose first segment ends at
`(10, 0)`. -/
def shallowPolygon : PolygonRecord :=
  { poly_type := .I, xbs := 0, ybs := 1 / 10 ^ 15,
    operations := [⟨.SEGMENT, 10, 0, 0, 0⟩, ⟨.SEGMENT, 10, 1 / 10 ^ 15, 0, 0⟩,
      ⟨.SEGMENT, 0, 1 / 10 ^ 15, 0, 0⟩],
    painterPath :=
      ⟨[{ encloses := fun pt => decide (0 ≤ pt.x ∧ pt.x ≤ 10 ∧ pt.y ≤ 1 / 10 ^ 15 ∧
            1 / 10 ^ 15 - pt.x / 10 ^ 16 ≤ pt.y),
          bounds := ⟨0, 0, 10, 1 / 10 ^ 15⟩ }]⟩ }

/-- The surface made of that triangle. -/
def shallowSurface : SurfaceSymbol := SurfaceSymbol.new ⟨[shallowPolygon]⟩

/-- The panel header without its `X_DATUM` key. -/
def panelHeaderWithoutDatum : StepHeader := { panelHeader with X_DATUM := none }

/-- The example archive with the panel header that lacks `X_DATUM`. -/
def noDatumContext : Context :=
  { exampleContext with
    parseStepHdr := fun step =>
      if step = "panel" then some panelHeaderWithoutDatum
      else exampleContext.parseStepHdr step }

/-- The panel constructed without step-repeat. -/
def panelPlain : LayerFeatures :=
  LayerFeatures.loadFeatures (LayerFeatures.initial exampleContext "panel" "features" false)
    panelFeatures

/-- A session on the panel: it is added to a scene, then step-repeat is switched on, off
and on again. -/
def exampleCalls : List Call :=
  [.addToScene 0, .setShowStepRepeat true, .setShowStepRepeat false, .setShowStepRepeat true]

/-- The panel of the archive with the defective header, constructed without
step-repeat. -/
def panelPlainBad : LayerFeatures :=
  LayerFeatures.loadFeatures
    (LayerFeatures.initial badBlockContext "panel" "features" false) panelFeatures

/-- That panel after it was added to a scene and `setShowStepRepeat(true)` threw at the
block without `MIRROR`. -/
def panelAfterThrow : LayerFeatures :=
  (LayerFeatures.setShowStepRepeatExit badBlockContext 1 (panelPlainBad.addToScene 0) true).1

/-- A session on that panel: it is added to a scene, then step-repeat is switched on
twice. -/
def retryCalls : List Call :=
  [.addToScene 0, .setShowStepRepeat true, .setShowStepRepeat true]

/-- Outcome of the example session: the final instance and the number of expansions. -/
def exampleCallsResult : LayerFeatures × Nat :=
  match runCalls exampleContext 1 panelPlain exampleCalls with
  | .ok r => r
  | .error _ => (panelPlain, 0)

/-! ## Trace thickness on a rendered image (`SurfaceSymbol::measureTraceThickness`) -/

/-- A `QColor` through its `red()`, `green()` and `blue()` channels. -/
structure QColor where
  red : Int
  green : Int
  blue : Int
  deriving DecidableEq, Repr

/-- A `QImage` through `width()`, `height()` and `pixel(x, y)`. -/
structure QImage where
  width : Int
  height : Int
  pixel : Int → Int → QColor

namespace SurfaceSymbol

/-- The lambda `colorMatch(c1, c2, tolerance)` of `measureTraceThickness`: every channel
differs by at most `tolerance` (the source always uses the default, 40). -/
def colorMatch (c1 c2 : QColor) (tolerance : Int) : Bool :=
  decide (|c1.red - c2.red| ≤ tolerance) &&
  decide (|c1.green - c2.green| ≤ tolerance) &&
  decide (|c1.blue - c2.blue| ≤ tolerance)

/-- The positions `p - 1, p - 2, ..., 0` visited by a scan in the negative direction. -/
def scanBefore (p : Int) : List Int :=
  (List.range p.toNat).reverse.map (fun (k : Nat) => (k : Int))

/-- The positions `p + 1, p + 2, ..., size - 1` visited by a scan in the positive
direction. -/
def scanAfter (p size : Int) : List Int :=
  (List.range (size - p - 1).toNat).map (fun (k : Nat) => p + 1 + (k : Int))

/-- One scan loop `for (...) { if (!colorMatch(...)) break; l++; }`: the number of
positions visited before the first one whose pixel does not match. -/
def scanLength (onTrace : Int → Bool) (positions : List Int) : Int :=
  ((positions.takeWhile onTrace).length : Int)

/-- Static method `SurfaceSymbol::measureTraceThickness`. The parameter `cosDegrees`
stands for `a ↦ qCos(a * M_PI / 180.0)`. -/
def measureTraceThickness (cosDegrees : ℚ → ℚ) (image : QImage) (pixelX pixelY : Int)
    (angle : ℚ) (sceneRect targetRect : QRectF) (highlightColor : QColor) : ℚ :=
  if pixelX < 0 ∨ pixelX ≥ image.width ∨ pixelY < 0 ∨ pixelY ≥ image.height then -1
  else
    let centerColor := image.pixel pixelX pixelY
    if !colorMatch centerColor highlightColor 40 then -1
    else
      let normalizedAngle := if angle ≥ 180 then angle - 180 else angle
      let scanHorizontal : Bool := decide (|normalizedAngle - 90| < 5)
      let l1 :=
        if scanHorizontal then
          scanLength (fun x => colorMatch (image.pixel x pixelY) highlightColor 40)
            (scanBefore pixelX)
        else
          scanLength (fun y => colorMatch (image.pixel pixelX y) highlightColor 40)
            (scanBefore pixelY)
      let l2 :=
        if scanHorizontal then
          scanLength (fun x => colorMatch (image.pixel x pixelY) highlightColor 40)
            (scanAfter pixelX image.width)
        else
          scanLength (fun y => colorMatch (image.pixel pixelX y) highlightColor 40)
            (scanAfter pixelY image.height)
      let totalPixels : Int := l1 + l2 + 1
      if totalPixels ≤ 1 then -1
      else
        let scaleX := sceneRect.w / targetRect.w
        let scaleY := sceneRect.h / targetRect.h
        let pixelSize := if scanHorizontal then scaleX else scaleY
        let l_inches := (totalPixels : ℚ) * pixelSize
        let w_inches :=
          if scanHorizontal then l_inches else l_inches * cosDegrees normalizedAngle
        let w_mm := w_inches * (254 / 10)
        w_mm

end SurfaceSymbol

/-- The highlight colour blue, `QColor(0, 0, 255)`. -/
def blue : QColor := ⟨0, 0, 255⟩

/-- An image one pixel wide and three pixels high, all of the highlight colour: a
vertical cut through a trace three pixels thick. -/
def stripeImage : QImage := { width := 1, height := 3, pixel := fun _ _ => blue }

/-- A cosine in degrees reduced to its sign on `[0, 180]`. -/
def coarseCosDegrees (a : ℚ) : ℚ := if a < 90 then 1 else if a = 90 then 0 else -1

/-! ## The Go To dialog (`gui/gotocoordinatedialog.cpp`) -/

/-- Class `GoToCoordinateDialog`: the values held by its input widgets (the two spin
boxes, the current index of the unit and zoom combo boxes), its three data members, and
the result of the dialog once it was closed (`true` for `QDialog::Accepted`). -/
structure GoToCoordinateDialog where
  m_xSpinBox : ℚ
  m_ySpinBox : ℚ
  m_unitComboBox : Int
  m_zoomComboBox : Nat
  m_currentUnit : Int
  m_coordinate : QPointF
  m_zoomLevel : ℚ
  result : Option Bool
  deriving DecidableEq, Repr

namespace GoToCoordinateDialog

/-- The zoom levels offered by the zoom combo box, `"1x"` to `"4096x"`, as numbers. -/
def zoomLevels : List ℚ := [1, 2, 4, 8, 16, 32, 64, 128, 256, 512, 1024, 2048, 4096]

/-- Constructor with `setupUI()`: unit inch, coordinate `(0, 0)`, zoom 128 (index 7), both
spin boxes at 0. -/
def new : GoToCoordinateDialog :=
  { m_xSpinBox := 0, m_ySpinBox := 0, m_unitComboBox := 0, m_zoomComboBox := 7,
    m_currentUnit := 0, m_coordinate := ⟨0, 0⟩, m_zoomLevel := 128, result := none }

/-- Method `convertCoordinates(fromUnit, toUnit)`. The parameter `setValue` is what a
`QDoubleSpinBox` stores when given a value (rounded to its six decimals and clamped to its
range). -/
def convertCoordinates (setValue : ℚ → ℚ) (self : GoToCoordinateDialog)
    (fromUnit toUnit : Int) : GoToCoordinateDialog :=
  if fromUnit = toUnit then self
  else
    let currentX := self.m_xSpinBox
    let currentY := self.m_ySpinBox
    let (currentX, currentY) :=
      if fromUnit = 0 ∧ toUnit = 1 then (currentX * (254 / 10), currentY * (254 / 10))
      else if fromUnit = 1 ∧ toUnit = 0 then (currentX / (254 / 10), currentY / (254 / 10))
      else (currentX, currentY)
    { self with m_xSpinBox := setValue currentX, m_ySpinBox := setValue currentY }

/-- Slot `onUnitChanged(index)` (the suffix of the spin boxes is not represented). -/
def onUnitChanged (setValue : ℚ → ℚ) (self : GoToCoordinateDialog) (index : Int) :
    GoToCoordinateDialog :=
  if index = self.m_currentUnit then self
  else
    let self := self.convertCoordinates setValue self.m_currentUnit index
    { self with m_currentUnit := index }

/-- Call `m_unitComboBox->setCurrentIndex(index)` for an index of the box, also made by
the user picking an entry: when the index changes, `currentIndexChanged(index)` is emitted
and the connected slot `onUnitChanged` runs. -/
def setUnitIndex (setValue : ℚ → ℚ) (self : GoToCoordinateDialog) (index : Int) :
    GoToCoordinateDialog :=
  if index = self.m_unitComboBox then self
  else onUnitChanged setValue { self with m_unitComboBox := index } index

/-- Method `setDisplayUnit(unit)`. -/
def setDisplayUnit (setValue : ℚ → ℚ) (self : GoToCoordinateDialog) (unit : Int) :
    GoToCoordinateDialog :=
  if unit ≥ 0 ∧ unit ≤ 1 then
    let self := self.setUnitIndex setValue unit
    self.onUnitChanged setValue unit
  else self

/-- Slot `onGoToClicked()`: the spin box values, divided by 25.4 when the current unit is
MM, become `m_coordinate`; the zoom text without its `x` becomes `m_zoomLevel`; the dialog
is accepted. -/
def onGoToClicked (self : GoToCoordinateDialog) : GoToCoordinateDialog :=
  let x := self.m_xSpinBox
  let y := self.m_ySpinBox
  let (x, y) := if self.m_currentUnit = 1 then (x / (254 / 10), y / (254 / 10)) else (x, y)
  { self with
    m_coordinate := ⟨x, y⟩
    m_zoomLevel := zoomLevels.getD self.m_zoomComboBox 0
    result := some true }

/-- Slot `onCancelClicked()`. -/
def onCancelClicked (self : GoToCoordinateDialog) : GoToCoordinateDialog :=
  { self with result := some false }

/-- Accessor `getCoordinate()`. -/
def getCoordinate (self : GoToCoordinateDialog) : QPointF := self.m_coordinate

/-- Accessor `getZoomLevel()`. -/
def getZoomLevel (self : GoToCoordinateDialog) : ℚ := self.m_zoomLevel

end GoToCoordinateDialog

/-- What can happen to the dialog between its construction and a click on Go To: the user
edits a spin box, picks a unit (inch or MM) or a zoom level, clicks Go To or Cancel in an
earlier showing, or the viewer calls `setDisplayUnit` before showing it again. -/
inductive DialogEvent where
  | editX (value : ℚ)
  | editY (value : ℚ)
  | pickUnit (mm : Bool)
  | pickZoom (index : Fin 13)
  | setDisplayUnit (unit : Int)
  | clickGoTo
  | clickCancel

/-- Effect of one event on the dialog. -/
def DialogEvent.apply (setValue : ℚ → ℚ) (self : GoToCoordinateDialog) :
    DialogEvent → GoToCoordinateDialog
  | .editX value => { self with m_xSpinBox := setValue value }
  | .editY value => { self with m_ySpinBox := setValue value }
  | .pickUnit mm => self.setUnitIndex setValue (if mm then 1 else 0)
  | .pickZoom index => { self with m_zoomComboBox := index.val }
  | .setDisplayUnit unit => self.setDisplayUnit setValue unit
  | .clickGoTo => self.onGoToClicked
  | .clickCancel => self.onCancelClicked

/-- The dialog after a sequence of events, starting from its construction. -/
def dialogAfter (setValue : ℚ → ℚ) (events : List DialogEvent) : GoToCoordinateDialog :=
  events.foldl (DialogEvent.apply setValue) GoToCoordinateDialog.new

/-! ## Size of an exported PNG (`gui/pngexporter.cpp`) -/

/-- A `QSize`. -/
structure QSize where
  width : Int
  height : Int
  deriving DecidableEq, Repr

/-- The fields of `PngExporter::ExportSettings` that decide the size of the image. -/
structure ExportSettings where
  width : Int
  height : Int
  cropToContent : Bool
  deriving DecidableEq, Repr

/-- Conversion `static_cast<int>(double)`: the fractional part is discarded (values out
of the range of `int` are not represented). -/
def truncToInt (q : ℚ) : Int := if 0 ≤ q then ⌊q⌋ else ⌈q⌉

/-- The statements "Create target size" shared by `PngExporter::exportPanelToPng` and
`PngExporter::exportLayerToPng`: the size handed to `renderHighResolution`, for an export
rectangle that passed the `isEmpty()` test. -/
def PngExporter.targetSize (settings : ExportSettings) (exportRect : QRectF) : QSize :=
  let targetSize : QSize := ⟨settings.width, settings.height⟩
  if settings.cropToContent then
    let aspectRatio := exportRect.w / exportRect.h
    if aspectRatio > 1 then
      { targetSize with height := truncToInt ((settings.width : ℚ) / aspectRatio) }
    else
      { targetSize with width := truncToInt ((settings.height : ℚ) * aspectRatio) }
  else targetSize

/-! ## The report model (`LayerFeatures::reportModel`) -/

/-- A child row of the report model: its name and the number shown in its count column.
The macro `APPEND_ROW(parent, name, count)`, whose definition is in a header that is not
among the sources, is taken to append under `parent` a row showing the two texts and to
yield the item of that row, as its uses in `reportModel()` require. -/
structure ReportRow where
  name : String
  count : Nat
  deriving DecidableEq, Repr

/-- A category row of the report model: its name, the total shown in its count column and
its child rows in order. -/
structure ReportCategory where
  name : String
  total : Nat
  rows : List ReportRow
  deriving DecidableEq, Repr

namespace LayerFeatures

/-- One loop `for (it = countMap.begin(); ...) { APPEND_ROW(node, it.key() + suffix,
QString::number(it.value())); total += it.value(); }`: the rows it appends. -/
def reportRows (countMap : CountMapType) (suffix : String) : List ReportRow :=
  countMap.map (fun it => ⟨it.1 ++ suffix, it.2⟩)

/-- The same loop: the variable `unsigned total` after it (arithmetic modulo `2^32`). -/
def reportTotal (total : Nat) (countMap : CountMapType) : Nat :=
  countMap.foldl (fun total it => (total + it.2) % 2 ^ 32) total

/-- The block of `reportModel()` for one of the categories Lines, Pad and Arc: the maps
are the aggregated ones when step-repeat is shown, those of the data store otherwise. -/
def reportMapCategory (name : String) (showStepRepeat : Bool)
    (m_pos m_neg ds_pos ds_neg : CountMapType) : ReportCategory :=
  let pos := if showStepRepeat then m_pos else ds_pos
  let neg := if showStepRepeat then m_neg else ds_neg
  { name := name
    total := reportTotal (reportTotal 0 pos) neg
    rows := reportRows pos " POS" ++ reportRows neg " NEG" }

/-- The block of `reportModel()` for one of the categories Surface, Text and Barcode:
`pos` and `neg` are the aggregated counts when step-repeat is shown, but the two rows are
appended with the counts of the data store. -/
def reportScalarCategory (name : String) (showStepRepeat : Bool)
    (m_pos m_neg ds_pos ds_neg : Nat) : ReportCategory :=
  let pos := if showStepRepeat then m_pos else ds_pos
  let neg := if showStepRepeat then m_neg else ds_neg
  { name := name
    total := (pos + neg) % 2 ^ 32
    rows := [⟨"POS", ds_pos⟩, ⟨"NEG", ds_neg⟩] }

/-- Method `LayerFeatures::reportModel()`: the category rows under the root of a freshly
built model (the cached model is deleted whenever `setShowStepRepeat` runs, so a cached
model is the one built from the current state); no row without a data store. -/
def reportModel (self : LayerFeatures) : List ReportCategory :=
  match self.m_ds with
  | none => []
  | some m_ds =>
    [ reportMapCategory "Lines" self.m_showStepRepeat self.m_posLineCount self.m_negLineCount
        m_ds.posLineCountMap m_ds.negLineCountMap,
      reportMapCategory "Pad" self.m_showStepRepeat self.m_posPadCount self.m_negPadCount
        m_ds.posPadCountMap m_ds.negPadCountMap,
      reportMapCategory "Arc" self.m_showStepRepeat self.m_posArcCount self.m_negArcCount
        m_ds.posArcCountMap m_ds.negArcCountMap,
      reportScalarCategory "Surface" self.m_showStepRepeat self.m_posSurfaceCount
        self.m_negSurfaceCount m_ds.posSurfaceCount m_ds.negSurfaceCount,
      reportScalarCategory "Text" self.m_showStepRepeat self.m_posTextCount
        self.m_negTextCount m_ds.posTextCount m_ds.negTextCount,
      reportScalarCategory "Barcode" self.m_showStepRepeat self.m_posBarcodeCount
        self.m_negBarcodeCount m_ds.posBarcodeCount m_ds.negBarcodeCount ]

end LayerFeatures

/-- Sum of the counts shown in the child rows of a category. -/
def ReportCategory.rowSum (c : ReportCategory) : Nat := (c.rows.map ReportRow.count).sum

/-! ## The reference relation between steps -/

/-- Step `a` references step `b`: the header of `a` has a `STEP-REPEAT` block whose
`NAME`, lower-cased, is `b`. -/
def References (ctx : Context) (a b : String) : Prop :=
  ∃ hds, ctx.parseStepHdr a = some hds ∧
    ∃ blk ∈ hds.stepRepeat, ∃ n, blk.NAME = some n ∧ toLower n = b

/-- The reference relation has no cycle. -/
def Acyclic (ctx : Context) : Prop := ∀ a, ¬ Relation.TransGen (References ctx) a a

/-! ## The layer scene (`graphicsview/graphicslayerscene.cpp`) -/

/-- Method `QRectF::adjust(dx1, dy1, dx2, dy2)`. -/
def QRectF.adjust (r : QRectF) (dx1 dy1 dx2 dy2 : ℚ) : QRectF :=
  { xp := r.xp + dx1, yp := r.yp + dy1, w := r.w + (dx2 - dx1), h := r.h + (dy2 - dy1) }

/-- The interval `[l, r]` that `QRectF::intersects` computes for a rectangle in one
direction from its coordinate and its (possibly negative) extent. -/
def QRectF.span (p extent : ℚ) : ℚ × ℚ :=
  if extent < 0 then (p + extent, p) else (p, p + extent)

/-- One direction of `QRectF::intersects`: neither interval is a single point and they
overlap. -/
def QRectF.spansOverlap (s1 s2 : ℚ × ℚ) : Bool :=
  if s1.1 = s1.2 then false
  else if s2.1 = s2.2 then false
  else if s1.1 ≥ s2.2 ∨ s2.1 ≥ s1.2 then false
  else true

/-- Method `QRectF::intersects`: the two rectangles, normalised, overlap in both
directions; a rectangle without extent in a direction intersects nothing. -/
def QRectF.intersects (a r : QRectF) : Bool :=
  QRectF.spansOverlap (QRectF.span a.xp a.w) (QRectF.span r.xp r.w) &&
  QRectF.spansOverlap (QRectF.span a.yp a.h) (QRectF.span r.yp r.h)

/-- What the scene reads of a `Symbol` object through its methods: `name()`, the name of
its dynamic type (`typeid(*symbol).name()`), `boundingRect()`, `sceneBoundingRect()`,
`isTrace()` and `getWidth()`. -/
structure SceneSymbol where
  name : String
  typeName : String
  boundingRect : QRectF
  sceneBoundingRect : QRectF
  isTrace : Bool
  getWidth : ℚ

/-- A surface symbol as the scene sees it: its name is `"Surface"`, and `isTrace()` and
`getWidth()` are the overrides of `SurfaceSymbol`. -/
def SurfaceSymbol.toSceneSymbol (self : SurfaceSymbol) (typeName : String)
    (sceneBoundingRect : QRectF) : SceneSymbol :=
  { name := "Surface", typeName := typeName, boundingRect := self.m_bounding,
    sceneBoundingRect := sceneBoundingRect, isTrace := self.isTrace,
    getWidth := self.getWidth }

/-- Class `GraphicsLayerScene`. A pointer `Symbol*` is `none` when null and `some a` for
the object at address `a`. `items` is `items()` in its order, each item after
`dynamic_cast<Symbol*>` (`none` for an item that is not a symbol); `symbol` gives the
object behind an address; `shapesIntersect a b` is
`a->mapToScene(a->shape()).intersects(b->mapToScene(b->shape()))`; `m_graphicsLayer` is
`none` when null, and otherwise holds the name returned by `Layer::layer()` when the
graphics layer is a `Layer`. -/
structure GraphicsLayerScene where
  items : List (Option Nat)
  symbol : Nat → SceneSymbol
  shapesIntersect : Nat → Nat → Bool
  m_graphicsLayer : Option (Option String)
  m_highlight : Bool
  m_selectedSymbols : List (Option Nat)

namespace GraphicsLayerScene

/-- Method `areSymbolsConnected(sym1, sym2, tolerance)`. -/
def areSymbolsConnected (self : GraphicsLayerScene) (sym1 sym2 : Option Nat)
    (tolerance : ℚ) : Bool :=
  match sym1, sym2 with
  | some a, some b =>
    let rect1 := (self.symbol a).sceneBoundingRect
    let rect2 := (self.symbol b).sceneBoundingRect
    let rect1 := rect1.adjust (-tolerance) (-tolerance) tolerance tolerance
    let rect2 := rect2.adjust (-tolerance) (-tolerance) tolerance tolerance
    if !rect1.intersects rect2 then false
    else self.shapesIntersect a b
  | _, _ => false

/-- Method `findConnectedSymbols(symbol, visited, tolerance)`: the set `visited` after the
call (a `QSet`, held as a list without repetition). The depth of the recursion is bounded
by `fuel`. -/
def findConnectedSymbols (self : GraphicsLayerScene) :
    Nat → Option Nat → List Nat → ℚ → Result (List Nat)
  | 0, _, _, _ => .error .outOfFuel
  | fuel + 1, symbol, visited, tolerance =>
    match symbol with
    | none => .ok visited
    | some s =>
      if visited.contains s then .ok visited
      else
        let visited := visited.insert s
        self.items.foldlM (fun visited item =>
          match item with
          | none => .ok visited
          | some otherSymbol =>
            if visited.contains otherSymbol then .ok visited
            else if self.areSymbolsConnected (some s) (some otherSymbol) tolerance then
              findConnectedSymbols self fuel (some otherSymbol) visited tolerance
            else .ok visited) visited

end GraphicsLayerScene

/-- Symbol `b` is a symbol of the scene and `areSymbolsConnected(a, b)` holds. -/
def Linked (self : GraphicsLayerScene) (tolerance : ℚ) (a b : Nat) : Prop :=
  some b ∈ self.items ∧ self.areSymbolsConnected (some a) (some b) tolerance = true

/-- Symbol `x` is reachable from `start` through a chain of pairwise connected symbols
of the scene (the chain may be empty: `start` itself). -/
def ReachableFrom (self : GraphicsLayerScene) (tolerance : ℚ) (start x : Nat) : Prop :=
  Relation.ReflTransGen (Linked self tolerance) start x

/-! ## Selection, trace filters and saved highlights of the layer scene -/

/-- What the scene obtains from outside the class: the highlight colour of the global
context (`ctx.highlight_color`), the clock (`QDateTime::currentDateTime()` as ISO text),
the fixed-point formatting `QString::number(v, 'f', 6)` and the hexadecimal MD5 digest of
a text. -/
structure SceneContext where
  highlight_color : QColor
  currentDateTime : String
  numberF6 : ℚ → String
  md5Hex : String → String

/-- One entry of the array `"symbols"` of a saved highlight file. -/
structure SymbolJson where
  id : String
  name : String
  type : String
  bounds : QRectF
  highlightColor : QColor

/-- The JSON object of a saved highlight file, through the values the scene writes and
reads: an absent text reads as the empty text, an absent number as zero, an absent array
as the empty array; `layerName` is `none` when the key is absent. -/
structure HighlightJson where
  version : String
  timestamp : String
  highlightCount : Nat
  layerName : Option String
  symbols : List SymbolJson

namespace GraphicsLayerScene

/-- Constructor: no graphics layer, highlighting off, nothing selected. -/
def new (items : List (Option Nat)) (symbol : Nat → SceneSymbol)
    (shapesIntersect : Nat → Nat → Bool) : GraphicsLayerScene :=
  { items := items, symbol := symbol, shapesIntersect := shapesIntersect,
    m_graphicsLayer := none, m_highlight := false, m_selectedSymbols := [] }

/-- Method `setGraphicsLayer(layer)`. -/
def setGraphicsLayer (self : GraphicsLayerScene) (layer : Option (Option String)) :
    GraphicsLayerScene :=
  { self with m_graphicsLayer := layer }

/-- Method `clearHighlight()`: `restoreColor()` is called on every selected symbol (a null
pointer in the list is dereferenced), then the list is cleared. Colours are not
represented. -/
def clearHighlight (self : GraphicsLayerScene) : Result GraphicsLayerScene :=
  if self.m_selectedSymbols.all Option.isSome then .ok { self with m_selectedSymbols := [] }
  else .error .fault

/-- Method `updateSelection(symbol)`. -/
def updateSelection (self : GraphicsLayerScene) (symbol : Option Nat) :
    Result GraphicsLayerScene := do
  let self ← self.clearHighlight
  pure { self with m_selectedSymbols := self.m_selectedSymbols ++ [symbol] }

/-- Method `toggleSelection(symbol)`: a selected symbol is removed from the list (after
`symbol->restoreColor()`), any other is appended. -/
def toggleSelection (self : GraphicsLayerScene) (symbol : Option Nat) :
    Result GraphicsLayerScene :=
  if self.m_selectedSymbols.contains symbol then
    match symbol with
    | none => .error .fault
    | some _ => .ok { self with m_selectedSymbols := self.m_selectedSymbols.erase symbol }
  else .ok { self with m_selectedSymbols := self.m_selectedSymbols ++ [symbol] }

/-- The loop `for (Symbol* sym : connectedSymbols) if (!m_selectedSymbols.contains(sym))
m_selectedSymbols.append(sym);` shared by `selectConnectedSymbols` and
`selectTracesByWidth` (the set is walked in the order of the list that holds it). -/
def appendMissing (m_selectedSymbols : List (Option Nat)) (connectedSymbols : List Nat) :
    List (Option Nat) :=
  connectedSymbols.foldl (fun selected sym =>
    if !selected.contains (some sym) then selected ++ [some sym] else selected)
    m_selectedSymbols

/-- Method `selectConnectedSymbols(startSymbol)`: the group connected to the start symbol
is deselected when all of it is selected, and otherwise its missing members are
appended. -/
def selectConnectedSymbols (self : GraphicsLayerScene) (fuel : Nat)
    (startSymbol : Option Nat) : Result GraphicsLayerScene :=
  match startSymbol with
  | none => .ok self
  | some _ => do
    let connectedSymbols ← self.findConnectedSymbols fuel startSymbol [] (1 / 1000)
    let allSelected := connectedSymbols.all (fun sym => self.m_selectedSymbols.contains (some sym))
    if allSelected then
      pure { self with
        m_selectedSymbols := connectedSymbols.foldl (fun selected sym =>
          selected.erase (some sym)) self.m_selectedSymbols }
    else
      pure { self with
        m_selectedSymbols := appendMissing self.m_selectedSymbols connectedSymbols }

/-- First loop of `selectTracesByWidth(maxWidth)`: the symbols of the scene named
`"Surface"` that are traces and whose width is neither negative nor above `maxWidth`. -/
def matchingTraces (self : GraphicsLayerScene) (maxWidth : ℚ) : List Nat :=
  self.items.filterMap (fun item =>
    match item with
    | none => none
    | some symbol =>
      if (self.symbol symbol).name ≠ "Surface" then none
      else if !(self.symbol symbol).isTrace then none
      else
        let width := (self.symbol symbol).getWidth
        if width < 0 then none
        else if width ≤ maxWidth then some symbol
        else none)

/-- Method `selectTracesByWidth(maxWidth)`: for every matching trace not processed yet,
the members of its connected group that are not selected are appended (and marked as
processed). -/
def selectTracesByWidth (self : GraphicsLayerScene) (fuel : Nat) (maxWidth : ℚ) :
    Result GraphicsLayerScene := do
  let alreadyProcessed : List (Option Nat) :=
    self.m_selectedSymbols.foldl (fun set sym => set.insert sym) []
  let r ← (self.matchingTraces maxWidth).foldlM
    (fun (acc : List (Option Nat) × List (Option Nat)) trace =>
      if acc.2.contains (some trace) then pure acc
      else do
        let connectedSymbols ← self.findConnectedSymbols fuel (some trace) [] (1 / 1000)
        pure (connectedSymbols.foldl
          (fun (acc : List (Option Nat) × List (Option Nat)) sym =>
            if !acc.1.contains (some sym) then
              (acc.1 ++ [some sym], acc.2.insert (some sym))
            else acc) acc))
    (self.m_selectedSymbols, alreadyProcessed)
  pure { self with m_selectedSymbols := r.1 }

/-- Inline method `selectTracesR1()` of the header. -/
def selectTracesR1 (self : GraphicsLayerScene) (fuel : Nat) : Result GraphicsLayerScene :=
  self.selectTracesByWidth fuel (15 / 1000)

/-- Inline method `selectTracesR2()` of the header. -/
def selectTracesR2 (self : GraphicsLayerScene) (fuel : Nat) : Result GraphicsLayerScene :=
  self.selectTracesByWidth fuel (20 / 1000)

/-- Inline method `selectTracesR3()` of the header. -/
def selectTracesR3 (self : GraphicsLayerScene) (fuel : Nat) : Result GraphicsLayerScene :=
  self.selectTracesByWidth fuel (25 / 1000)

/-- Method `getLayerName()`: empty without a graphics layer or when it is not a
`Layer`. -/
def getLayerName (self : GraphicsLayerScene) : String :=
  match self.m_graphicsLayer with
  | none => ""
  | some none => ""
  | some (some layer) => layer

/-- Method `getSymbolIdentifier(symbol)`: the MD5 digest, in hexadecimal, of the name, the
type name and the four numbers of the bounding rectangle with six decimals, joined by
`|`; the empty text for a null pointer. -/
def getSymbolIdentifier (sctx : SceneContext) (self : GraphicsLayerScene)
    (symbol : Option Nat) : String :=
  match symbol with
  | none => ""
  | some a =>
    let bounds := (self.symbol a).boundingRect
    let parts := [(self.symbol a).name, (self.symbol a).typeName,
      sctx.numberF6 bounds.xp, sctx.numberF6 bounds.yp,
      sctx.numberF6 bounds.w, sctx.numberF6 bounds.h]
    let combined := "|".intercalate parts
    sctx.md5Hex combined

/-- Method `findSymbolByIdentifier(identifier)`: the first symbol of `items()` with this
identifier; null without a graphics layer or when there is none. -/
def findSymbolByIdentifier (sctx : SceneContext) (self : GraphicsLayerScene)
    (identifier : String) : Option Nat :=
  match self.m_graphicsLayer with
  | none => none
  | some _ =>
    (self.items.find? (fun item =>
      match item with
      | none => false
      | some symbol => self.getSymbolIdentifier sctx (some symbol) == identifier)).join

/-- Method `exportHighlightData()`: one entry per selected symbol, in the order of the
list (a null pointer in the list is dereferenced). -/
def exportHighlightData (sctx : SceneContext) (self : GraphicsLayerScene) :
    Result HighlightJson := do
  let layerName := self.getLayerName
  let symbolsArray ← self.m_selectedSymbols.mapM (fun symbol =>
    match symbol with
    | none => (.error .fault : Result SymbolJson)
    | some a =>
      .ok { id := self.getSymbolIdentifier sctx symbol
            name := (self.symbol a).name
            type := (self.symbol a).typeName
            bounds := (self.symbol a).boundingRect
            highlightColor := sctx.highlight_color })
  pure { version := "1.0"
         timestamp := sctx.currentDateTime
         highlightCount := self.m_selectedSymbols.length
         layerName := if layerName.isEmpty then none else some layerName
         symbols := symbolsArray }

/-- The comparison `boundsMatch` of `importHighlightData`, with its tolerance 0.001. -/
def boundsMatch (savedBounds currentBounds : QRectF) : Bool :=
  let tolerance : ℚ := 1 / 1000
  decide (|savedBounds.xp - currentBounds.xp| < tolerance) &&
  decide (|savedBounds.yp - currentBounds.yp| < tolerance) &&
  decide (|savedBounds.w - currentBounds.w| < tolerance) &&
  decide (|savedBounds.h - currentBounds.h| < tolerance)

/-- Method `importHighlightData(data)`: the selection is cleared; for a file of version
`"1.0"` every entry whose identifier finds a symbol with matching bounds appends that
symbol; the result tells whether at least one was appended. -/
def importHighlightData (sctx : SceneContext) (self : GraphicsLayerScene)
    (data : HighlightJson) : Result (GraphicsLayerScene × Bool) := do
  let self ← self.clearHighlight
  if data.version ≠ "1.0" then pure (self, false)
  else
    let r := data.symbols.foldl
      (fun (acc : List (Option Nat) × Nat) symbolObj =>
        match self.findSymbolByIdentifier sctx symbolObj.id with
        | some symbol =>
          if boundsMatch symbolObj.bounds (self.symbol symbol).boundingRect then
            (acc.1 ++ [some symbol], acc.2 + 1)
          else acc
        | none => acc)
      (self.m_selectedSymbols, 0)
    pure ({ self with m_selectedSymbols := r.1 }, decide (r.2 > 0))

end GraphicsLayerScene

/-! ## Example scenes -/

/-- A surface 12 mils wide and 100 mils long (scene units are inches). -/
def traceSurface : SurfaceSymbol :=
  { m_polygons := [], m_holeCount := 0, m_islandCount := 0,
    m_bounding := ⟨0, 0, 12 / 1000, 100 / 1000⟩ }

/-- A scene whose only item is the 12 mil surface, at address 1. -/
def traceScene : GraphicsLayerScene :=
  GraphicsLayerScene.new [some 1]
    (fun _ => traceSurface.toSceneSymbol "13SurfaceSymbol" traceSurface.m_bounding)
    (fun _ _ => false)

/-- Two pads of the same shape at different places: the object at address `a` has the
bounding rectangle of the shape and sits at abscissa `10 * a`. -/
def twinSymbol (a : Nat) : SceneSymbol :=
  { name := "Pad", typeName := "9PadSymbol", boundingRect := ⟨-1 / 2, -1 / 2, 1, 1⟩,
    sceneBoundingRect := ⟨10 * (a : ℚ) - 1 / 2, -1 / 2, 1, 1⟩, isTrace := false,
    getWidth := 1 }

/-- A scene with the two pads at addresses 1 and 2 and one item that is not a symbol,
shown by the layer `top`. -/
def twinScene : GraphicsLayerScene :=
  (GraphicsLayerScene.new [some 1, none, some 2] twinSymbol (fun _ _ => false)).setGraphicsLayer
    (some (some "top"))

/-- Saving the highlights of a scene and loading them back into the same scene: the
selection list afterwards and the value returned by `importHighlightData`. -/
def saveAndLoadHighlights (sctx : SceneContext) (self : GraphicsLayerScene) :
    Result (List (Option Nat) × Bool) := do
  let data ← self.exportHighlightData sctx
  let r ← self.importHighlightData sctx data
  pure (r.1.m_selectedSymbols, r.2)

/-- The scene of the two pads with the given selection list. -/
def twinSceneSelecting (selected : List (Option Nat)) : GraphicsLayerScene :=
  { twinScene with m_selectedSymbols := selected }

end QCamber

/-! # Theorems -/

namespace QCamber

open LayerFeatures

/-! ## Count maps -/

namespace CountMapType

theorem value_addAt (m : CountMapType) (k : String) (v : Nat) (k' : String) :
    value (addAt m k v) k' = if k' = k then value m k + v else value m k' := by
  induction m with
  | nil =>
    by_cases h : k' = k
    · subst h; simp [addAt, value]
    · have h' : ¬ k = k' := fun e => h e.symm
      simp [addAt, value, h, h']
  | cons kv rest ih =>
    obtain ⟨k0, v0⟩ := kv
    by_cases h0 : k0 = k
    · subst h0
      by_cases h : k' = k0
      · subst h; simp [addAt, value]
      · have h' : ¬ k0 = k' := fun e => h e.symm
        simp [addAt, value, h, h']
    · by_cases h : k' = k
      · subst h
        simp [addAt, value, h0, ih]
      · by_cases h1 : k0 = k'
        · simp [addAt, value, h0, h, h1]
        · simp [addAt, value, h0, h, h1, ih]

theorem contains_addAt (m : CountMapType) (k : String) (v : Nat) (k' : String) :
    contains (addAt m k v) k' = (contains m k' || decide (k = k')) := by
  induction m with
  | nil => simp [addAt, contains]
  | cons kv rest ih =>
    obtain ⟨k0, v0⟩ := kv
    by_cases h0 : k0 = k
    · subst h0
      by_cases h : k0 = k' <;> simp [addAt, contains, h]
    · by_cases h1 : k0 = k'
      · subst h1
        simp [addAt, contains, h0]
      · simp [addAt, contains, h0, h1, ih]

theorem value_eq_zero_of_not_mem (m : CountMapType) (k : String) (h : k ∉ m.keys) :
    value m k = 0 := by
  induction m with
  | nil => rfl
  | cons kv rest ih =>
    obtain ⟨k0, v0⟩ := kv
    simp [keys] at h
    have h0 : ¬ k0 = k := fun e => h.1 e.symm
    simp only [value, h0, if_false]
    exact ih (by simpa [keys] using h.2)

theorem value_aggregate (m c : CountMapType) (hc : c.UniqueKeys) (k : String) :
    value (aggregate m c) k = value m k + value c k := by
  unfold aggregate
  induction c generalizing m with
  | nil => simp [value]
  | cons kv rest ih =>
    obtain ⟨k0, v0⟩ := kv
    have hn : UniqueKeys rest := by
      unfold UniqueKeys keys at hc ⊢
      simp only [List.map_cons, List.nodup_cons] at hc
      exact hc.2
    have hk0 : k0 ∉ keys rest := by
      unfold UniqueKeys keys at hc
      simp only [List.map_cons, List.nodup_cons] at hc
      exact hc.1
    simp only [List.foldl_cons]
    rw [ih _ hn, value_addAt]
    by_cases h : k = k0
    · subst h
      simp [value, value_eq_zero_of_not_mem rest k hk0]
    · have h' : ¬ k0 = k := fun e => h e.symm
      simp [value, h, h']

theorem contains_aggregate (m c : CountMapType) (k : String) :
    contains (aggregate m c) k = (contains m k || contains c k) := by
  unfold aggregate
  induction c generalizing m with
  | nil => simp [contains]
  | cons kv rest ih =>
    obtain ⟨k0, v0⟩ := kv
    simp only [List.foldl_cons]
    rw [ih, contains_addAt]
    by_cases h : k0 = k <;> simp [contains, h, Bool.or_assoc]

theorem isSum_aggregate (m c : CountMapType) (hc : c.UniqueKeys) :
    IsSum m c (aggregate m c) :=
  fun k => ⟨value_aggregate m c hc k, contains_aggregate m c k⟩

theorem le_aggregate (m c : CountMapType) : LE m (aggregate m c) := by
  unfold aggregate
  induction c generalizing m with
  | nil => intro k; simp
  | cons kv rest ih =>
    obtain ⟨k0, v0⟩ := kv
    intro k
    simp only [List.foldl_cons]
    refine le_trans ?_ (ih _ k)
    rw [value_addAt]
    split
    · rename_i h; subst h; omega
    · exact le_refl _

end CountMapType

namespace LayerFeatures

theorem setPos_countTables (self : LayerFeatures) (x y : ℚ) :
    (self.setPos x y).countTables = self.countTables := by
  cases self; rfl

theorem setTransform_countTables (self : LayerFeatures) (m : QTransform) (c : Bool) :
    (self.setTransform m c).countTables = self.countTables := by
  cases self; rfl

theorem placeStep_countTables (ctx : Context) (x y dx dy angle : ℚ) (mirror : Bool)
    (i j : Nat) (step : LayerFeatures) :
    (placeStep ctx x y dx dy angle mirror i j step).countTables = step.countTables := by
  simp only [placeStep, setTransform_countTables, setPos_countTables]

theorem placeStep_pos (ctx : Context) (x y dx dy angle : ℚ) (mirror : Bool)
    (i j : Nat) (step : LayerFeatures) :
    (placeStep ctx x y dx dy angle mirror i j step).pos =
      ⟨x + dx * (i : ℚ), -(y + dy * (j : ℚ))⟩ := by
  cases step; rfl

theorem placeStep_transform (ctx : Context) (x y dx dy angle : ℚ) (mirror : Bool)
    (i j : Nat) (step : LayerFeatures) :
    (placeStep ctx x y dx dy angle mirror i j step).transform =
      (stepTransform ctx mirror angle step.m_x_datum step.m_y_datum).mul
        (QTransform.fromTranslate (x + dx * (i : ℚ)) (-(y + dy * (j : ℚ)))) := by
  cases step; rfl

theorem aggregateCounts_isSum (self step : LayerFeatures)
    (h : step.countTables.UniqueKeys) :
    CountTables.IsSum self.countTables step.countTables
      (aggregateCounts self step).countTables := by
  obtain ⟨h1, h2, h3, h4, h5, h6⟩ := h
  exact ⟨CountMapType.isSum_aggregate _ _ h1, CountMapType.isSum_aggregate _ _ h2,
    CountMapType.isSum_aggregate _ _ h3, CountMapType.isSum_aggregate _ _ h4,
    CountMapType.isSum_aggregate _ _ h5, CountMapType.isSum_aggregate _ _ h6,
    rfl, rfl, rfl, rfl, rfl, rfl⟩

end LayerFeatures


/-- Claim C1. In the grid loop of `loadStepAndRepeat`, when the construction of the child
for a cell returns `step` (whose six count maps, being `QMap`s, hold every key once), the
loop body returns and the twelve count tables of the parent afterwards are the sum of its
tables before and the tables of the child: for each of the six per-attribute maps and every
key, the new value is the old value (zero when the key was absent) plus the value in the
child, the new map holds exactly the keys of the old map and of the child map (so a key
that occurs only in the parent keeps its value), and each of the six scalar counts is the
old count plus the count of the child. -/
theorem C1_child_counts_added_keywise (ctx : Context)
    (newLayerFeatures : Nat → Nat → Nat → String → Result LayerFeatures)
    (b : Nat) (name : String) (x y dx dy angle : ℚ) (mirror : Bool)
    (self : LayerFeatures) (i j : Nat) (step : LayerFeatures)
    (hnew : newLayerFeatures b i j name = .ok step)
    (hkeys : step.countTables.UniqueKeys) :
    ∃ self', stepRepeatCell ctx newLayerFeatures b name x y dx dy angle mirror self i j
        = .ok self' ∧
      CountTables.IsSum self.countTables step.countTables self'.countTables := by
  refine ⟨_, by simp only [stepRepeatCell, hnew]; rfl, ?_⟩
  have h := aggregateCounts_isSum
    { self with m_repeats := self.m_repeats ++ [placeStep ctx x y dx dy angle mirror i j step] }
    (placeStep ctx x y dx dy angle mirror i j step)
    (by rw [placeStep_countTables]; exact hkeys)
  rw [placeStep_countTables] at h
  exact h

theorem foldlM_nested {σ : Type} (f : σ → Nat → Nat → Result σ) (l1 l2 : List Nat) (s : σ) :
    l1.foldlM (fun s i => l2.foldlM (fun s j => f s i j) s) s =
      (l1.flatMap (fun i => l2.map (fun j => (i, j)))).foldlM (fun s c => f s c.1 c.2) s := by
  induction l1 generalizing s with
  | nil => rfl
  | cons i rest ih =>
    simp only [List.foldlM_cons, List.flatMap_cons, List.foldlM_append, List.foldlM_map]
    congr 1
    funext s'
    exact ih s'

theorem foldlM_filter_of_skip {σ α : Type} (f : σ → α → Result σ) (keep : α → Bool)
    (l : List α) (hskip : ∀ a ∈ l, keep a = false → ∀ s, f s a = .ok s) (s : σ) :
    l.foldlM f s = (l.filter keep).foldlM f s := by
  induction l generalizing s with
  | nil => rfl
  | cons a rest ih =>
    have hrest : ∀ a' ∈ rest, keep a' = false → ∀ s, f s a' = .ok s :=
      fun a' ha' => hskip a' (List.mem_cons_of_mem _ ha')
    cases hk : keep a with
    | true =>
      simp only [List.filter_cons, hk, if_true, List.foldlM_cons]
      congr 1
      funext s'
      exact ih hrest s'
    | false =>
      have := hskip a (List.mem_cons_self _ _) hk s
      simp only [List.filter_cons, hk, List.foldlM_cons, this]
      exact ih hrest s

theorem foldlM_congr_mem {σ α : Type} (f g : σ → α → Result σ) (l : List α)
    (h : ∀ a ∈ l, ∀ s, f s a = g s a) (s : σ) : l.foldlM f s = l.foldlM g s := by
  induction l generalizing s with
  | nil => rfl
  | cons a rest ih =>
    simp only [List.foldlM_cons, h a (List.mem_cons_self _ _) s]
    congr 1
    funext s'
    exact ih (fun a' ha' => h a' (List.mem_cons_of_mem _ ha')) s'

theorem foldlM_rel {σ α : Type} (R : σ → σ → Prop) (hrefl : ∀ s, R s s)
    (htrans : ∀ a b c, R a b → R b c → R a c) (f : σ → α → Result σ)
    (l : List α) (hf : ∀ a ∈ l, ∀ s s', f s a = .ok s' → R s s') :
    ∀ s s', l.foldlM f s = .ok s' → R s s' := by
  induction l with
  | nil =>
    intro s s' h
    simp only [List.foldlM_nil] at h
    cases h
    exact hrefl s
  | cons a rest ih =>
    intro s s' h
    simp only [List.foldlM_cons] at h
    cases hfa : f s a with
    | error e => rw [hfa] at h; cases h
    | ok s1 =>
      rw [hfa] at h
      exact htrans _ _ _ (hf a (List.mem_cons_self _ _) s s1 hfa)
        (ih (fun a' ha' => hf a' (List.mem_cons_of_mem _ ha')) s1 s' h)

theorem stepRepeatBlock_eq_flat (ctx : Context)
    (newLayerFeatures : Nat → Nat → Nat → String → Result LayerFeatures)
    (self : LayerFeatures) (b : Nat) (blk : StepRepeatBlock)
    (p : LayerFeatures.StepRepeatParams) (hp : LayerFeatures.readStepRepeat blk = .ok p) :
    LayerFeatures.stepRepeatBlock ctx newLayerFeatures self b blk =
      (gridCells p.nx p.ny).foldlM (fun self c =>
        LayerFeatures.stepRepeatCell ctx newLayerFeatures b p.name p.x p.y p.dx p.dy
          p.angle p.mirror self c.1 c.2) self := by
  unfold LayerFeatures.stepRepeatBlock gridCells
  rw [hp]
  exact foldlM_nested _ _ _ _

theorem stepRepeatCell_ok (ctx : Context)
    (newLayerFeatures : Nat → Nat → Nat → String → Result LayerFeatures)
    (b : Nat) (name : String) (x y dx dy angle : ℚ) (mirror : Bool)
    (self : LayerFeatures) (i j : Nat) (step : LayerFeatures)
    (hnew : newLayerFeatures b i j name = .ok step) :
    stepRepeatCell ctx newLayerFeatures b name x y dx dy angle mirror self i j =
      .ok (aggregateCounts
        { self with m_repeats := self.m_repeats ++ [placeStep ctx x y dx dy angle mirror i j step] }
        (placeStep ctx x y dx dy angle mirror i j step)) := by
  simp only [stepRepeatCell, hnew]

theorem stepRepeatCell_exception (ctx : Context)
    (newLayerFeatures : Nat → Nat → Nat → String → Result LayerFeatures)
    (b : Nat) (name : String) (x y dx dy angle : ℚ) (mirror : Bool)
    (self : LayerFeatures) (i j : Nat) (e : Exn)
    (hnew : newLayerFeatures b i j name = .error (.exception e)) :
    stepRepeatCell ctx newLayerFeatures b name x y dx dy angle mirror self i j = .ok self := by
  simp only [stepRepeatCell, hnew]

theorem cells_repeats (ctx : Context)
    (newLayerFeatures : Nat → Nat → Nat → String → Result LayerFeatures)
    (b : Nat) (p : StepRepeatParams) (cells : List (Nat × Nat))
    (hnf : ∀ c ∈ cells, ∀ f, newLayerFeatures b c.1 c.2 p.name = .error f →
      ∃ e, f = .exception e) (self : LayerFeatures) :
    ∃ self', cells.foldlM (fun self c =>
        stepRepeatCell ctx newLayerFeatures b p.name p.x p.y p.dx p.dy p.angle p.mirror
          self c.1 c.2) self = .ok self' ∧
      self'.m_repeats = self.m_repeats ++ cells.filterMap (cellChild ctx newLayerFeatures b p) := by
  induction cells generalizing self with
  | nil => exact ⟨self, rfl, by simp⟩
  | cons c rest ih =>
    have hrest : ∀ c' ∈ rest, ∀ f, newLayerFeatures b c'.1 c'.2 p.name = .error f →
        ∃ e, f = .exception e := fun c' hc' => hnf c' (List.mem_cons_of_mem _ hc')
    cases hnew : newLayerFeatures b c.1 c.2 p.name with
    | ok step =>
      obtain ⟨s', hs', hrep⟩ := ih hrest (aggregateCounts
        { self with m_repeats := self.m_repeats ++
            [placeStep ctx p.x p.y p.dx p.dy p.angle p.mirror c.1 c.2 step] }
        (placeStep ctx p.x p.y p.dx p.dy p.angle p.mirror c.1 c.2 step))
      refine ⟨s', ?_, ?_⟩
      · simp only [List.foldlM_cons, stepRepeatCell_ok _ _ _ _ _ _ _ _ _ _ _ _ _ _ hnew]
        exact hs'
      · rw [hrep]
        simp [aggregateCounts, List.filterMap_cons, cellChild, hnew]
    | error f =>
      obtain ⟨e, rfl⟩ := hnf c (List.mem_cons_self _ _) f hnew
      obtain ⟨s', hs', hrep⟩ := ih hrest self
      refine ⟨s', ?_, ?_⟩
      · simp only [List.foldlM_cons, stepRepeatCell_exception _ _ _ _ _ _ _ _ _ _ _ _ _ _ hnew]
        exact hs'
      · rw [hrep]
        simp [List.filterMap_cons, cellChild, hnew]

theorem stepRepeatBlock_repeats (ctx : Context)
    (newLayerFeatures : Nat → Nat → Nat → String → Result LayerFeatures)
    (self : LayerFeatures) (b : Nat) (blk : StepRepeatBlock) (p : StepRepeatParams)
    (hp : readStepRepeat blk = .ok p)
    (hnf : GridReturnsOrThrows newLayerFeatures b p.name p.nx p.ny) :
    ∃ self', stepRepeatBlock ctx newLayerFeatures self b blk = .ok self' ∧
      self'.m_repeats =
        self.m_repeats ++ (gridCells p.nx p.ny).filterMap (cellChild ctx newLayerFeatures b p) := by
  rw [stepRepeatBlock_eq_flat ctx newLayerFeatures self b blk p hp]
  exact cells_repeats ctx newLayerFeatures b p _ hnf self

theorem filterMap_cellChild_map {β : Type} (ctx : Context)
    (newLayerFeatures : Nat → Nat → Nat → String → Result LayerFeatures)
    (b : Nat) (p : StepRepeatParams) (g : LayerFeatures → β) (g' : Nat × Nat → LayerFeatures → β)
    (hg : ∀ c step, g (placeStep ctx p.x p.y p.dx p.dy p.angle p.mirror c.1 c.2 step) = g' c step)
    (cells : List (Nat × Nat)) :
    (cells.filterMap (cellChild ctx newLayerFeatures b p)).map g =
      cells.filterMap (fun c =>
        match newLayerFeatures b c.1 c.2 p.name with
        | .ok step => some (g' c step)
        | .error _ => none) := by
  induction cells with
  | nil => rfl
  | cons c rest ih =>
    cases hnew : newLayerFeatures b c.1 c.2 p.name with
    | ok step => simp [List.filterMap_cons, cellChild, hnew, hg, ← ih]
    | error f => simp [List.filterMap_cons, cellChild, hnew, ← ih]

theorem stepRepeatBlock_map (ctx : Context) {β : Type}
    (newLayerFeatures : Nat → Nat → Nat → String → Result LayerFeatures)
    (self : LayerFeatures) (b : Nat) (name : String) (x y dx dy : ℚ) (nx ny : Int)
    (angle : ℚ) (mirror : String)
    (hnf : GridReturnsOrThrows newLayerFeatures b (toLower name) nx ny)
    (g : LayerFeatures → β) (g' : Nat × Nat → LayerFeatures → β)
    (hg : ∀ c step,
      g (placeStep ctx x y dx dy angle (decide (mirror = "YES")) c.1 c.2 step) = g' c step) :
    ∃ self', stepRepeatBlock ctx newLayerFeatures self b
        { NAME := some name, X := some x, Y := some y, DX := some dx, DY := some dy,
          NX := some nx, NY := some ny, ANGLE := some angle, MIRROR := some mirror }
        = .ok self' ∧
      self'.m_repeats.map g =
        self.m_repeats.map g ++
          (gridCells nx ny).filterMap (fun c =>
            match newLayerFeatures b c.1 c.2 (toLower name) with
            | .ok step => some (g' c step)
            | .error _ => none) := by
  obtain ⟨self', hok, hrep⟩ := stepRepeatBlock_repeats ctx newLayerFeatures self b
    { NAME := some name, X := some x, Y := some y, DX := some dx, DY := some dy,
      NX := some nx, NY := some ny, ANGLE := some angle, MIRROR := some mirror }
    { name := toLower name, x := x, y := y, dx := dx, dy := dy, nx := nx, ny := ny,
      angle := angle, mirror := decide (mirror = "YES") } rfl hnf
  refine ⟨self', hok, ?_⟩
  rw [hrep, List.map_append]
  congr 1
  exact filterMap_cellChild_map ctx newLayerFeatures b
    { name := toLower name, x := x, y := y, dx := dx, dy := dy, nx := nx, ny := ny,
      angle := angle, mirror := decide (mirror = "YES") } g g' hg _

/-- Claim C2. For a `STEP-REPEAT` block with parameters `X, Y, DX, DY, NX, NY`, when no child
construction of the grid faults or diverges, the block loop returns and the children it
appends to `m_repeats` are, in loop order over the cells `(i, j)` with `0 <= i < NX` and
`0 <= j < NY`, the children of the cells whose construction returned, the child of cell
`(i, j)` positioned at exactly `(X + DX*i, -(Y + DY*j))`. -/
theorem C2_grid_positions (ctx : Context)
    (newLayerFeatures : Nat → Nat → Nat → String → Result LayerFeatures)
    (self : LayerFeatures) (b : Nat) (name : String) (x y dx dy : ℚ) (nx ny : Int)
    (angle : ℚ) (mirror : String)
    (hnf : GridReturnsOrThrows newLayerFeatures b (toLower name) nx ny) :
    ∃ self', stepRepeatBlock ctx newLayerFeatures self b
        { NAME := some name, X := some x, Y := some y, DX := some dx, DY := some dy,
          NX := some nx, NY := some ny, ANGLE := some angle, MIRROR := some mirror }
        = .ok self' ∧
      self'.m_repeats.map (fun r => r.pos) =
        self.m_repeats.map (fun r => r.pos) ++
          (gridCells nx ny).filterMap (fun c =>
            match newLayerFeatures b c.1 c.2 (toLower name) with
            | .ok _ => some ⟨x + dx * (c.1 : ℚ), -(y + dy * (c.2 : ℚ))⟩
            | .error _ => none) :=
  stepRepeatBlock_map ctx newLayerFeatures self b name x y dx dy nx ny angle mirror hnf
    (fun r => r.pos) (fun c _ => ⟨x + dx * (c.1 : ℚ), -(y + dy * (c.2 : ℚ))⟩)
    (fun c step => placeStep_pos ctx x y dx dy angle _ c.1 c.2 step)

/-- Claim C3. For every cell of a `STEP-REPEAT` block whose child construction returned, the
transform the child ends with is the matrix obtained from the identity by `scale(-1, 1)`
if and only if `MIRROR` is `"YES"`, then `rotate(ANGLE)`, then
`translate(-x_datum, y_datum)` with the datum of the child step itself, multiplied on the
right by the translation to the grid position (in Qt's product `A * B` the factor `A`
acts first, so the grid translation acts last). -/
theorem C3_transform_composition_order (ctx : Context)
    (newLayerFeatures : Nat → Nat → Nat → String → Result LayerFeatures)
    (self : LayerFeatures) (b : Nat) (name : String) (x y dx dy : ℚ) (nx ny : Int)
    (angle : ℚ) (mirror : String)
    (hnf : GridReturnsOrThrows newLayerFeatures b (toLower name) nx ny) :
    ∃ self', stepRepeatBlock ctx newLayerFeatures self b
        { NAME := some name, X := some x, Y := some y, DX := some dx, DY := some dy,
          NX := some nx, NY := some ny, ANGLE := some angle, MIRROR := some mirror }
        = .ok self' ∧
      self'.m_repeats.map (fun r => r.transform) =
        self.m_repeats.map (fun r => r.transform) ++
          (gridCells nx ny).filterMap (fun c =>
            match newLayerFeatures b c.1 c.2 (toLower name) with
            | .ok step => some
              ((QTransform.translate
                  (QTransform.rotate ctx.qSin ctx.qCos
                    (if mirror = "YES" then QTransform.scale QTransform.identity (-1) 1
                     else QTransform.identity)
                    angle)
                  (-step.m_x_datum) step.m_y_datum).mul
                (QTransform.fromTranslate (x + dx * (c.1 : ℚ)) (-(y + dy * (c.2 : ℚ)))))
            | .error _ => none) := by
  refine stepRepeatBlock_map ctx newLayerFeatures self b name x y dx dy nx ny angle mirror hnf
    (fun r => r.transform) _ (fun c step => ?_)
  show (placeStep ctx x y dx dy angle (decide (mirror = "YES")) c.1 c.2 step).transform = _
  rw [placeStep_transform]
  by_cases hm : mirror = "YES" <;> simp [stepTransform, hm]

/-! ### Frame of step-repeat loading -/

theorem countMap_le_refl (a : CountMapType) : CountMapType.LE a a := fun _ => le_refl _

theorem countMap_le_trans {a b c : CountMapType} (h1 : CountMapType.LE a b)
    (h2 : CountMapType.LE b c) : CountMapType.LE a c := fun k => le_trans (h1 k) (h2 k)

theorem countTables_le_refl (a : CountTables) : CountTables.LE a a := by
  refine ⟨countMap_le_refl a.posLine, countMap_le_refl a.negLine, countMap_le_refl a.posPad,
    countMap_le_refl a.negPad, countMap_le_refl a.posArc, countMap_le_refl a.negArc,
    ?_, ?_, ?_, ?_, ?_, ?_⟩ <;> exact Nat.le_refl _

theorem countTables_le_trans {a b c : CountTables} (hab : CountTables.LE a b)
    (hbc : CountTables.LE b c) : CountTables.LE a c :=
  ⟨countMap_le_trans hab.1 hbc.1,
    countMap_le_trans hab.2.1 hbc.2.1,
    countMap_le_trans hab.2.2.1 hbc.2.2.1,
    countMap_le_trans hab.2.2.2.1 hbc.2.2.2.1,
    countMap_le_trans hab.2.2.2.2.1 hbc.2.2.2.2.1,
    countMap_le_trans hab.2.2.2.2.2.1 hbc.2.2.2.2.2.1,
    Nat.le_trans hab.2.2.2.2.2.2.1 hbc.2.2.2.2.2.2.1,
    Nat.le_trans hab.2.2.2.2.2.2.2.1 hbc.2.2.2.2.2.2.2.1,
    Nat.le_trans hab.2.2.2.2.2.2.2.2.1 hbc.2.2.2.2.2.2.2.2.1,
    Nat.le_trans hab.2.2.2.2.2.2.2.2.2.1 hbc.2.2.2.2.2.2.2.2.2.1,
    Nat.le_trans hab.2.2.2.2.2.2.2.2.2.2.1 hbc.2.2.2.2.2.2.2.2.2.2.1,
    Nat.le_trans hab.2.2.2.2.2.2.2.2.2.2.2 hbc.2.2.2.2.2.2.2.2.2.2.2⟩

theorem grows_refl (s : LayerFeatures) : Grows s s :=
  ⟨rfl, rfl, rfl, rfl, rfl, countTables_le_refl _⟩

theorem grows_trans {a b c : LayerFeatures} (hab : Grows a b) (hbc : Grows b c) :
    Grows a c where
  left := hbc.1.trans hab.1
  right :=
    ⟨hbc.2.1.trans hab.2.1, hbc.2.2.1.trans hab.2.2.1, hbc.2.2.2.1.trans hab.2.2.2.1,
      hbc.2.2.2.2.1.trans hab.2.2.2.2.1, countTables_le_trans hab.2.2.2.2.2 hbc.2.2.2.2.2⟩

theorem aggregateCounts_le (self step : LayerFeatures) :
    CountTables.LE self.countTables (aggregateCounts self step).countTables :=
  ⟨CountMapType.le_aggregate _ _, CountMapType.le_aggregate _ _, CountMapType.le_aggregate _ _,
    CountMapType.le_aggregate _ _, CountMapType.le_aggregate _ _, CountMapType.le_aggregate _ _,
    Nat.le_add_right _ _, Nat.le_add_right _ _, Nat.le_add_right _ _, Nat.le_add_right _ _,
    Nat.le_add_right _ _, Nat.le_add_right _ _⟩

theorem stepRepeatCell_grows (ctx : Context)
    (newLayerFeatures : Nat → Nat → Nat → String → Result LayerFeatures)
    (b : Nat) (name : String) (x y dx dy angle : ℚ) (mirror : Bool)
    (self : LayerFeatures) (i j : Nat) (self' : LayerFeatures)
    (h : stepRepeatCell ctx newLayerFeatures b name x y dx dy angle mirror self i j = .ok self') :
    Grows self self' := by
  unfold stepRepeatCell at h
  split at h
  · cases h
    exact ⟨rfl, rfl, rfl, rfl, rfl, aggregateCounts_le _ _⟩
  · cases h
    exact grows_refl _
  · cases h

theorem stepRepeatBlock_grows (ctx : Context)
    (newLayerFeatures : Nat → Nat → Nat → String → Result LayerFeatures)
    (self : LayerFeatures) (b : Nat) (blk : StepRepeatBlock) (self' : LayerFeatures)
    (h : stepRepeatBlock ctx newLayerFeatures self b blk = .ok self') : Grows self self' := by
  cases hp : readStepRepeat blk with
  | error e =>
    unfold stepRepeatBlock at h
    rw [hp] at h
    cases h
  | ok p =>
    rw [stepRepeatBlock_eq_flat ctx newLayerFeatures self b blk p hp] at h
    exact foldlM_rel Grows grows_refl (fun _ _ _ => grows_trans) _ _
      (fun c _ s s' hs => stepRepeatCell_grows ctx newLayerFeatures b _ _ _ _ _ _ _ s c.1 c.2 s' hs)
      self self' h

theorem readStepParameters_countTables (hds : StepHeader) (self : LayerFeatures) :
    (readStepParameters hds self).countTables = self.countTables := by
  unfold readStepParameters
  repeat' split
  all_goals rfl

theorem readStepParameters_grows (hds : StepHeader) (self : LayerFeatures) :
    Grows self (readStepParameters hds self) ∧
      (readStepParameters hds self).m_repeats = self.m_repeats ∧
      (readStepParameters hds self).m_stepRepeatLoaded = self.m_stepRepeatLoaded := by
  unfold readStepParameters
  repeat' split
  all_goals exact ⟨grows_refl _, rfl, rfl⟩

theorem beginStepAndRepeat_countTables (hds : StepHeader) (self : LayerFeatures) :
    (beginStepAndRepeat hds self).countTables = self.countTables := by
  unfold beginStepAndRepeat
  simp only []
  split
  · exact readStepParameters_countTables hds self
  · exact readStepParameters_countTables hds self

theorem beginStepAndRepeat_grows (hds : StepHeader) (self : LayerFeatures) :
    Grows self (beginStepAndRepeat hds self) := by
  unfold beginStepAndRepeat
  simp only []
  split
  · exact (readStepParameters_grows hds self).1
  · exact (readStepParameters_grows hds self).1

theorem endStepAndRepeat_countTables (self : LayerFeatures) :
    (endStepAndRepeat self).countTables = self.countTables := by
  unfold endStepAndRepeat
  cases hsc : self.m_scene <;> rfl

theorem endStepAndRepeat_grows (self : LayerFeatures) :
    Grows self (endStepAndRepeat self) ∧ (endStepAndRepeat self).m_stepRepeatLoaded = true := by
  unfold endStepAndRepeat
  cases hsc : self.m_scene
  · exact ⟨⟨rfl, rfl, rfl, rfl, hsc.symm ▸ rfl, countTables_le_refl _⟩, rfl⟩
  · exact ⟨⟨rfl, rfl, rfl, rfl, hsc.symm ▸ rfl, countTables_le_refl _⟩, rfl⟩

theorem loadStepAndRepeat_eq (ctx : Context)
    (newLayerFeatures : Nat → Nat → Nat → String → Result LayerFeatures)
    (self : LayerFeatures) (hds : StepHeader)
    (hhdr : ctx.parseStepHdr self.m_step = some hds) :
    loadStepAndRepeat ctx newLayerFeatures self =
      match hds.stepRepeat.enum.foldlM (fun self (bblk : Nat × StepRepeatBlock) =>
        stepRepeatBlock ctx newLayerFeatures self bblk.1 bblk.2)
        (beginStepAndRepeat hds self) with
      | .error f => .error f
      | .ok s => .ok (endStepAndRepeat s) := by
  unfold loadStepAndRepeat
  rw [hhdr]
  simp only [bind, Except.bind, pure, Except.pure]
  cases hds.stepRepeat.enum.foldlM (fun self (bblk : Nat × StepRepeatBlock) =>
    stepRepeatBlock ctx newLayerFeatures self bblk.1 bblk.2) (beginStepAndRepeat hds self) <;> rfl

theorem loadStepAndRepeat_grows (ctx : Context)
    (newLayerFeatures : Nat → Nat → Nat → String → Result LayerFeatures)
    (self self' : LayerFeatures)
    (h : loadStepAndRepeat ctx newLayerFeatures self = .ok self') :
    Grows self self' ∧ self'.m_stepRepeatLoaded = true := by
  cases hhdr : ctx.parseStepHdr self.m_step with
  | none =>
    unfold loadStepAndRepeat at h
    rw [hhdr] at h
    cases h
  | some hds =>
    rw [loadStepAndRepeat_eq ctx newLayerFeatures self hds hhdr] at h
    split at h
    · cases h
    · rename_i s1 hfold
      cases h
      have hfold' := foldlM_rel Grows grows_refl (fun _ _ _ => grows_trans) _ _
        (fun bblk _ s s' hs => stepRepeatBlock_grows ctx newLayerFeatures s bblk.1 bblk.2 s' hs)
        _ _ hfold
      exact ⟨grows_trans (grows_trans (beginStepAndRepeat_grows hds self) hfold')
        (endStepAndRepeat_grows s1).1, (endStepAndRepeat_grows s1).2⟩

theorem loadStepAndRepeat_noBlocks (ctx : Context)
    (newLayerFeatures : Nat → Nat → Nat → String → Result LayerFeatures)
    (self self' : LayerFeatures) (hds : StepHeader)
    (hhdr : ctx.parseStepHdr self.m_step = some hds) (hblocks : hds.stepRepeat = [])
    (h : loadStepAndRepeat ctx newLayerFeatures self = .ok self') :
    self'.countTables = self.countTables := by
  rw [loadStepAndRepeat_eq ctx newLayerFeatures self hds hhdr] at h
  simp only [hblocks, List.enum_nil, List.foldlM_nil, pure, Except.pure] at h
  cases h
  rw [endStepAndRepeat_countTables, beginStepAndRepeat_countTables]

theorem loadFeatures_countTables (self : LayerFeatures) (ds : FeaturesDataStore) :
    (loadFeatures self ds).countTables = ds.countTables := rfl

theorem countInvariant_of_load (ctx : Context)
    (newLayerFeatures : Nat → Nat → Nat → String → Result LayerFeatures)
    (self self' : LayerFeatures) (ds : FeaturesDataStore)
    (hds : self.m_ds = some ds) (heq : self.countTables = ds.countTables)
    (h : loadStepAndRepeat ctx newLayerFeatures self = .ok self') :
    CountInvariant ctx self' := by
  obtain ⟨⟨hstep, _, hmds, _, _, hle⟩, hloaded⟩ :=
    loadStepAndRepeat_grows ctx newLayerFeatures self self' h
  intro ds' hds'
  rw [hmds, hds] at hds'
  cases hds'
  refine ⟨heq ▸ hle, ?_⟩
  rintro (hnl | ⟨hdr, hhdr, hblocks⟩)
  · rw [hloaded] at hnl
    cases hnl
  · rw [hstep] at hhdr
    rw [loadStepAndRepeat_noBlocks ctx newLayerFeatures self self' hdr hhdr hblocks h, heq]

theorem countInvariant_of_eq (ctx : Context) (self : LayerFeatures)
    (h : ∀ ds, self.m_ds = some ds → self.countTables = ds.countTables) :
    CountInvariant ctx self := by
  intro ds hds
  rw [h ds hds]
  exact ⟨countTables_le_refl _, fun _ => rfl⟩

theorem new_succ_some (ctx : Context) (fuel : Nat) (step path : String) (stepRepeat : Bool)
    (ds : FeaturesDataStore) (hparse : ctx.parseFeatures path step = some ds) :
    LayerFeatures.new ctx (fuel + 1) step path stepRepeat =
      if stepRepeat then
        loadStepAndRepeat ctx (fun _ _ _ name => LayerFeatures.new ctx fuel name path true)
          (loadFeatures (initial ctx step path stepRepeat) ds)
      else .ok (loadFeatures (initial ctx step path stepRepeat) ds) := by
  conv_lhs => rw [LayerFeatures.new]
  simp only [hparse]
  rfl

theorem new_succ_none (ctx : Context) (fuel : Nat) (step path : String) (stepRepeat : Bool)
    (hparse : ctx.parseFeatures path step = none) :
    LayerFeatures.new ctx (fuel + 1) step path stepRepeat =
      .ok (initial ctx step path stepRepeat) := by
  conv_lhs => rw [LayerFeatures.new]
  simp only [hparse]

theorem new_countInvariant (ctx : Context) (fuel : Nat) (step path : String)
    (stepRepeat : Bool) (self : LayerFeatures)
    (h : LayerFeatures.new ctx fuel step path stepRepeat = .ok self) :
    CountInvariant ctx self := by
  cases fuel with
  | zero => cases h
  | succ fuel =>
    cases hparse : ctx.parseFeatures path step with
    | none =>
      rw [new_succ_none ctx fuel step path stepRepeat hparse] at h
      cases h
      exact countInvariant_of_eq ctx _ (fun ds hds => by cases hds)
    | some ds =>
      rw [new_succ_some ctx fuel step path stepRepeat ds hparse] at h
      cases stepRepeat with
      | true =>
        simp only [if_true] at h
        exact countInvariant_of_load ctx _ (loadFeatures (initial ctx step path true) ds)
          self ds rfl rfl h
      | false =>
        simp only [Bool.false_eq_true, if_false] at h
        cases h
        exact countInvariant_of_eq ctx _ (fun ds' hds' => by cases hds'; rfl)

theorem countInvariant_congr (ctx : Context) (a b : LayerFeatures)
    (h1 : b.m_ds = a.m_ds) (h2 : b.countTables = a.countTables)
    (h3 : b.m_stepRepeatLoaded = a.m_stepRepeatLoaded) (h4 : b.m_step = a.m_step)
    (h : CountInvariant ctx a) : CountInvariant ctx b := by
  intro ds hds
  rw [h1] at hds
  rw [h2, h3, h4]
  exact h ds hds

theorem setShowStepRepeat_of_load (ctx : Context) (fuel : Nat) (status : Bool)
    (self : LayerFeatures) (hcond : (status && !self.m_stepRepeatLoaded) = true) :
    LayerFeatures.setShowStepRepeat ctx fuel self status =
      match loadStepAndRepeat ctx
          (fun _ _ _ name => LayerFeatures.new ctx fuel name self.m_path true)
          { self with m_showStepRepeat := status } with
      | .error f => .error f
      | .ok s =>
        match s.m_scene with
        | none => .error .fault
        | some _ =>
          .ok { s with m_repeats := s.m_repeats.map (fun (r : LayerFeatures) => r.setVisible status) } := by
  unfold LayerFeatures.setShowStepRepeat
  simp only [hcond, if_true, bind, Except.bind, pure, Except.pure]
  cases loadStepAndRepeat ctx
      (fun _ _ _ name => LayerFeatures.new ctx fuel name self.m_path true)
      { self with m_showStepRepeat := status } with
  | error f => rfl
  | ok s => cases hs : s.m_scene <;> simp [hs]

theorem setShowStepRepeat_of_not_load (ctx : Context) (fuel : Nat) (status : Bool)
    (self : LayerFeatures) (hcond : (status && !self.m_stepRepeatLoaded) = false) :
    LayerFeatures.setShowStepRepeat ctx fuel self status =
      .ok { self with
        m_showStepRepeat := status
        m_repeats := self.m_repeats.map (fun (r : LayerFeatures) => r.setVisible status) } := by
  unfold LayerFeatures.setShowStepRepeat
  simp only [hcond, bind, Except.bind, pure, Except.pure]
  rfl

theorem setShowStepRepeat_countInvariant (ctx : Context) (fuel : Nat) (status : Bool)
    (self self' : LayerFeatures) (hinv : CountInvariant ctx self)
    (h : LayerFeatures.setShowStepRepeat ctx fuel self status = .ok self') :
    CountInvariant ctx self' := by
  cases hcond : (status && !self.m_stepRepeatLoaded) with
  | false =>
    rw [setShowStepRepeat_of_not_load ctx fuel status self hcond] at h
    cases h
    exact countInvariant_congr ctx self _ rfl rfl rfl rfl hinv
  | true =>
    rw [setShowStepRepeat_of_load ctx fuel status self hcond] at h
    split at h
    · cases h
    · rename_i s hload
      split at h
      · cases h
      · cases h
        refine countInvariant_congr ctx s _ rfl rfl rfl rfl ?_
        simp only [Bool.and_eq_true, Bool.not_eq_true'] at hcond
        intro ds hds
        have hg := (loadStepAndRepeat_grows ctx _ _ _ hload).1
        have hds0 : self.m_ds = some ds := by
          have := hg.2.2.1
          rw [this] at hds
          exact hds
        have heq := (hinv ds hds0).2 (Or.inl hcond.2)
        exact countInvariant_of_load ctx _ { self with m_showStepRepeat := status } s ds
          hds0 heq hload ds hds

theorem length_gridCells (nx ny : Int) : (gridCells nx ny).length = nx.toNat * ny.toNat := by
  have key : ∀ l1 l2 : List Nat,
      (l1.flatMap (fun i => l2.map (fun j => (i, j)))).length = l1.length * l2.length := by
    intro l1 l2
    induction l1 with
    | nil => simp
    | cons i rest ih =>
      simp only [List.flatMap_cons, List.length_append, List.length_map, ih, List.length_cons]
      ring
  have h := key (List.range nx.toNat) (List.range ny.toNat)
  rw [List.length_range, List.length_range] at h
  exact h

theorem mem_gridCells (nx ny : Int) (c : Nat × Nat) :
    c ∈ gridCells nx ny ↔ c.1 < nx.toNat ∧ c.2 < ny.toNat := by
  obtain ⟨i, j⟩ := c
  simp [gridCells, List.mem_flatMap]

theorem cells_posLine (ctx : Context)
    (newLayerFeatures : Nat → Nat → Nat → String → Result LayerFeatures)
    (b : Nat) (name : String) (x y dx dy angle : ℚ) (mirror : Bool) (cmap : CountMapType)
    (hc : cmap.UniqueKeys) (cells : List (Nat × Nat))
    (hall : ∀ c ∈ cells, ∃ step, newLayerFeatures b c.1 c.2 name = .ok step ∧
      step.m_posLineCount = cmap) (self : LayerFeatures) :
    ∃ self', cells.foldlM (fun self c =>
        stepRepeatCell ctx newLayerFeatures b name x y dx dy angle mirror self c.1 c.2) self
          = .ok self' ∧
      self'.m_scene = self.m_scene ∧
      ∀ k, self'.m_posLineCount.value k =
        self.m_posLineCount.value k + cells.length * cmap.value k := by
  induction cells generalizing self with
  | nil => exact ⟨self, rfl, rfl, by simp⟩
  | cons c rest ih =>
    obtain ⟨step, hnew, hstep⟩ := hall c (List.mem_cons_self _ _)
    obtain ⟨s', hs', hsc, hval⟩ := ih (fun c' hc' => hall c' (List.mem_cons_of_mem _ hc'))
      (aggregateCounts
        { self with m_repeats := self.m_repeats ++
            [placeStep ctx x y dx dy angle mirror c.1 c.2 step] }
        (placeStep ctx x y dx dy angle mirror c.1 c.2 step))
    refine ⟨s', ?_, hsc, ?_⟩
    · simp only [List.foldlM_cons, stepRepeatCell_ok _ _ _ _ _ _ _ _ _ _ _ _ _ _ hnew]
      exact hs'
    · intro k
      have hpl : (placeStep ctx x y dx dy angle mirror c.1 c.2 step).m_posLineCount = cmap := by
        have := congrArg CountTables.posLine
          (placeStep_countTables ctx x y dx dy angle mirror c.1 c.2 step)
        exact this.trans hstep
      rw [hval k]
      show CountMapType.value (CountMapType.aggregate self.m_posLineCount
        (placeStep ctx x y dx dy angle mirror c.1 c.2 step).m_posLineCount) k + _ = _
      rw [hpl, CountMapType.value_aggregate _ _ hc, List.length_cons]
      ring

/-- Claim C6. For a step whose header has exactly one `STEP-REPEAT` block, with `NX = n` and
`NY = m`, when the construction of every child of the grid returns and every child carries
the same positive-line count map `c`, step-repeat loading of the freshly constructed
instance returns and the positive line count of the parent at every key is its own-layer
count plus `n * m` times the count of `c` at that key (six times for a 2 by 3 grid). -/
theorem C6_identical_children_multiply (ctx : Context)
    (newLayerFeatures : Nat → Nat → Nat → String → Result LayerFeatures)
    (step path : String) (ds : FeaturesDataStore) (hds : StepHeader)
    (name : String) (x y dx dy angle : ℚ) (mirror : String) (n m : Nat) (c : CountMapType)
    (hhdr : ctx.parseStepHdr step = some hds)
    (hblocks : hds.stepRepeat =
      [{ NAME := some name, X := some x, Y := some y, DX := some dx, DY := some dy,
         NX := some (n : Int), NY := some (m : Int), ANGLE := some angle,
         MIRROR := some mirror }])
    (hall : ∀ i j, i < n → j < m →
      ∃ child, newLayerFeatures 0 i j (toLower name) = .ok child ∧ child.m_posLineCount = c)
    (hc : c.UniqueKeys) :
    ∃ self', loadStepAndRepeat ctx newLayerFeatures
        (loadFeatures (initial ctx step path true) ds) = .ok self' ∧
      ∀ k, self'.m_posLineCount.value k =
        ds.posLineCountMap.value k + n * m * c.value k := by
  have hhdr' : ctx.parseStepHdr (loadFeatures (initial ctx step path true) ds).m_step
      = some hds := hhdr
  rw [loadStepAndRepeat_eq ctx newLayerFeatures _ hds hhdr']
  simp only [hblocks, List.enum_cons, List.enumFrom_nil, List.foldlM_cons, List.foldlM_nil]
  rw [stepRepeatBlock_eq_flat ctx newLayerFeatures _ 0
    { NAME := some name, X := some x, Y := some y, DX := some dx, DY := some dy,
      NX := some (n : Int), NY := some (m : Int), ANGLE := some angle, MIRROR := some mirror }
    { name := toLower name, x := x, y := y, dx := dx, dy := dy, nx := (n : Int),
      ny := (m : Int), angle := angle, mirror := decide (mirror = "YES") } rfl]
  obtain ⟨s', hs', _, hval⟩ := cells_posLine ctx newLayerFeatures 0 (toLower name) x y dx dy
    angle (decide (mirror = "YES")) c hc (gridCells (n : Int) (m : Int))
    (fun cell hcell => by
      rw [mem_gridCells] at hcell
      exact hall cell.1 cell.2 (by simpa using hcell.1) (by simpa using hcell.2))
    (beginStepAndRepeat hds (loadFeatures (initial ctx step path true) ds))
  refine ⟨endStepAndRepeat s', ?_, ?_⟩
  · simp only [bind, Except.bind, pure, Except.pure]
    rw [hs']
  · intro k
    have h1 := congrArg CountTables.posLine (endStepAndRepeat_countTables s')
    have h2 := congrArg CountTables.posLine (beginStepAndRepeat_countTables hds
      (loadFeatures (initial ctx step path true) ds))
    simp only [LayerFeatures.countTables] at h1 h2
    rw [h1, hval k, h2, length_gridCells]
    simp [loadFeatures, copyCounts]

theorem readStepRepeat_name (blk : StepRepeatBlock) (p : StepRepeatParams) (nm : String)
    (hp : readStepRepeat blk = .ok p) (hname : blk.NAME = some nm) : p.name = toLower nm := by
  obtain ⟨NAME, X, Y, DX, DY, NX, NY, ANGLE, MIRROR⟩ := blk
  simp only at hname
  subst hname
  cases X <;> cases Y <;> cases DX <;> cases DY <;> cases NX <;> cases NY <;>
    cases ANGLE <;> cases MIRROR <;>
    simp only [readStepRepeat, GET, bind, Except.bind, pure, Except.pure] at hp <;>
    first
    | (cases hp; rfl)
    | cases hp

theorem stepRepeatBlock_eq_without (ctx : Context)
    (newLayerFeatures : Nat → Nat → Nat → String → Result LayerFeatures)
    (absent : Nat → Nat → Bool) (self : LayerFeatures) (b : Nat) (blk : StepRepeatBlock)
    (habs : ∀ p, readStepRepeat blk = .ok p → ∀ i j, absent i j = true →
      ∃ e, newLayerFeatures b i j p.name = .error (.exception e)) :
    stepRepeatBlock ctx newLayerFeatures self b blk =
      stepRepeatBlockWithout absent ctx newLayerFeatures self b blk := by
  cases hp : readStepRepeat blk with
  | error f =>
    unfold stepRepeatBlock stepRepeatBlockWithout
    rw [hp]
    rfl
  | ok p =>
    rw [stepRepeatBlock_eq_flat ctx newLayerFeatures self b blk p hp]
    unfold stepRepeatBlockWithout
    rw [hp]
    refine foldlM_filter_of_skip _ (fun (c : Nat × Nat) => !absent c.1 c.2) _ ?_ self
    intro c _ hkeep s
    have hab : absent c.1 c.2 = true := by simpa using hkeep
    obtain ⟨e, he⟩ := habs p hp c.1 c.2 hab
    exact stepRepeatCell_exception ctx newLayerFeatures b p.name p.x p.y p.dx p.dy p.angle
      p.mirror s c.1 c.2 e he

/-- Claim C7. If the construction of the child for cell `(i, j)` of block `b` throws an
exception of any kind, the loop body for that cell returns the parent unchanged (no child
is appended, no count is added), and `loadStepAndRepeat` ends exactly as the reference run
from which that one cell is absent: every other cell of the block and of all other blocks
is processed as before. -/
theorem C7_failed_cell_is_skipped (ctx : Context)
    (newLayerFeatures : Nat → Nat → Nat → String → Result LayerFeatures)
    (self : LayerFeatures) (hds : StepHeader) (b : Nat) (blk : StepRepeatBlock)
    (nm : String) (i j : Nat) (e : Exn)
    (hhdr : ctx.parseStepHdr self.m_step = some hds)
    (hblk : hds.stepRepeat[b]? = some blk)
    (hname : blk.NAME = some nm)
    (hthrow : newLayerFeatures b i j (toLower nm) = .error (.exception e)) :
    (∀ x y dx dy angle mirror s,
      stepRepeatCell ctx newLayerFeatures b (toLower nm) x y dx dy angle mirror s i j = .ok s) ∧
    loadStepAndRepeat ctx newLayerFeatures self =
      loadStepAndRepeatWithout (fun b' i' j' => decide (b' = b ∧ i' = i ∧ j' = j))
        ctx newLayerFeatures self := by
  constructor
  · intro x y dx dy angle mirror s
    exact stepRepeatCell_exception ctx newLayerFeatures b _ x y dx dy angle mirror s i j e hthrow
  · unfold loadStepAndRepeat loadStepAndRepeatWithout
    rw [hhdr]
    simp only []
    rw [foldlM_congr_mem _
      (fun self (bblk : Nat × StepRepeatBlock) =>
        stepRepeatBlockWithout (fun i' j' => decide (bblk.1 = b ∧ i' = i ∧ j' = j)) ctx
          newLayerFeatures self bblk.1 bblk.2) hds.stepRepeat.enum]
    intro bblk hmem s
    refine stepRepeatBlock_eq_without ctx newLayerFeatures _ s bblk.1 bblk.2 ?_
    intro p hp i' j' habs
    simp only [decide_eq_true_eq] at habs
    obtain ⟨hb, hi, hj⟩ := habs
    have hget : hds.stepRepeat[bblk.1]? = some bblk.2 := List.mem_enum_iff_getElem?.mp hmem
    rw [hb, hblk] at hget
    have hblk' : bblk.2 = blk := (Option.some.inj hget).symm
    rw [hblk'] at hp
    rw [readStepRepeat_name blk p nm hp hname, hb, hi, hj]
    exact ⟨e, hthrow⟩

theorem createSymbols_eq_filterMap (records : List Record) :
    createSymbols records = records.filterMap Record.symbol? := by
  have key : ∀ (l : List Record) (acc : List Symbol),
      l.foldl (fun m_symbols record =>
        match record.createSymbol with
        | .ok (some symbol) => m_symbols ++ [symbol]
        | .ok none => m_symbols
        | .error _ => m_symbols) acc = acc ++ l.filterMap Record.symbol? := by
    intro l
    induction l with
    | nil => intro acc; simp
    | cons r rest ih =>
      intro acc
      simp only [List.foldl_cons, List.filterMap_cons, Record.symbol?]
      rcases hr : r.createSymbol with e | (_ | symbol)
      · simp [ih, Record.symbol?]
      · simp [ih, Record.symbol?]
      · simp [ih, Record.symbol?]
  unfold createSymbols
  simpa using key records []

theorem boundingRect_of_no_symbols (self : LayerFeatures) (h : self.m_symbols = []) :
    self.boundingRect = QRectF.null := by
  cases self
  simp only at h
  subst h
  simp [boundingRect]

theorem new_panel :
    LayerFeatures.new exampleContext 2 "panel" "features" true = .ok panelInstance := by
  have h : (LayerFeatures.new exampleContext 2 "panel" "features" true).isOk = true := by
    decide
  unfold panelInstance
  cases hn : LayerFeatures.new exampleContext 2 "panel" "features" true with
  | ok s => rfl
  | error e =>
    rw [hn] at h
    cases h

theorem boundingRect_single (self : LayerFeatures) (s : Symbol)
    (h1 : self.m_symbols = [s]) (h2 : self.m_repeats = []) :
    self.boundingRect = s.boundingRect.translate s.pos := by
  cases self
  simp only at h1 h2
  subst h1 h2
  simp [boundingRect, includeRepeats, symbolBounds]

theorem panel_children :
    panelInstance.m_repeats.all (fun r =>
      decide (r.m_symbols.map (fun s => (s.boundingRect, s.pos)) =
        [((⟨0, 0, 10, 5⟩ : QRectF), (⟨0, 0⟩ : QPointF))]) && r.m_repeats.isEmpty) = true := by
  decide

/-- Claim C8. When the features file parses to a data store `ds`, the constructor without
step-repeat returns the instance `loadFeatures (initial ..) ds`, the constructor with
step-repeat hands exactly that instance to `loadStepAndRepeat`, and in that instance (the
constructed instance before any step-repeat aggregation) the twelve count tables equal
the tables of `ds`, whatever the records of `ds` do in `createSymbol()`. -/
theorem C8_counts_copied_from_data_store (ctx : Context) (fuel : Nat) (step path : String)
    (ds : FeaturesDataStore) (hparse : ctx.parseFeatures path step = some ds) :
    LayerFeatures.new ctx (fuel + 1) step path false =
        .ok (loadFeatures (initial ctx step path false) ds) ∧
    LayerFeatures.new ctx (fuel + 1) step path true =
        loadStepAndRepeat ctx (fun _ _ _ name => LayerFeatures.new ctx fuel name path true)
          (loadFeatures (initial ctx step path true) ds) ∧
    ∀ stepRepeat,
      (loadFeatures (initial ctx step path stepRepeat) ds).m_ds = some ds ∧
      (loadFeatures (initial ctx step path stepRepeat) ds).countTables = ds.countTables := by
  refine ⟨?_, ?_, fun _ => ⟨rfl, rfl⟩⟩
  · rw [new_succ_some ctx fuel step path false ds hparse]
    rfl
  · rw [new_succ_some ctx fuel step path true ds hparse]
    rfl

theorem C8_witness :
    LayerFeatures.new exampleContext (0 + 1) "pcb" "features" false =
        .ok (loadFeatures (initial exampleContext "pcb" "features" false) pcbFeatures) ∧
    LayerFeatures.new exampleContext (0 + 1) "pcb" "features" true =
        loadStepAndRepeat exampleContext
          (fun _ _ _ name => LayerFeatures.new exampleContext 0 name "features" true)
          (loadFeatures (initial exampleContext "pcb" "features" true) pcbFeatures) ∧
    ∀ stepRepeat,
      (loadFeatures (initial exampleContext "pcb" "features" stepRepeat) pcbFeatures).m_ds
        = some pcbFeatures ∧
      (loadFeatures (initial exampleContext "pcb" "features" stepRepeat) pcbFeatures).countTables
        = pcbFeatures.countTables :=
  C8_counts_copied_from_data_store exampleContext 0 "pcb" "features" pcbFeatures rfl

/-- Claim C9. When the features file parses to a data store `ds`, construction without
step-repeat returns, and every instance the constructor returns (with or without
step-repeat) has as its symbol list, in record order, the symbols of exactly those records
whose `createSymbol()` returned a non-null symbol without throwing; records that return
null or throw are skipped and neither abort construction nor drop other symbols. -/
theorem C9_symbols_of_good_records (ctx : Context) (fuel : Nat) (step path : String)
    (ds : FeaturesDataStore) (hparse : ctx.parseFeatures path step = some ds) :
    (∃ self, LayerFeatures.new ctx (fuel + 1) step path false = .ok self ∧
      self.m_symbols = ds.records.filterMap Record.symbol?) ∧
    (∀ self, LayerFeatures.new ctx (fuel + 1) step path true = .ok self →
      self.m_symbols = ds.records.filterMap Record.symbol?) := by
  constructor
  · refine ⟨loadFeatures (initial ctx step path false) ds, ?_, ?_⟩
    · rw [new_succ_some ctx fuel step path false ds hparse]
      rfl
    · exact createSymbols_eq_filterMap ds.records
  · intro self h
    rw [new_succ_some ctx fuel step path true ds hparse] at h
    simp only [if_true] at h
    have hg := (loadStepAndRepeat_grows ctx _ _ _ h).1
    rw [hg.2.2.2.1]
    exact createSymbols_eq_filterMap ds.records

theorem C9_witness :
    (∃ self, LayerFeatures.new exampleContext (0 + 1) "pcb" "features" false = .ok self ∧
      self.m_symbols = pcbFeatures.records.filterMap Record.symbol?) ∧
    (∀ self, LayerFeatures.new exampleContext (0 + 1) "pcb" "features" true = .ok self →
      self.m_symbols = pcbFeatures.records.filterMap Record.symbol?) :=
  C9_symbols_of_good_records exampleContext 0 "pcb" "features" pcbFeatures rfl

theorem bounds_of_single_symbol (r : LayerFeatures)
    (h : (decide (r.m_symbols.map (fun s => (s.boundingRect, s.pos)) =
        [((⟨0, 0, 10, 5⟩ : QRectF), (⟨0, 0⟩ : QPointF))]) && r.m_repeats.isEmpty) = true) :
    r.boundingRect = ⟨0, 0, 10, 5⟩ ∧ r.boundingRect.isEmpty = false := by
  simp only [Bool.and_eq_true, decide_eq_true_eq, List.isEmpty_iff] at h
  obtain ⟨hs, hrep⟩ := h
  have hrect : r.boundingRect = ⟨0, 0, 10, 5⟩ := by
    rcases hm : r.m_symbols with _ | ⟨s, _ | ⟨s2, rest⟩⟩
    · rw [hm] at hs
      simp at hs
    · rw [hm] at hs
      simp only [List.map_cons, List.map_nil, List.cons.injEq, Prod.mk.injEq, and_true] at hs
      rw [boundingRect_single r s hm hrep, hs.1, hs.2]
      simp [QRectF.translate]
    · rw [hm] at hs
      simp at hs
  refine ⟨hrect, ?_⟩
  rw [hrect]
  simp [QRectF.isEmpty]

theorem panel_symbols : panelInstance.m_symbols = [] := by decide

theorem panel_repeats_length : panelInstance.m_repeats.length = 6 := by decide

/-- Claim C10, evaluated where the code departs from it. The panel of the example archive has
no record of its own on the layer and a 2 by 3 grid of boards: the constructor returns an
instance with no own symbol and six children, each child has the non-empty bounding
rectangle `(0, 0, 10, 5)`, and yet `boundingRect()` of the panel is the null rectangle
instead of the union of the rectangles of the children. -/
theorem C10_panel_without_own_symbols_has_null_bounds :
    LayerFeatures.new exampleContext 2 "panel" "features" true = .ok panelInstance ∧
    panelInstance.m_symbols = [] ∧
    panelInstance.m_repeats.length = 6 ∧
    (∀ r ∈ panelInstance.m_repeats,
      r.boundingRect = ⟨0, 0, 10, 5⟩ ∧ r.boundingRect.isEmpty = false) ∧
    panelInstance.boundingRect = QRectF.null :=
  ⟨new_panel, panel_symbols, panel_repeats_length,
    fun r hr => bounds_of_single_symbol r (List.all_eq_true.mp panel_children r hr),
    boundingRect_of_no_symbols _ panel_symbols⟩

theorem C1_witness :
    ∃ self', stepRepeatCell exampleContext (fun _ _ _ _ => .ok pcbLoaded) 0 "pcb" 1 2 3 4 90
        true panelLoaded 1 2 = .ok self' ∧
      CountTables.IsSum panelLoaded.countTables pcbLoaded.countTables self'.countTables :=
  C1_child_counts_added_keywise exampleContext (fun _ _ _ _ => .ok pcbLoaded) 0 "pcb" 1 2 3 4
    90 true panelLoaded 1 2 pcbLoaded rfl (by decide)

theorem failingAt12_returnsOrThrows : GridReturnsOrThrows failingAt12 0 (toLower "PCB") 2 3 := by
  intro c _ f h
  unfold failingAt12 at h
  split at h
  · cases h
    exact ⟨_, rfl⟩
  · cases h

theorem C2_witness :
    ∃ self', stepRepeatBlock exampleContext failingAt12 panelLoaded 0
        { NAME := some "PCB", X := some 1, Y := some 2, DX := some 3, DY := some 4,
          NX := some 2, NY := some 3, ANGLE := some 90, MIRROR := some "YES" }
        = .ok self' ∧
      self'.m_repeats.map (fun r => r.pos) =
        panelLoaded.m_repeats.map (fun r => r.pos) ++
          (gridCells 2 3).filterMap (fun c =>
            match failingAt12 0 c.1 c.2 (toLower "PCB") with
            | .ok _ => some ⟨1 + 3 * (c.1 : ℚ), -(2 + 4 * (c.2 : ℚ))⟩
            | .error _ => none) :=
  C2_grid_positions exampleContext failingAt12 panelLoaded 0 "PCB" 1 2 3 4 2 3 90 "YES"
    failingAt12_returnsOrThrows

theorem C3_witness :
    ∃ self', stepRepeatBlock exampleContext failingAt12 panelLoaded 0
        { NAME := some "PCB", X := some 1, Y := some 2, DX := some 3, DY := some 4,
          NX := some 2, NY := some 3, ANGLE := some 90, MIRROR := some "YES" }
        = .ok self' ∧
      self'.m_repeats.map (fun r => r.transform) =
        panelLoaded.m_repeats.map (fun r => r.transform) ++
          (gridCells 2 3).filterMap (fun c =>
            match failingAt12 0 c.1 c.2 (toLower "PCB") with
            | .ok step => some
              ((QTransform.translate
                  (QTransform.rotate exampleContext.qSin exampleContext.qCos
                    (if "YES" = "YES" then QTransform.scale QTransform.identity (-1) 1
                     else QTransform.identity)
                    90)
                  (-step.m_x_datum) step.m_y_datum).mul
                (QTransform.fromTranslate (1 + 3 * (c.1 : ℚ)) (-(2 + 4 * (c.2 : ℚ)))))
            | .error _ => none) :=
  C3_transform_composition_order exampleContext failingAt12 panelLoaded 0 "PCB" 1 2 3 4 2 3
    90 "YES" failingAt12_returnsOrThrows

theorem C6_witness :
    ∃ self', loadStepAndRepeat exampleContext (fun _ _ _ _ => .ok pcbLoaded)
        (loadFeatures (initial exampleContext "panel" "features" true) panelFeatures)
          = .ok self' ∧
      ∀ k, self'.m_posLineCount.value k =
        panelFeatures.posLineCountMap.value k + 2 * 3 * CountMapType.value [("r10", 2)] k :=
  C6_identical_children_multiply exampleContext (fun _ _ _ _ => .ok pcbLoaded) "panel"
    "features" panelFeatures panelHeader "PCB" 1 2 3 4 90 "YES" 2 3 [("r10", 2)] rfl rfl
    (fun _ _ _ _ => ⟨pcbLoaded, rfl, rfl⟩) (by decide)

theorem C7_witness :
    (∀ x y dx dy angle mirror s,
      stepRepeatCell exampleContext failingAt12 0 (toLower "PCB") x y dx dy angle mirror s 1 2
        = .ok s) ∧
    loadStepAndRepeat exampleContext failingAt12 panelLoaded =
      loadStepAndRepeatWithout (fun b' i' j' => decide (b' = 0 ∧ i' = 1 ∧ j' = 2))
        exampleContext failingAt12 panelLoaded :=
  C7_failed_cell_is_skipped exampleContext failingAt12 panelLoaded panelHeader 0 panelBlock
    "PCB" 1 2 .stdException rfl rfl rfl rfl

/-! ## Expansion runs at most once -/

theorem setShowStepRepeat_loaded_of_load (ctx : Context) (fuel : Nat) (status : Bool)
    (self next : LayerFeatures) (hcond : (status && !self.m_stepRepeatLoaded) = true)
    (h : LayerFeatures.setShowStepRepeat ctx fuel self status = .ok next) :
    next.m_stepRepeatLoaded = true := by
  rw [setShowStepRepeat_of_load ctx fuel status self hcond] at h
  split at h
  · cases h
  · rename_i s hload
    split at h
    · cases h
    · cases h
      exact (loadStepAndRepeat_grows ctx _ _ _ hload).2

theorem new_loaded_of_expansion (ctx : Context) (fuel : Nat) (step path : String)
    (stepRepeat : Bool) (self : LayerFeatures)
    (h : LayerFeatures.new ctx fuel step path stepRepeat = .ok self)
    (hexp : constructionExpansions ctx step path stepRepeat = 1) :
    self.m_stepRepeatLoaded = true := by
  cases fuel with
  | zero => cases h
  | succ fuel =>
    cases hparse : ctx.parseFeatures path step with
    | none => simp [constructionExpansions, hparse] at hexp
    | some ds =>
      rw [new_succ_some ctx fuel step path stepRepeat ds hparse] at h
      cases stepRepeat with
      | true =>
        simp only [if_true] at h
        exact (loadStepAndRepeat_grows ctx _ _ _ h).2
      | false => simp [constructionExpansions] at hexp

/-! ## The object after a call that did not return -/

theorem foldlExit_result {σ α : Type} (body : σ → α → σ × Option Failure)
    (f : σ → α → Result σ) (l : List α)
    (h : ∀ a ∈ l, ∀ s, exitResult (body s a) = f s a) (s : σ) :
    exitResult (foldlExit body l s) = l.foldlM f s := by
  induction l generalizing s with
  | nil => rfl
  | cons a rest ih =>
    have ha := h a (List.mem_cons_self _ _) s
    rw [List.foldlM_cons, ← ha, foldlExit]
    rcases hb : body s a with ⟨s', _ | f'⟩
    · exact ih (fun a' ha' => h a' (List.mem_cons_of_mem _ ha')) s'
    · rfl

theorem stepRepeatCellExit_result (ctx : Context)
    (o : Nat → Nat → Nat → String → Result LayerFeatures)
    (b : Nat) (name : String) (x y dx dy angle : ℚ) (mirror : Bool)
    (self : LayerFeatures) (i j : Nat) :
    exitResult (stepRepeatCellExit ctx o b name x y dx dy angle mirror self i j) =
      stepRepeatCell ctx o b name x y dx dy angle mirror self i j := by
  unfold stepRepeatCellExit
  cases stepRepeatCell ctx o b name x y dx dy angle mirror self i j <;> rfl

theorem stepRepeatBlockExit_result (ctx : Context)
    (o : Nat → Nat → Nat → String → Result LayerFeatures)
    (self : LayerFeatures) (b : Nat) (blk : StepRepeatBlock) :
    exitResult (stepRepeatBlockExit ctx o self b blk) = stepRepeatBlock ctx o self b blk := by
  unfold stepRepeatBlockExit stepRepeatBlock
  cases hp : readStepRepeat blk with
  | error f => rfl
  | ok p =>
    simp only [bind, Except.bind]
    apply foldlExit_result
    intro i _ s
    apply foldlExit_result
    intro j _ s'
    exact stepRepeatCellExit_result ctx o b _ _ _ _ _ _ _ s' i j

/-- The outcome of `loadStepAndRepeatExit` with the state dropped on failure is
`loadStepAndRepeat`. -/
theorem loadStepAndRepeatExit_result (ctx : Context)
    (o : Nat → Nat → Nat → String → Result LayerFeatures) (self : LayerFeatures) :
    exitResult (loadStepAndRepeatExit ctx o self) = loadStepAndRepeat ctx o self := by
  unfold loadStepAndRepeatExit loadStepAndRepeat
  cases ctx.parseStepHdr self.m_step with
  | none => rfl
  | some hds =>
    simp only []
    have h := foldlExit_result
      (fun self (bblk : Nat × StepRepeatBlock) => stepRepeatBlockExit ctx o self bblk.1 bblk.2)
      (fun self (bblk : Nat × StepRepeatBlock) => stepRepeatBlock ctx o self bblk.1 bblk.2)
      hds.stepRepeat.enum
      (fun bblk _ s => stepRepeatBlockExit_result ctx o s bblk.1 bblk.2)
      (beginStepAndRepeat hds self)
    rw [← h]
    rcases foldlExit (fun self (bblk : Nat × StepRepeatBlock) =>
      stepRepeatBlockExit ctx o self bblk.1 bblk.2) hds.stepRepeat.enum
      (beginStepAndRepeat hds self) with ⟨s', _ | f'⟩ <;> rfl

/-- The outcome of `setShowStepRepeatExit` with the state dropped on failure is
`setShowStepRepeat`. -/
theorem setShowStepRepeatExit_result (ctx : Context) (fuel : Nat) (self : LayerFeatures)
    (status : Bool) :
    exitResult (setShowStepRepeatExit ctx fuel self status) =
      setShowStepRepeat ctx fuel self status := by
  unfold setShowStepRepeatExit setShowStepRepeat
  simp only []
  by_cases hcond : (status && !self.m_stepRepeatLoaded) = true
  · simp only [hcond, if_true]
    rw [← loadStepAndRepeatExit_result]
    rcases loadStepAndRepeatExit ctx
      (fun _ _ _ name => LayerFeatures.new ctx fuel name self.m_path true)
      { self with m_showStepRepeat := status } with ⟨s', _ | f'⟩
    · cases hs : s'.m_scene <;> simp [exitResult, bind, Except.bind, pure, Except.pure, hs]
    · rfl
  · simp only [hcond, if_false]
    rfl

/-! ## A failed expansion -/

theorem new_panelPlainBad :
    LayerFeatures.new badBlockContext 1 "panel" "features" false = .ok panelPlainBad := rfl

theorem setShowStepRepeatExit_panelPlainBad :
    setShowStepRepeatExit badBlockContext 1 (panelPlainBad.addToScene 0) true =
      (panelAfterThrow, some (.exception .invalidKey)) := by
  have h : (setShowStepRepeatExit badBlockContext 1 (panelPlainBad.addToScene 0) true).2 =
      some (.exception .invalidKey) := by decide
  exact Prod.ext rfl h

theorem reachable_panelAfterThrow : Reachable badBlockContext panelAfterThrow :=
  Reachable.setShowStepRepeatThrows 1 true (panelPlainBad.addToScene 0) panelAfterThrow
    .invalidKey
    (Reachable.addToScene 0 panelPlainBad
      (Reachable.construct 1 "panel" "features" false panelPlainBad new_panelPlainBad))
    setShowStepRepeatExit_panelPlainBad

/-- Claim C5, evaluated where the code departs from it. On the archive whose panel header
has a block without `MIRROR` after a well-formed 2 by 3 block, the panel is constructed
without step-repeat and added to a scene; `setShowStepRepeat(true)` then throws at the
defective block and leaves the instance with the six children of the first block
aggregated (12 positive lines of attribute `r10`, none in its own data store) while
`m_stepRepeatLoaded` is still false: a reachable state in which expansion is not loaded
and the aggregated counts differ from the own-layer counts. -/
theorem C5_counts_differ_while_expansion_not_loaded :
    LayerFeatures.new badBlockContext 1 "panel" "features" false = .ok panelPlainBad ∧
    setShowStepRepeatExit badBlockContext 1 (panelPlainBad.addToScene 0) true =
      (panelAfterThrow, some (.exception .invalidKey)) ∧
    Reachable badBlockContext panelAfterThrow ∧
    panelAfterThrow.m_stepRepeatLoaded = false ∧
    panelAfterThrow.m_repeats.length = 6 ∧
    panelAfterThrow.m_ds.map FeaturesDataStore.countTables = some panelFeatures.countTables ∧
    panelAfterThrow.m_posLineCount = [("r5", 1), ("r10", 12)] ∧
    panelFeatures.posLineCountMap = [("r5", 1)] ∧
    ¬ CountInvariant badBlockContext panelAfterThrow := by
  have hloaded : panelAfterThrow.m_stepRepeatLoaded = false := by decide
  have hcount : panelAfterThrow.m_posLineCount = [("r5", 1), ("r10", 12)] := by decide
  have hds : panelAfterThrow.m_ds = some panelFeatures := rfl
  refine ⟨new_panelPlainBad, setShowStepRepeatExit_panelPlainBad, reachable_panelAfterThrow,
    hloaded, by decide, by rw [hds]; rfl, hcount, rfl, ?_⟩
  intro hinv
  have heq := (hinv panelFeatures hds).2 (Or.inl hloaded)
  have hline := congrArg CountTables.posLine heq
  have hline' : panelAfterThrow.m_posLineCount = panelFeatures.posLineCountMap := hline
  rw [hcount] at hline'
  exact absurd hline' (by decide)

/-- Claim C11, evaluated where the code departs from it. On the archive whose panel header
has a block without `MIRROR` after a well-formed 2 by 3 block, the panel is constructed
without step-repeat (no expansion), added to a scene, and `setShowStepRepeat(true)` is
called twice: the first call throws at the defective block before `m_stepRepeatLoaded` is
set, so the second call enters `loadStepAndRepeat` again. Expansion runs twice, and the
instance ends with twelve children, the six of the first block twice. -/
theorem C11_expansion_runs_again_after_throw :
    LayerFeatures.new badBlockContext 1 "panel" "features" false = .ok panelPlainBad ∧
    constructionExpansions badBlockContext "panel" "features" false = 0 ∧
    (setShowStepRepeatExit badBlockContext 1 (panelPlainBad.addToScene 0) true).2 =
      some (.exception .invalidKey) ∧
    (runCalls badBlockContext 1 panelPlainBad retryCalls).toOption.map Prod.snd = some 2 ∧
    (runCalls badBlockContext 1 panelPlainBad retryCalls).toOption.map
      (fun r => (r.1.m_stepRepeatLoaded, r.1.m_repeats.length)) = some (false, 12) := by
  refine ⟨rfl, ?_, ?_, ?_, ?_⟩ <;> decide

/-- On the well-formed example archive the same kind of session expands once. -/
theorem exampleCalls_expand_once : exampleCallsResult.2 = 1 := by decide

/-! ## All blocks of a header -/

theorem stepRepeatCell_activeRect (ctx : Context)
    (newLayerFeatures : Nat → Nat → Nat → String → Result LayerFeatures)
    (b : Nat) (name : String) (x y dx dy angle : ℚ) (mirror : Bool)
    (self : LayerFeatures) (i j : Nat) (self' : LayerFeatures)
    (h : stepRepeatCell ctx newLayerFeatures b name x y dx dy angle mirror self i j = .ok self') :
    self'.m_activeRect = self.m_activeRect := by
  unfold stepRepeatCell at h
  split at h
  · cases h
    rfl
  · cases h
    rfl
  · cases h

theorem stepRepeatBlock_activeRect (ctx : Context)
    (newLayerFeatures : Nat → Nat → Nat → String → Result LayerFeatures)
    (self : LayerFeatures) (b : Nat) (blk : StepRepeatBlock) (self' : LayerFeatures)
    (h : stepRepeatBlock ctx newLayerFeatures self b blk = .ok self') :
    self'.m_activeRect = self.m_activeRect := by
  cases hp : readStepRepeat blk with
  | error e =>
    unfold stepRepeatBlock at h
    rw [hp] at h
    cases h
  | ok p =>
    rw [stepRepeatBlock_eq_flat ctx newLayerFeatures self b blk p hp] at h
    exact foldlM_rel (fun (s s' : LayerFeatures) => s'.m_activeRect = s.m_activeRect)
      (fun _ => rfl) (fun _ _ _ hab hbc => Eq.trans hbc hab) _ _
      (fun c _ s s' hs =>
        stepRepeatCell_activeRect ctx newLayerFeatures b _ _ _ _ _ _ _ s c.1 c.2 s' hs)
      self self' h

theorem blocks_repeats (ctx : Context)
    (newLayerFeatures : Nat → Nat → Nat → String → Result LayerFeatures)
    (blocks : List (Nat × StepRepeatBlock))
    (hblocks : BlocksReturnOrThrow newLayerFeatures blocks) (self : LayerFeatures) :
    ∃ self', blocks.foldlM (fun self (bblk : Nat × StepRepeatBlock) =>
        stepRepeatBlock ctx newLayerFeatures self bblk.1 bblk.2) self = .ok self' ∧
      self'.m_repeats = self.m_repeats ++ headerChildren ctx newLayerFeatures blocks ∧
      self'.m_activeRect = self.m_activeRect ∧ self'.m_scene = self.m_scene := by
  induction blocks generalizing self with
  | nil => exact ⟨self, rfl, by simp [headerChildren], rfl, rfl⟩
  | cons bblk rest ih =>
    obtain ⟨p, hp, hgrid⟩ := hblocks bblk (List.mem_cons_self _ _)
    obtain ⟨s1, hs1, hrep1⟩ :=
      stepRepeatBlock_repeats ctx newLayerFeatures self bblk.1 bblk.2 p hp hgrid
    obtain ⟨s2, hs2, hrep2, hrect2, hscene2⟩ :=
      ih (fun b hb => hblocks b (List.mem_cons_of_mem _ hb)) s1
    refine ⟨s2, ?_, ?_, ?_, ?_⟩
    · simp only [List.foldlM_cons, hs1]
      exact hs2
    · rw [hrep2, hrep1]
      simp [headerChildren, hp]
    · rw [hrect2]
      exact stepRepeatBlock_activeRect ctx newLayerFeatures self bblk.1 bblk.2 s1 hs1
    · rw [hscene2]
      exact (stepRepeatBlock_grows ctx newLayerFeatures self bblk.1 bblk.2 s1 hs1).2.2.2.2.1

theorem readStepParameters_activeRect_of_lacks (hds : StepHeader) (self : LayerFeatures)
    (h : hds.lacksParameter) :
    (readStepParameters hds self).m_activeRect = self.m_activeRect := by
  unfold StepHeader.lacksParameter at h
  unfold readStepParameters
  repeat' split
  all_goals first
    | rfl
    | (simp_all)

theorem beginStepAndRepeat_repeats (hds : StepHeader) (self : LayerFeatures) :
    (beginStepAndRepeat hds self).m_repeats = self.m_repeats ∧
    (beginStepAndRepeat hds self).m_scene = self.m_scene := by
  unfold beginStepAndRepeat
  simp only []
  split
  · exact ⟨(readStepParameters_grows hds self).2.1, (readStepParameters_grows hds self).1.2.2.2.2.1⟩
  · exact ⟨(readStepParameters_grows hds self).2.1, (readStepParameters_grows hds self).1.2.2.2.2.1⟩

theorem isEmpty_null : QRectF.null.isEmpty = true := by
  simp [QRectF.null, QRectF.isEmpty]

theorem beginStepAndRepeat_activeRect_of_lacks (hds : StepHeader) (self : LayerFeatures)
    (h : hds.lacksParameter) (hrect : self.m_activeRect.isEmpty = true) :
    (beginStepAndRepeat hds self).m_activeRect.isEmpty = true := by
  unfold beginStepAndRepeat
  simp only []
  split
  · exact isEmpty_null
  · rw [readStepParameters_activeRect_of_lacks hds self h]
    exact hrect

/-- Claim C12. If the step header lacks one of the eight keys `X_DATUM`, `Y_DATUM`,
`X_ORIGIN`, `Y_ORIGIN`, `TOP_ACTIVE`, `BOTTOM_ACTIVE`, `LEFT_ACTIVE`, `RIGHT_ACTIVE`, then
`loadStepAndRepeat` (on an instance whose active rectangle is still empty, as the constructor
leaves it, and with well-formed `STEP-REPEAT` blocks) returns, the active rectangle is empty
afterwards, expansion is marked loaded, and `m_repeats` has gained the children of every
block of the header, block by block in file order. -/
theorem C12_missing_header_key_is_absorbed (ctx : Context)
    (newLayerFeatures : Nat → Nat → Nat → String → Result LayerFeatures)
    (self : LayerFeatures) (hds : StepHeader)
    (hhdr : ctx.parseStepHdr self.m_step = some hds)
    (hmissing : hds.lacksParameter)
    (hrect : self.m_activeRect.isEmpty = true)
    (hblocks : BlocksReturnOrThrow newLayerFeatures hds.stepRepeat.enum) :
    ∃ self', loadStepAndRepeat ctx newLayerFeatures self = .ok self' ∧
      self'.m_activeRect.isEmpty = true ∧
      self'.m_stepRepeatLoaded = true ∧
      self'.m_repeats =
        match self.m_scene with
        | some scene =>
          (self.m_repeats ++ headerChildren ctx newLayerFeatures hds.stepRepeat.enum).map
            (fun (r : LayerFeatures) => r.addToScene scene)
        | none => self.m_repeats ++ headerChildren ctx newLayerFeatures hds.stepRepeat.enum := by
  obtain ⟨s1, hs1, hrep, hrect1, hscene1⟩ := blocks_repeats ctx newLayerFeatures
    hds.stepRepeat.enum hblocks (beginStepAndRepeat hds self)
  refine ⟨endStepAndRepeat s1, ?_, ?_, (endStepAndRepeat_grows s1).2, ?_⟩
  · rw [loadStepAndRepeat_eq ctx newLayerFeatures self hds hhdr, hs1]
  · have h1 : (endStepAndRepeat s1).m_activeRect = s1.m_activeRect := by
      unfold endStepAndRepeat
      cases s1.m_scene <;> rfl
    rw [h1, hrect1]
    exact beginStepAndRepeat_activeRect_of_lacks hds self hmissing hrect
  · rw [(beginStepAndRepeat_repeats hds self).2] at hscene1
    rw [(beginStepAndRepeat_repeats hds self).1] at hrep
    unfold endStepAndRepeat
    cases hsc : self.m_scene with
    | none =>
      rw [hsc] at hscene1
      simp only [hscene1]
      exact hrep
    | some scene =>
      rw [hsc] at hscene1
      simp only [hscene1]
      rw [hrep]

/-! ## A step without features data -/

theorem filterMap_some_fun {α β : Type} (f : α → β) (l : List α) :
    l.filterMap (fun a => some (f a)) = l.map f := by
  induction l with
  | nil => rfl
  | cons a rest ih => simp [List.filterMap_cons, ih]

/-- Claim C14. When the cached parse of the features file of a step yields no data store,
the constructor returns (with or without step-repeat) the initial instance, whose symbol list
and children list are empty; and a parent block naming such a step returns with one such
empty child appended for every cell of its grid, so no cell is lost. -/
theorem C14_unparsed_features_give_empty_instance (ctx : Context) (fuel : Nat)
    (step path : String) (hparse : ctx.parseFeatures path step = none) :
    (∀ stepRepeat,
      LayerFeatures.new ctx (fuel + 1) step path stepRepeat =
        .ok (initial ctx step path stepRepeat) ∧
      (initial ctx step path stepRepeat).m_symbols = [] ∧
      (initial ctx step path stepRepeat).m_repeats = []) ∧
    ∀ (self : LayerFeatures) (b : Nat) (name : String) (x y dx dy : ℚ) (nx ny : Int)
      (angle : ℚ) (mirror : String), toLower name = step →
      ∃ self',
        stepRepeatBlock ctx (fun _ _ _ nm => LayerFeatures.new ctx (fuel + 1) nm path true)
          self b
          { NAME := some name, X := some x, Y := some y, DX := some dx, DY := some dy,
            NX := some nx, NY := some ny, ANGLE := some angle, MIRROR := some mirror }
          = .ok self' ∧
        self'.m_repeats = self.m_repeats ++ (gridCells nx ny).map (fun c =>
          placeStep ctx x y dx dy angle (decide (mirror = "YES")) c.1 c.2
            (initial ctx step path true)) := by
  refine ⟨fun stepRepeat => ⟨new_succ_none ctx fuel step path stepRepeat hparse, rfl, rfl⟩, ?_⟩
  intro self b name x y dx dy nx ny angle mirror hname
  have horacle : ∀ (i j : Nat),
      (fun (_ _ _ : Nat) (nm : String) => LayerFeatures.new ctx (fuel + 1) nm path true)
        b i j (toLower name) = .ok (initial ctx step path true) := by
    intro i j
    show LayerFeatures.new ctx (fuel + 1) (toLower name) path true = _
    rw [hname]
    exact new_succ_none ctx fuel step path true hparse
  obtain ⟨self', hok, hrep⟩ := stepRepeatBlock_repeats ctx
    (fun _ _ _ nm => LayerFeatures.new ctx (fuel + 1) nm path true) self b
    { NAME := some name, X := some x, Y := some y, DX := some dx, DY := some dy,
      NX := some nx, NY := some ny, ANGLE := some angle, MIRROR := some mirror }
    { name := toLower name, x := x, y := y, dx := dx, dy := dy, nx := nx, ny := ny,
      angle := angle, mirror := decide (mirror = "YES") } rfl
    (fun c _ f hf => by rw [horacle c.1 c.2] at hf; cases hf)
  refine ⟨self', hok, ?_⟩
  rw [hrep]
  congr 1
  rw [← filterMap_some_fun]
  congr 1
  funext c
  simp only [cellChild, horacle c.1 c.2]

theorem C14_witness :
    (∀ stepRepeat,
      LayerFeatures.new exampleContext (0 + 1) "ghost" "features" stepRepeat =
        .ok (initial exampleContext "ghost" "features" stepRepeat) ∧
      (initial exampleContext "ghost" "features" stepRepeat).m_symbols = [] ∧
      (initial exampleContext "ghost" "features" stepRepeat).m_repeats = []) ∧
    ∀ (self : LayerFeatures) (b : Nat) (name : String) (x y dx dy : ℚ) (nx ny : Int)
      (angle : ℚ) (mirror : String), toLower name = "ghost" →
      ∃ self',
        stepRepeatBlock exampleContext
          (fun _ _ _ nm => LayerFeatures.new exampleContext (0 + 1) nm "features" true)
          self b
          { NAME := some name, X := some x, Y := some y, DX := some dx, DY := some dy,
            NX := some nx, NY := some ny, ANGLE := some angle, MIRROR := some mirror }
          = .ok self' ∧
        self'.m_repeats = self.m_repeats ++ (gridCells nx ny).map (fun c =>
          placeStep exampleContext x y dx dy angle (decide (mirror = "YES")) c.1 c.2
            (initial exampleContext "ghost" "features" true)) :=
  C14_unparsed_features_give_empty_instance exampleContext 0 "ghost" "features" rfl

/-! ## Failures that leave `loadStepAndRepeat` -/

theorem loadStepAndRepeat_fault_of_no_header (ctx : Context)
    (newLayerFeatures : Nat → Nat → Nat → String → Result LayerFeatures)
    (self : LayerFeatures) (h : ctx.parseStepHdr self.m_step = none) :
    loadStepAndRepeat ctx newLayerFeatures self = .error .fault := by
  unfold loadStepAndRepeat
  rw [h]

/-- Claim C13, refuted by the code. For the panel header whose second `STEP-REPEAT` block
lacks `MIRROR`, reading that block throws the missing-key exception, and the exception leaves
both entry points: construction with step-repeat fails with it, and so does
`setShowStepRepeat(true)` on the instance constructed without step-repeat and added to a
scene. -/
theorem C13_missing_block_key_propagates :
    LayerFeatures.readStepRepeat blockWithoutMirror = .error (.exception .invalidKey) ∧
    Result.failure? (LayerFeatures.new badBlockContext 2 "panel" "features" true)
      = some (.exception .invalidKey) ∧
    Result.failure? (LayerFeatures.new badBlockContext 2 "panel" "features" false) = none ∧
    Result.failure?
      (match LayerFeatures.new badBlockContext 2 "panel" "features" false with
        | .ok self => LayerFeatures.setShowStepRepeat badBlockContext 1 (self.addToScene 0) true
        | .error f => .error f)
      = some (.exception .invalidKey) := by
  refine ⟨rfl, ?_, ?_, ?_⟩ <;> decide

/-- Claim C15, refuted by the code. When the parse of the step header yields no data
store, `loadStepAndRepeat` dereferences the null store and faults, and the fault leaves both
entry points: construction with step-repeat, and `setShowStepRepeat(true)` on the instance
constructed without step-repeat and added to a scene. -/
theorem C15_null_header_store_faults :
    noHeaderContext.parseStepHdr "panel" = none ∧
    Result.failure? (loadStepAndRepeat noHeaderContext
      (fun _ _ _ name => LayerFeatures.new noHeaderContext 1 name "features" true)
      (loadFeatures (initial noHeaderContext "panel" "features" true) panelFeatures))
      = some .fault ∧
    Result.failure? (LayerFeatures.new noHeaderContext 2 "panel" "features" true)
      = some .fault ∧
    Result.failure?
      (match LayerFeatures.new noHeaderContext 2 "panel" "features" false with
        | .ok self => LayerFeatures.setShowStepRepeat noHeaderContext 1 (self.addToScene 0) true
        | .error f => .error f)
      = some .fault := by
  refine ⟨rfl, ?_, ?_, ?_⟩ <;> decide

/-! ## Surface symbols -/

/-- Claim C16. For a bounding rectangle of width `w` and height `h`, `getWidth()` is
`min w h` when both are positive and `-1` otherwise; a 10 by 2 box gives 2. -/
theorem C16_getWidth_is_smaller_dimension (self : SurfaceSymbol) :
    self.getWidth =
      (if 0 < self.m_bounding.w ∧ 0 < self.m_bounding.h
        then min self.m_bounding.w self.m_bounding.h else -1) ∧
    (∀ polygons holes islands x y,
      (SurfaceSymbol.mk polygons holes islands ⟨x, y, 10, 2⟩).getWidth = 2) := by
  constructor
  · unfold SurfaceSymbol.getWidth
    simp only []
    by_cases hw : self.m_bounding.w ≤ 0
    · simp [hw, not_lt.mpr hw]
    · by_cases hh : self.m_bounding.h ≤ 0
      · simp [hh, not_lt.mpr hh]
      · simp [hw, hh, not_le.mp hw, not_le.mp hh]
  · intro polygons holes islands x y
    norm_num [SurfaceSymbol.getWidth]

/-- Claim C17. For a bounding rectangle of width `w` and height `h`, `isTrace()` holds
exactly when `w > 0`, `h > 0` and `max w h / min w h > 2`; a 10 by 2 box is a trace, a 5 by 5
box and a 4 by 2 box (ratio exactly 2) are not. -/
theorem C17_isTrace_iff_ratio_above_two (self : SurfaceSymbol) :
    (self.isTrace = true ↔
      0 < self.m_bounding.w ∧ 0 < self.m_bounding.h ∧
        max self.m_bounding.w self.m_bounding.h / min self.m_bounding.w self.m_bounding.h
          > 2) ∧
    (∀ polygons holes islands x y,
      (SurfaceSymbol.mk polygons holes islands ⟨x, y, 10, 2⟩).isTrace = true ∧
      (SurfaceSymbol.mk polygons holes islands ⟨x, y, 5, 5⟩).isTrace = false ∧
      (SurfaceSymbol.mk polygons holes islands ⟨x, y, 4, 2⟩).isTrace = false) := by
  constructor
  · unfold SurfaceSymbol.isTrace
    simp only []
    by_cases hw : self.m_bounding.w ≤ 0
    · simp [hw, not_lt.mpr hw]
    · by_cases hh : self.m_bounding.h ≤ 0
      · simp [hh, not_lt.mpr hh]
      · simp [hw, hh, not_le.mp hw, not_le.mp hh]
  · intro polygons holes islands x y
    refine ⟨?_, ?_, ?_⟩ <;> norm_num [SurfaceSymbol.isTrace]

/-! ### Rounding of the normalising sum -/

theorem le_roundHalfEven (n : Int) (y : ℚ) (h : (n : ℚ) ≤ y) : n ≤ roundHalfEven y := by
  have hf : n ≤ ⌊y⌋ := Int.le_floor.mpr h
  unfold roundHalfEven
  simp only []
  split_ifs <;> omega

theorem roundHalfEven_le (n : Int) (y : ℚ) (h : y ≤ (n : ℚ)) : roundHalfEven y ≤ n := by
  unfold roundHalfEven
  simp only []
  have hfl : (⌊y⌋ : ℚ) ≤ y := Int.floor_le y
  have hf : ⌊y⌋ ≤ n := by exact_mod_cast hfl.trans h
  by_cases hr : y - ⌊y⌋ < 1 / 2
  · rw [if_pos hr]; exact hf
  · have hlt : ⌊y⌋ < n := by
      rcases lt_or_eq_of_le hf with h1 | h1
      · exact h1
      · exfalso
        rw [h1] at hr
        have : y - (n : ℚ) ≤ 0 := by linarith
        exact hr (by linarith)
    rw [if_neg hr]
    split_ifs <;> omega

theorem roundHalfEven_intCast (n : Int) : roundHalfEven (n : ℚ) = n :=
  le_antisymm (roundHalfEven_le n _ le_rfl) (le_roundHalfEven n _ le_rfl)

theorem log_two_eq (x : ℚ) (e : Int) (h1 : (2 : ℚ) ^ e ≤ x) (h2 : x < (2 : ℚ) ^ (e + 1)) :
    Int.log 2 x = e := by
  have hx : 0 < x := lt_of_lt_of_le (by positivity) h1
  have ha : e ≤ Int.log 2 x := (Int.zpow_le_iff_le_log (by norm_num) hx).mp (by exact_mod_cast h1)
  have hb : Int.log 2 x < e + 1 := (Int.lt_zpow_iff_log_lt (by norm_num) hx).mp (by exact_mod_cast h2)
  omega

theorem roundHalfEven_of_near (n : Int) (y : ℚ) (h1 : (n : ℚ) - 1 / 2 < y) (h2 : y ≤ n) :
    roundHalfEven y = n := by
  apply le_antisymm (roundHalfEven_le n y h2)
  rcases eq_or_lt_of_le h2 with h | h
  · rw [h, roundHalfEven_intCast]
  · have hfloor : ⌊y⌋ = n - 1 := by
      rw [Int.floor_eq_iff]
      push_cast
      constructor <;> linarith
    unfold roundHalfEven
    simp only [hfloor]
    have hr : ¬ (y - ((n - 1 : Int) : ℚ) < 1 / 2) := by
      push_cast
      linarith
    have hr' : 1 / 2 < y - ((n - 1 : Int) : ℚ) := by
      push_cast
      linarith
    rw [if_neg hr, if_pos hr']
    omega

theorem roundToDouble_eq (x : ℚ) (e : Int) (h1 : (2 : ℚ) ^ e ≤ x)
    (h2 : x < (2 : ℚ) ^ (e + 1)) :
    roundToDouble x = (roundHalfEven (x / 2 ^ (e - 52)) : ℚ) * 2 ^ (e - 52) := by
  have hx : 0 < x := lt_of_lt_of_le (by positivity) h1
  unfold roundToDouble
  rw [if_neg (ne_of_gt hx), abs_of_pos hx, log_two_eq x e h1 h2]

theorem roundToDouble_bounds (x : ℚ) (e : Int) (h1 : (2 : ℚ) ^ e ≤ x)
    (h2 : x < (2 : ℚ) ^ (e + 1)) (m M : Int) (hm : (m : ℚ) * 2 ^ (e - 52) ≤ x)
    (hM : x ≤ (M : ℚ) * 2 ^ (e - 52)) :
    (m : ℚ) * 2 ^ (e - 52) ≤ roundToDouble x ∧ roundToDouble x ≤ (M : ℚ) * 2 ^ (e - 52) := by
  have hulp : (0 : ℚ) < 2 ^ (e - 52) := by positivity
  rw [roundToDouble_eq x e h1 h2]
  constructor
  · apply mul_le_mul_of_nonneg_right _ (le_of_lt hulp)
    exact_mod_cast le_roundHalfEven m _ ((le_div_iff₀ hulp).mpr hm)
  · apply mul_le_mul_of_nonneg_right _ (le_of_lt hulp)
    exact_mod_cast roundHalfEven_le M _ ((div_le_iff₀ hulp).mpr hM)

/-- The double sum `a + 360.0` for a negative angle above -180 lies in `[180, 360]`. -/
theorem roundToDouble_add_360_range (a : ℚ) (h1 : -180 < a) (h2 : a < 0) :
    180 ≤ roundToDouble (a + 360) ∧ roundToDouble (a + 360) ≤ 360 := by
  by_cases hx : a + 360 < 256
  · have h := roundToDouble_bounds (a + 360) 7 (by norm_num; linarith) (by norm_num; linarith)
      (180 * 2 ^ 45) (256 * 2 ^ 45)
      (by norm_num [zpow_neg]; linarith) (by norm_num [zpow_neg]; linarith)
    norm_num [zpow_neg] at h
    constructor <;> linarith [h.1, h.2]
  · have h := roundToDouble_bounds (a + 360) 8 (by norm_num; linarith) (by norm_num; linarith)
      (256 * 2 ^ 44) (360 * 2 ^ 44)
      (by norm_num [zpow_neg]; linarith) (by norm_num [zpow_neg]; linarith)
    norm_num [zpow_neg] at h
    constructor <;> linarith [h.1, h.2]

theorem roundToDouble_270 : roundToDouble (-90 + 360) = 270 := by
  have h := roundToDouble_bounds (-90 + 360) 8 (by norm_num) (by norm_num)
    (270 * 2 ^ 44) (270 * 2 ^ 44) (by norm_num [zpow_neg]) (by norm_num [zpow_neg])
  norm_num [zpow_neg] at h
  norm_num
  exact le_antisymm h.2 h.1

/-- A negative angle of magnitude below `2^-45` added to `360.0` rounds to `360.0`. -/
theorem roundToDouble_add_360_eq (a : ℚ) (h1 : -(1 / 2 ^ 45) < a) (h2 : a < 0) :
    roundToDouble (a + 360) = 360 := by
  have hpow : (1 : ℚ) / 2 ^ 45 < 1 := by norm_num
  rw [roundToDouble_eq (a + 360) 8 (by norm_num; linarith) (by norm_num; linarith)]
  have hnear : roundHalfEven ((a + 360) / 2 ^ ((8 : Int) - 52)) = 360 * 2 ^ 44 := by
    apply roundHalfEven_of_near
    · norm_num [zpow_neg]
      linarith
    · norm_num [zpow_neg]
      linarith
  rw [hnear]
  norm_num [zpow_neg]

theorem directionDegrees_range (f : ℚ → ℚ → ℚ) (hf : IsAtan2Degrees f) (dx dy : ℚ) :
    0 ≤ SurfaceSymbol.directionDegrees f dx dy ∧ SurfaceSymbol.directionDegrees f dx dy ≤ 360 := by
  have h := hf.range dy dx
  unfold SurfaceSymbol.directionDegrees
  simp only []
  split
  · rename_i hneg
    have hr := roundToDouble_add_360_range (f dy dx) h.1 hneg
    constructor <;> linarith [hr.1, hr.2]
  · rename_i hneg
    constructor
    · exact not_lt.mp hneg
    · linarith [h.2]

theorem endPoint_eq_iff (op : SurfaceOperation) (sx sy : ℚ) :
    op.endPoint = ⟨sx, sy⟩ ↔
      ((if op.type = OperationType.SEGMENT then (op.x, op.y) else (op.xe, op.ye)).1 - sx = 0 ∧
       (if op.type = OperationType.SEGMENT then (op.x, op.y) else (op.xe, op.ye)).2 - sy = 0) := by
  unfold SurfaceOperation.endPoint
  cases h : op.type <;> simp [sub_eq_zero]

theorem getAngle_of_operation (f : ℚ → ℚ → ℚ) (self : SurfaceSymbol)
    (polygon : PolygonRecord) (rest : List PolygonRecord)
    (op : SurfaceOperation) (ops : List SurfaceOperation)
    (hpoly : self.m_polygons = polygon :: rest) (hops : polygon.operations = op :: ops) :
    self.getAngle f =
      if op.endPoint = ⟨polygon.xbs, polygon.ybs⟩ then -1
      else SurfaceSymbol.directionDegrees f (op.endPoint.x - polygon.xbs)
        (op.endPoint.y - polygon.ybs) := by
  unfold SurfaceSymbol.getAngle
  rw [hpoly]
  simp only [hops]
  have hiff := endPoint_eq_iff op polygon.xbs polygon.ybs
  have hx : op.endPoint.x =
      (if op.type = OperationType.SEGMENT then (op.x, op.y) else (op.xe, op.ye)).1 := by
    unfold SurfaceOperation.endPoint
    cases h : op.type <;> simp
  have hy : op.endPoint.y =
      (if op.type = OperationType.SEGMENT then (op.x, op.y) else (op.xe, op.ye)).2 := by
    unfold SurfaceOperation.endPoint
    cases h : op.type <;> simp
  by_cases h : op.endPoint = ⟨polygon.xbs, polygon.ybs⟩
  · rw [if_pos h, if_pos (hiff.mp h)]
  · rw [if_neg h, if_neg (fun h' => h (hiff.mpr h')), hx, hy]

theorem getAngle_first_operation_direction (f : ℚ → ℚ → ℚ) (hf : IsAtan2Degrees f)
    (self : SurfaceSymbol) (polygon : PolygonRecord) (rest : List PolygonRecord)
    (op : SurfaceOperation) (ops : List SurfaceOperation)
    (hpoly : self.m_polygons = polygon :: rest) (hops : polygon.operations = op :: ops) :
    (self.getAngle f = -1 ↔ op.endPoint = ⟨polygon.xbs, polygon.ybs⟩) ∧
    (op.endPoint ≠ ⟨polygon.xbs, polygon.ybs⟩ →
      self.getAngle f =
        SurfaceSymbol.directionDegrees f (op.endPoint.x - polygon.xbs)
          (op.endPoint.y - polygon.ybs) ∧
      0 ≤ self.getAngle f ∧ self.getAngle f ≤ 360) ∧
    (polygon.xbs < op.endPoint.x → op.endPoint.y = polygon.ybs → self.getAngle f = 0) ∧
    (op.endPoint.x = polygon.xbs → polygon.ybs < op.endPoint.y → self.getAngle f = 90) ∧
    (op.endPoint.x < polygon.xbs → op.endPoint.y = polygon.ybs → self.getAngle f = 180) ∧
    (op.endPoint.x = polygon.xbs → op.endPoint.y < polygon.ybs → self.getAngle f = 270) := by
  have hg := getAngle_of_operation f self polygon rest op ops hpoly hops
  have hne : ∀ {ex ey : ℚ}, ex ≠ polygon.xbs ∨ ey ≠ polygon.ybs →
      op.endPoint = ⟨ex, ey⟩ → op.endPoint ≠ ⟨polygon.xbs, polygon.ybs⟩ := by
    intro ex ey h he heq
    rw [he] at heq
    simp only [QPointF.mk.injEq] at heq
    rcases h with h | h
    · exact h heq.1
    · exact h heq.2
  have hdir : op.endPoint ≠ ⟨polygon.xbs, polygon.ybs⟩ →
      self.getAngle f = SurfaceSymbol.directionDegrees f (op.endPoint.x - polygon.xbs)
        (op.endPoint.y - polygon.ybs) := fun h => by rw [hg, if_neg h]
  refine ⟨?_, ?_, ?_, ?_, ?_, ?_⟩
  · constructor
    · intro h
      by_contra hne'
      rw [hdir hne'] at h
      have := (directionDegrees_range f hf (op.endPoint.x - polygon.xbs)
        (op.endPoint.y - polygon.ybs)).1
      linarith
    · intro h
      rw [hg, if_pos h]
  · intro h
    refine ⟨hdir h, ?_⟩
    rw [hdir h]
    exact directionDegrees_range f hf _ _
  · intro hx hy
    rw [hdir (hne (Or.inl (ne_of_gt hx)) rfl), hy, sub_self]
    unfold SurfaceSymbol.directionDegrees
    simp [hf.east _ (sub_pos.mpr hx)]
  · intro hx hy
    rw [hdir (hne (Or.inr (ne_of_gt hy)) rfl), hx, sub_self]
    unfold SurfaceSymbol.directionDegrees
    simp [hf.north _ (sub_pos.mpr hy)]
  · intro hx hy
    rw [hdir (hne (Or.inl (ne_of_lt hx)) rfl), hy, sub_self]
    unfold SurfaceSymbol.directionDegrees
    simp [hf.west _ (sub_neg.mpr hx)]
  · intro hx hy
    rw [hdir (hne (Or.inr (ne_of_lt hy)) rfl), hx, sub_self]
    unfold SurfaceSymbol.directionDegrees
    simp only [hf.south _ (sub_neg.mpr hy)]
    rw [if_pos (by norm_num)]
    exact roundToDouble_270

theorem painterPath_fold (polygons : List PolygonRecord) (acc : QPainterPath × SurfaceSymbol) :
    (polygons.foldl (fun (acc : QPainterPath × SurfaceSymbol) rec =>
      let path := acc.1.addPath rec.painterPath
      if rec.poly_type = PolyType.I then
        (path, { acc.2 with m_islandCount := acc.2.m_islandCount + 1 })
      else
        (path, { acc.2 with m_holeCount := acc.2.m_holeCount + 1 })) acc).1.subpaths =
      acc.1.subpaths ++ polygons.flatMap (fun rec => rec.painterPath.subpaths) ∧
    (polygons.foldl (fun (acc : QPainterPath × SurfaceSymbol) rec =>
      let path := acc.1.addPath rec.painterPath
      if rec.poly_type = PolyType.I then
        (path, { acc.2 with m_islandCount := acc.2.m_islandCount + 1 })
      else
        (path, { acc.2 with m_holeCount := acc.2.m_holeCount + 1 })) acc).2.m_polygons =
      acc.2.m_polygons := by
  induction polygons generalizing acc with
  | nil => simp
  | cons rec rest ih =>
    simp only [List.foldl_cons, List.flatMap_cons]
    by_cases ht : rec.poly_type = PolyType.I
    · simp only [ht, if_true]
      have := ih (acc.1.addPath rec.painterPath,
        { acc.2 with m_islandCount := acc.2.m_islandCount + 1 })
      simp only [QPainterPath.addPath, List.append_assoc] at this
      exact this
    · simp only [ht, if_false]
      have := ih (acc.1.addPath rec.painterPath,
        { acc.2 with m_holeCount := acc.2.m_holeCount + 1 })
      simp only [QPainterPath.addPath, List.append_assoc] at this
      exact this

theorem painterPath_subpaths (self : SurfaceSymbol) :
    self.painterPath.1.subpaths =
      self.m_polygons.flatMap (fun rec => rec.painterPath.subpaths) := by
  unfold SurfaceSymbol.painterPath
  rw [(painterPath_fold self.m_polygons _).1]
  simp [QPainterPath.empty]

theorem new_polygons (rec : SurfaceRecord) : (SurfaceSymbol.new rec).m_polygons = rec.polygons := by
  unfold SurfaceSymbol.new SurfaceSymbol.painterPath
  simp only []
  exact (painterPath_fold rec.polygons _).2

theorem odd_add (a b : Nat) :
    ((a + b) % 2 == 1) = xor (a % 2 == 1) (b % 2 == 1) := by
  rcases Nat.mod_two_eq_zero_or_one a with ha | ha <;>
    rcases Nat.mod_two_eq_zero_or_one b with hb | hb <;>
    simp [Nat.add_mod, ha, hb]

theorem contains_flatMap (polygons : List PolygonRecord) (pt : QPointF) (pre : List Subpath) :
    (QPainterPath.mk (pre ++ polygons.flatMap (fun r => r.painterPath.subpaths))).contains pt =
      polygons.foldl (fun filled rec => xor filled (rec.painterPath.contains pt))
        ((QPainterPath.mk pre).contains pt) := by
  induction polygons generalizing pre with
  | nil => simp
  | cons rec rest ih =>
    simp only [List.flatMap_cons, List.foldl_cons, ← List.append_assoc]
    rw [ih (pre ++ rec.painterPath.subpaths)]
    congr 1
    simp only [QPainterPath.contains, List.filter_append, List.length_append]
    exact odd_add _ _

theorem painterPath_contains (self : SurfaceSymbol) (pt : QPointF) :
    self.painterPath.1.contains pt =
      self.m_polygons.foldl (fun filled rec => xor filled (rec.painterPath.contains pt))
        false := by
  have h := contains_flatMap self.m_polygons pt []
  simp only [List.nil_append] at h
  have hp : self.painterPath.1 =
      QPainterPath.mk (self.m_polygons.flatMap (fun rec => rec.painterPath.subpaths)) := by
    rw [← painterPath_subpaths self]
  rw [hp, h]
  rfl

/-- Claim C20, as amended. The path returned by `painterPath()` consists of the paths of all
polygons in file order, islands and holes alike, each added as further subpaths; under the
odd-even fill rule a point is inside exactly when an odd number of polygons contain it. -/
theorem C20_painterPath_adds_every_polygon (self : SurfaceSymbol) :
    self.painterPath.1.subpaths =
      self.m_polygons.flatMap (fun rec => rec.painterPath.subpaths) ∧
    ∀ pt, self.painterPath.1.contains pt =
      self.m_polygons.foldl (fun filled rec => xor filled (rec.painterPath.contains pt))
        false :=
  ⟨painterPath_subpaths self, painterPath_contains self⟩

theorem squarePolygon_contains (t : PolyType) (lo hi : ℚ) (pt : QPointF) :
    (squarePolygon t lo hi).painterPath.contains pt =
      decide (lo ≤ pt.x ∧ pt.x ≤ hi ∧ lo ≤ pt.y ∧ pt.y ≤ hi) := by
  by_cases h : lo ≤ pt.x ∧ pt.x ≤ hi ∧ lo ≤ pt.y ∧ pt.y ≤ hi
  · simp [squarePolygon, squarePath, QPainterPath.contains, h]
  · simp [squarePolygon, squarePath, QPainterPath.contains, h]

/-- Claim C20 as written fails. For an island inside a hole inside an island the path
contains the centre although the union of islands minus the union of holes does not; for a
hole listed before its island the path does not contain the centre although uniting and
subtracting by type in file order would. -/
theorem C20_type_directed_combination_fails :
    (nestedSurface.painterPath.1.contains ⟨5, 5⟩ = true ∧
      islandsMinusHoles nestedSurface.m_polygons ⟨5, 5⟩ = false) ∧
    (holeFirstSurface.painterPath.1.contains ⟨5, 5⟩ = false ∧
      filledByTypeInOrder holeFirstSurface.m_polygons ⟨5, 5⟩ = true) := by
  have hn : nestedSurface.m_polygons =
      [squarePolygon .I 0 10, squarePolygon .H 2 8, squarePolygon .I 4 6] := new_polygons _
  have hh : holeFirstSurface.m_polygons = [squarePolygon .H 2 8, squarePolygon .I 0 10] :=
    new_polygons _
  have e1 : (squarePolygon .I 0 10).poly_type = PolyType.I := rfl
  have e2 : (squarePolygon .H 2 8).poly_type = PolyType.H := rfl
  have e3 : (squarePolygon .I 4 6).poly_type = PolyType.I := rfl
  refine ⟨⟨?_, ?_⟩, ?_, ?_⟩
  · rw [painterPath_contains nestedSurface, hn]
    simp only [List.foldl_cons, List.foldl_nil, squarePolygon_contains]
    norm_num
  · rw [hn]
    simp only [islandsMinusHoles, List.any_cons, List.any_nil, squarePolygon_contains, e1, e2,
      e3]
    norm_num
  · rw [painterPath_contains holeFirstSurface, hh]
    simp only [List.foldl_cons, List.foldl_nil, squarePolygon_contains]
    norm_num
  · rw [hh]
    simp only [filledByTypeInOrder, List.foldl_cons, List.foldl_nil, squarePolygon_contains,
      e1, e2]
    norm_num

theorem runCalls_example :
    runCalls exampleContext 1 panelPlain exampleCalls = .ok exampleCallsResult := by
  have h : (runCalls exampleContext 1 panelPlain exampleCalls).isOk = true := by decide
  unfold exampleCallsResult
  cases hn : runCalls exampleContext 1 panelPlain exampleCalls with
  | ok r => rfl
  | error e =>
    rw [hn] at h
    cases h

theorem failingAt12_blocks :
    BlocksReturnOrThrow failingAt12 panelHeaderWithoutDatum.stepRepeat.enum := by
  intro bblk hmem
  have hb : bblk = (0, panelBlock) := by
    simpa [panelHeaderWithoutDatum, panelHeader] using hmem
  subst hb
  exact ⟨{ name := toLower "PCB", x := 1, y := 2, dx := 3, dy := 4, nx := 2, ny := 3,
           angle := 90, mirror := true }, rfl, failingAt12_returnsOrThrows⟩

theorem C12_witness :
    ∃ self', loadStepAndRepeat noDatumContext failingAt12 panelLoaded = .ok self' ∧
      self'.m_activeRect.isEmpty = true ∧
      self'.m_stepRepeatLoaded = true ∧
      self'.m_repeats =
        match panelLoaded.m_scene with
        | some scene =>
          (panelLoaded.m_repeats ++
            headerChildren noDatumContext failingAt12 panelHeaderWithoutDatum.stepRepeat.enum).map
            (fun (r : LayerFeatures) => r.addToScene scene)
        | none => panelLoaded.m_repeats ++
            headerChildren noDatumContext failingAt12 panelHeaderWithoutDatum.stepRepeat.enum :=
  C12_missing_header_key_is_absorbed noDatumContext failingAt12 panelLoaded
    panelHeaderWithoutDatum rfl (Or.inl rfl) isEmpty_null failingAt12_blocks

theorem coarseAtan2Degrees_isAtan2Degrees : IsAtan2Degrees coarseAtan2Degrees where
  range := by
    intro dy dx
    unfold coarseAtan2Degrees
    split_ifs <;> norm_num
  east := by
    intro dx hdx
    simp [coarseAtan2Degrees, le_of_lt hdx]
  north := by
    intro dy hdy
    simp [coarseAtan2Degrees, ne_of_gt hdy, hdy]
  west := by
    intro dx hdx
    simp [coarseAtan2Degrees, not_le.mpr hdx]
  south := by
    intro dy hdy
    simp [coarseAtan2Degrees, ne_of_lt hdy, not_lt.mpr (le_of_lt hdy)]

theorem shallowSurface_getAngle (f : ℚ → ℚ → ℚ) :
    shallowSurface.getAngle f = SurfaceSymbol.directionDegrees f 10 (-(1 / 10 ^ 15)) := by
  have h := getAngle_of_operation f shallowSurface shallowPolygon [] ⟨.SEGMENT, 10, 0, 0, 0⟩
    [⟨.SEGMENT, 10, 1 / 10 ^ 15, 0, 0⟩, ⟨.SEGMENT, 0, 1 / 10 ^ 15, 0, 0⟩] (new_polygons _) rfl
  have hne : SurfaceOperation.endPoint ⟨.SEGMENT, 10, 0, 0, 0⟩ ≠
      ⟨shallowPolygon.xbs, shallowPolygon.ybs⟩ := by
    intro heq
    have hx := congrArg QPointF.x heq
    norm_num [SurfaceOperation.endPoint, shallowPolygon] at hx
  rw [h, if_neg hne]
  have hx : (SurfaceOperation.endPoint ⟨.SEGMENT, 10, 0, 0, 0⟩).x - shallowPolygon.xbs = 10 := by
    norm_num [SurfaceOperation.endPoint, shallowPolygon]
  have hy : (SurfaceOperation.endPoint ⟨.SEGMENT, 10, 0, 0, 0⟩).y - shallowPolygon.ybs =
      -(1 / 10 ^ 15) := by
    norm_num [SurfaceOperation.endPoint, shallowPolygon]
  rw [hx, hy]

/-- Claim C18, evaluated where the code departs from it. For the polygon that starts at
`(0, 1e-15)` and whose first segment ends at `(10, 0)` the displacement is not zero and
points just below `+x`: the arctangent in degrees is negative and smaller than `2^-45`
in magnitude (about `-5.7e-15` for the true arctangent), and its `double` sum with
`360.0` rounds to `360.0`. So `getAngle()` returns exactly 360, which is not below
360. -/
theorem C18_getAngle_rounds_up_to_360 (f : ℚ → ℚ → ℚ)
    (hf : -(1 / 2 ^ 45) < f (-(1 / 10 ^ 15)) 10 ∧ f (-(1 / 10 ^ 15)) 10 < 0) :
    shallowSurface.m_polygons = [shallowPolygon] ∧
    shallowPolygon.operations.head? = some ⟨.SEGMENT, 10, 0, 0, 0⟩ ∧
    SurfaceOperation.endPoint ⟨.SEGMENT, 10, 0, 0, 0⟩ ≠
      ⟨shallowPolygon.xbs, shallowPolygon.ybs⟩ ∧
    shallowSurface.getAngle f = 360 ∧
    ¬ shallowSurface.getAngle f < 360 := by
  have hne : SurfaceOperation.endPoint ⟨.SEGMENT, 10, 0, 0, 0⟩ ≠
      ⟨shallowPolygon.xbs, shallowPolygon.ybs⟩ := by
    intro heq
    have hx := congrArg QPointF.x heq
    norm_num [SurfaceOperation.endPoint, shallowPolygon] at hx
  have hval : shallowSurface.getAngle f = 360 := by
    rw [shallowSurface_getAngle]
    unfold SurfaceSymbol.directionDegrees
    simp only []
    rw [if_pos hf.2]
    exact roundToDouble_add_360_eq _ hf.1 hf.2
  refine ⟨new_polygons _, rfl, hne, hval, ?_⟩
  rw [hval]
  norm_num

theorem C18_witness :
    shallowSurface.m_polygons = [shallowPolygon] ∧
    shallowPolygon.operations.head? = some ⟨.SEGMENT, 10, 0, 0, 0⟩ ∧
    SurfaceOperation.endPoint ⟨.SEGMENT, 10, 0, 0, 0⟩ ≠
      ⟨shallowPolygon.xbs, shallowPolygon.ybs⟩ ∧
    shallowSurface.getAngle slopeAtan2Degrees = 360 ∧
    ¬ shallowSurface.getAngle slopeAtan2Degrees < 360 :=
  C18_getAngle_rounds_up_to_360 slopeAtan2Degrees (by norm_num [slopeAtan2Degrees])

theorem painterPath_fold_counts (polygons : List PolygonRecord)
    (acc : QPainterPath × SurfaceSymbol) :
    (polygons.foldl (fun (acc : QPainterPath × SurfaceSymbol) rec =>
      let path := acc.1.addPath rec.painterPath
      if rec.poly_type = PolyType.I then
        (path, { acc.2 with m_islandCount := acc.2.m_islandCount + 1 })
      else
        (path, { acc.2 with m_holeCount := acc.2.m_holeCount + 1 })) acc).2.m_islandCount =
      acc.2.m_islandCount + polygons.countP (fun rec => decide (rec.poly_type = PolyType.I)) ∧
    (polygons.foldl (fun (acc : QPainterPath × SurfaceSymbol) rec =>
      let path := acc.1.addPath rec.painterPath
      if rec.poly_type = PolyType.I then
        (path, { acc.2 with m_islandCount := acc.2.m_islandCount + 1 })
      else
        (path, { acc.2 with m_holeCount := acc.2.m_holeCount + 1 })) acc).2.m_holeCount =
      acc.2.m_holeCount + polygons.countP (fun rec => decide (rec.poly_type = PolyType.H)) := by
  induction polygons generalizing acc with
  | nil => simp
  | cons rec rest ih =>
    simp only [List.foldl_cons]
    cases ht : rec.poly_type with
    | I =>
      have h := ih (acc.1.addPath rec.painterPath,
        { acc.2 with m_islandCount := acc.2.m_islandCount + 1 })
      simp only [if_true]
      rw [h.1, h.2]
      simp [List.countP_cons, ht]
      omega
    | H =>
      have h := ih (acc.1.addPath rec.painterPath,
        { acc.2 with m_holeCount := acc.2.m_holeCount + 1 })
      simp only [reduceCtorEq, if_false]
      rw [h.1, h.2]
      simp [List.countP_cons, ht]
      omega

theorem painterPath_counts (self : SurfaceSymbol) :
    self.painterPath.2.m_islandCount =
      self.m_polygons.countP (fun rec => decide (rec.poly_type = PolyType.I)) ∧
    self.painterPath.2.m_holeCount =
      self.m_polygons.countP (fun rec => decide (rec.poly_type = PolyType.H)) ∧
    self.painterPath.2.m_polygons = self.m_polygons := by
  unfold SurfaceSymbol.painterPath
  have h := painterPath_fold_counts self.m_polygons
    (QPainterPath.empty, { self with m_islandCount := 0, m_holeCount := 0 })
  have hp := (painterPath_fold self.m_polygons
    (QPainterPath.empty, { self with m_islandCount := 0, m_holeCount := 0 })).2
  refine ⟨?_, ?_, hp⟩
  · rw [h.1]; simp
  · rw [h.2]; simp

theorem countP_island_add_hole (polygons : List PolygonRecord) :
    polygons.countP (fun rec => decide (rec.poly_type = PolyType.I)) +
      polygons.countP (fun rec => decide (rec.poly_type = PolyType.H)) = polygons.length := by
  induction polygons with
  | nil => rfl
  | cons rec rest ih =>
    cases ht : rec.poly_type <;> simp [List.countP_cons, ht] <;> omega

/-- Claim C21. After any call of `painterPath()` the island counter is the number of
polygons of type island and the hole counter the number of polygons of type hole, so the
two add up to the number of polygons; a further call returns the same two counters (they
are reset and recounted, not accumulated); and the symbol the constructor returns, which
made one such call, carries these counters for the polygons of its record. -/
theorem C21_counters_recomputed_by_painterPath (self : SurfaceSymbol) :
    (self.painterPath.2.m_islandCount =
        self.m_polygons.countP (fun rec => decide (rec.poly_type = PolyType.I)) ∧
      self.painterPath.2.m_holeCount =
        self.m_polygons.countP (fun rec => decide (rec.poly_type = PolyType.H)) ∧
      self.painterPath.2.m_islandCount + self.painterPath.2.m_holeCount =
        self.m_polygons.length) ∧
    (self.painterPath.2.painterPath.2.m_islandCount = self.painterPath.2.m_islandCount ∧
      self.painterPath.2.painterPath.2.m_holeCount = self.painterPath.2.m_holeCount) ∧
    (∀ rec : SurfaceRecord,
      (SurfaceSymbol.new rec).m_islandCount =
        rec.polygons.countP (fun r => decide (r.poly_type = PolyType.I)) ∧
      (SurfaceSymbol.new rec).m_holeCount =
        rec.polygons.countP (fun r => decide (r.poly_type = PolyType.H)) ∧
      (SurfaceSymbol.new rec).m_islandCount + (SurfaceSymbol.new rec).m_holeCount =
        rec.polygons.length) := by
  have h1 := painterPath_counts self
  have h2 := painterPath_counts self.painterPath.2
  refine ⟨⟨h1.1, h1.2.1, ?_⟩, ⟨?_, ?_⟩, ?_⟩
  · rw [h1.1, h1.2.1]
    exact countP_island_add_hole _
  · rw [h2.1, h1.2.2, h1.1]
  · rw [h2.2.1, h1.2.2, h1.2.1]
  · intro rec
    have h3 := painterPath_counts
      { m_polygons := rec.polygons, m_holeCount := 0, m_islandCount := 0,
        m_bounding := QRectF.null }
    have hi : (SurfaceSymbol.new rec).m_islandCount =
        rec.polygons.countP (fun r => decide (r.poly_type = PolyType.I)) := h3.1
    have hh : (SurfaceSymbol.new rec).m_holeCount =
        rec.polygons.countP (fun r => decide (r.poly_type = PolyType.H)) := h3.2.1
    refine ⟨hi, hh, ?_⟩
    rw [hi, hh]
    exact countP_island_add_hole _

/-! ## Trace thickness -/

/-- Claim C22, evaluated where the code departs from it. On the three-pixel stripe with
the pixel `(0, 1)` inside the image, of the highlight colour, in a run of three matching
pixels, and the angle 135 degrees (rectangles of size 1 by 3), none of the three failure
conditions holds, yet `measureTraceThickness` returns `3 * cos(135 degrees) * 25.4`,
which is negative for every cosine that is negative at 135 degrees. -/
theorem C22_thickness_negative_at_obtuse_angle (cosDegrees : ℚ → ℚ)
    (hcos : cosDegrees 135 < 0) :
    (0 ≤ (0 : Int) ∧ (0 : Int) < stripeImage.width ∧ 0 ≤ (1 : Int) ∧
      (1 : Int) < stripeImage.height) ∧
    SurfaceSymbol.colorMatch (stripeImage.pixel 0 1) blue 40 = true ∧
    SurfaceSymbol.scanLength (fun y => SurfaceSymbol.colorMatch (stripeImage.pixel 0 y) blue 40)
        (SurfaceSymbol.scanBefore 1) +
      SurfaceSymbol.scanLength
        (fun y => SurfaceSymbol.colorMatch (stripeImage.pixel 0 y) blue 40)
        (SurfaceSymbol.scanAfter 1 stripeImage.height) + 1 = 3 ∧
    SurfaceSymbol.measureTraceThickness cosDegrees stripeImage 0 1 135 ⟨0, 0, 1, 3⟩
      ⟨0, 0, 1, 3⟩ blue = 3 * cosDegrees 135 * (254 / 10) ∧
    SurfaceSymbol.measureTraceThickness cosDegrees stripeImage 0 1 135 ⟨0, 0, 1, 3⟩
      ⟨0, 0, 1, 3⟩ blue < 0 := by
  have hmatch : ∀ x y, SurfaceSymbol.colorMatch (stripeImage.pixel x y) blue 40 = true := by
    intro x y
    simp [SurfaceSymbol.colorMatch, stripeImage]
  have hbefore : SurfaceSymbol.scanBefore 1 = [0] := by
    simp [SurfaceSymbol.scanBefore, List.range_succ]
  have hafter : SurfaceSymbol.scanAfter 1 stripeImage.height = [2] := by
    simp [SurfaceSymbol.scanAfter, stripeImage, List.range_succ]
  have hafter3 : SurfaceSymbol.scanAfter 1 3 = [2] := hafter
  have hangle : ¬ (|(135 : ℚ) - 90| < 5) := by norm_num [abs_lt]
  have hval : SurfaceSymbol.measureTraceThickness cosDegrees stripeImage 0 1 135 ⟨0, 0, 1, 3⟩
      ⟨0, 0, 1, 3⟩ blue = 3 * cosDegrees 135 * (254 / 10) := by
    unfold SurfaceSymbol.measureTraceThickness
    have hb : ¬ ((0 : Int) < 0 ∨ (0 : Int) ≥ stripeImage.width ∨ (1 : Int) < 0 ∨
        (1 : Int) ≥ stripeImage.height) := by
      simp [stripeImage]
    rw [if_neg hb]
    simp only [hmatch, Bool.not_true, Bool.false_eq_true, if_false]
    have h180 : ¬ ((135 : ℚ) ≥ 180) := by norm_num
    simp only [h180, if_false, hangle, decide_False, Bool.false_eq_true, hbefore, hafter,
      SurfaceSymbol.scanLength, List.takeWhile_cons, List.takeWhile_nil, if_true,
      List.length_cons, List.length_nil]
    norm_num
  refine ⟨by simp [stripeImage], hmatch 0 1, ?_, hval, ?_⟩
  · rw [hbefore, hafter]
    simp [SurfaceSymbol.scanLength, hmatch]
  · rw [hval]
    nlinarith

theorem C22_witness :
    ((0 ≤ (0 : Int) ∧ (0 : Int) < stripeImage.width ∧ 0 ≤ (1 : Int) ∧
      (1 : Int) < stripeImage.height) ∧
    SurfaceSymbol.colorMatch (stripeImage.pixel 0 1) blue 40 = true ∧
    SurfaceSymbol.scanLength (fun y => SurfaceSymbol.colorMatch (stripeImage.pixel 0 y) blue 40)
        (SurfaceSymbol.scanBefore 1) +
      SurfaceSymbol.scanLength
        (fun y => SurfaceSymbol.colorMatch (stripeImage.pixel 0 y) blue 40)
        (SurfaceSymbol.scanAfter 1 stripeImage.height) + 1 = 3 ∧
    SurfaceSymbol.measureTraceThickness coarseCosDegrees stripeImage 0 1 135 ⟨0, 0, 1, 3⟩
      ⟨0, 0, 1, 3⟩ blue = 3 * coarseCosDegrees 135 * (254 / 10) ∧
    SurfaceSymbol.measureTraceThickness coarseCosDegrees stripeImage 0 1 135 ⟨0, 0, 1, 3⟩
      ⟨0, 0, 1, 3⟩ blue < 0) :=
  C22_thickness_negative_at_obtuse_angle coarseCosDegrees (by norm_num [coarseCosDegrees])

/-! ## The Go To dialog -/

theorem dialogAfter_unit (setValue : ℚ → ℚ) (events : List DialogEvent) :
    (dialogAfter setValue events).m_currentUnit = (dialogAfter setValue events).m_unitComboBox ∧
    ((dialogAfter setValue events).m_unitComboBox = 0 ∨
      (dialogAfter setValue events).m_unitComboBox = 1) := by
  unfold dialogAfter
  induction events using List.reverseRecOn with
  | nil => exact ⟨rfl, Or.inl rfl⟩
  | append_singleton events e ih =>
    rw [List.foldl_append, List.foldl_cons, List.foldl_nil]
    generalize List.foldl (DialogEvent.apply setValue) GoToCoordinateDialog.new events = d at ih
    obtain ⟨hu, hr⟩ := ih
    have hset : ∀ index : Int, index = 0 ∨ index = 1 →
        (d.setUnitIndex setValue index).m_currentUnit =
          (d.setUnitIndex setValue index).m_unitComboBox ∧
        ((d.setUnitIndex setValue index).m_unitComboBox = 0 ∨
          (d.setUnitIndex setValue index).m_unitComboBox = 1) := by
      intro index hindex
      unfold GoToCoordinateDialog.setUnitIndex
      by_cases h : index = d.m_unitComboBox
      · rw [if_pos h]
        exact ⟨hu, hr⟩
      · rw [if_neg h]
        unfold GoToCoordinateDialog.onUnitChanged
        have h' : ¬ index = d.m_currentUnit := by rw [hu]; exact h
        simp only [h', if_false]
        unfold GoToCoordinateDialog.convertCoordinates
        split <;> exact ⟨rfl, hindex⟩
    cases e with
    | editX value => exact ⟨hu, hr⟩
    | editY value => exact ⟨hu, hr⟩
    | pickUnit mm =>
      cases mm
      · exact hset 0 (Or.inl rfl)
      · exact hset 1 (Or.inr rfl)
    | pickZoom index => exact ⟨hu, hr⟩
    | setDisplayUnit unit =>
      show (d.setDisplayUnit setValue unit).m_currentUnit =
          (d.setDisplayUnit setValue unit).m_unitComboBox ∧
        ((d.setDisplayUnit setValue unit).m_unitComboBox = 0 ∨
          (d.setDisplayUnit setValue unit).m_unitComboBox = 1)
      unfold GoToCoordinateDialog.setDisplayUnit
      by_cases h : unit ≥ 0 ∧ unit ≤ 1
      · rw [if_pos h]
        have hunit : unit = 0 ∨ unit = 1 := by omega
        have hs := hset unit hunit
        have hidx : (d.setUnitIndex setValue unit).m_unitComboBox = unit := by
          unfold GoToCoordinateDialog.setUnitIndex
          by_cases h2 : unit = d.m_unitComboBox
          · rw [if_pos h2]; exact h2.symm
          · rw [if_neg h2]
            unfold GoToCoordinateDialog.onUnitChanged
            have h' : ¬ unit = d.m_currentUnit := by rw [hu]; exact h2
            simp only [h', if_false]
            unfold GoToCoordinateDialog.convertCoordinates
            split <;> rfl
        simp only []
        unfold GoToCoordinateDialog.onUnitChanged
        rw [if_pos (by rw [hs.1, hidx])]
        exact hs
      · rw [if_neg h]
        exact ⟨hu, hr⟩
    | clickGoTo => exact ⟨hu, hr⟩
    | clickCancel => exact ⟨hu, hr⟩

/-- Claim C24. Whatever happened to the dialog before (edits, unit and zoom choices,
`setDisplayUnit`, earlier showings), a click on Go To accepts the dialog and afterwards
`getCoordinate()` is the pair of spin box values when the unit box shows inch (index 0),
and that pair divided by 25.4 when it shows MM (index 1); the unit box shows one of the
two. -/
theorem C24_getCoordinate_is_in_inches (setValue : ℚ → ℚ) (events : List DialogEvent) :
    (dialogAfter setValue events).onGoToClicked.result = some true ∧
    ((dialogAfter setValue events).m_unitComboBox = 0 ∨
      (dialogAfter setValue events).m_unitComboBox = 1) ∧
    (dialogAfter setValue events).onGoToClicked.getCoordinate =
      (if (dialogAfter setValue events).m_unitComboBox = 1 then
        ⟨(dialogAfter setValue events).m_xSpinBox / (254 / 10),
          (dialogAfter setValue events).m_ySpinBox / (254 / 10)⟩
      else
        ⟨(dialogAfter setValue events).m_xSpinBox, (dialogAfter setValue events).m_ySpinBox⟩) := by
  obtain ⟨hu, hr⟩ := dialogAfter_unit setValue events
  refine ⟨rfl, hr, ?_⟩
  by_cases h : (dialogAfter setValue events).m_unitComboBox = 1
  · have h1 : (dialogAfter setValue events).m_currentUnit = 1 := by rw [hu, h]
    simp [GoToCoordinateDialog.onGoToClicked, GoToCoordinateDialog.getCoordinate, h1, h]
  · have h0 : ¬ (dialogAfter setValue events).m_currentUnit = 1 := by rw [hu]; exact h
    simp [GoToCoordinateDialog.onGoToClicked, GoToCoordinateDialog.getCoordinate, h0, h]

/-! ## Size of an exported PNG -/

theorem targetSize_fits_of_square (settings : ExportSettings) (exportRect : QRectF)
    (hsquare : settings.width = settings.height) (hpos : 0 < settings.width)
    (hw : 0 < exportRect.w) (hh : 0 < exportRect.h) :
    (PngExporter.targetSize settings exportRect).width ≤ settings.width ∧
    (PngExporter.targetSize settings exportRect).height ≤ settings.height := by
  unfold PngExporter.targetSize
  simp only []
  have hposq : (0 : ℚ) < (settings.width : ℚ) := by exact_mod_cast hpos
  have hratio : 0 < exportRect.w / exportRect.h := div_pos hw hh
  cases settings.cropToContent with
  | false => simp
  | true =>
    simp only [if_true]
    by_cases ha : exportRect.w / exportRect.h > 1
    · rw [if_pos ha]
      refine ⟨le_refl _, ?_⟩
      have hq : (settings.width : ℚ) / (exportRect.w / exportRect.h) ≤ settings.width :=
        div_le_self (le_of_lt hposq) (le_of_lt ha)
      have h0 : 0 ≤ (settings.width : ℚ) / (exportRect.w / exportRect.h) :=
        le_of_lt (div_pos hposq hratio)
      show truncToInt _ ≤ settings.height
      unfold truncToInt
      rw [if_pos h0, ← hsquare]
      exact Int.floor_le_floor hq |>.trans (by simp)
    · rw [if_neg ha]
      refine ⟨?_, le_refl _⟩
      have ha' : exportRect.w / exportRect.h ≤ 1 := not_lt.mp ha
      have hq : (settings.height : ℚ) * (exportRect.w / exportRect.h) ≤ settings.height := by
        have hposh : (0 : ℚ) ≤ (settings.height : ℚ) := by rw [← hsquare]; exact le_of_lt hposq
        exact mul_le_of_le_one_right hposh ha'
      have h0 : 0 ≤ (settings.height : ℚ) * (exportRect.w / exportRect.h) := by
        have hposh : (0 : ℚ) ≤ (settings.height : ℚ) := by rw [← hsquare]; exact le_of_lt hposq
        exact mul_nonneg hposh (le_of_lt hratio)
      show truncToInt _ ≤ settings.width
      unfold truncToInt
      rw [if_pos h0, hsquare]
      exact Int.floor_le_floor hq |>.trans (by simp)

/-- Claim C25, evaluated where the code departs from it. With `cropToContent` set, a
target of 400 by 100 pixels and an export rectangle twice as wide as high, the size
chosen is 400 by 200: the width is kept and the height is derived from it alone, so the
height exceeds the configured 100. -/
theorem C25_target_height_exceeds_setting :
    PngExporter.targetSize ⟨400, 100, true⟩ ⟨0, 0, 2, 1⟩ = ⟨400, 200⟩ ∧
    (PngExporter.targetSize ⟨400, 100, true⟩ ⟨0, 0, 2, 1⟩).height >
      (ExportSettings.mk 400 100 true).height := by
  have h : PngExporter.targetSize ⟨400, 100, true⟩ ⟨0, 0, 2, 1⟩ = ⟨400, 200⟩ := by
    unfold PngExporter.targetSize truncToInt
    have e : ((400 : Int) : ℚ) / (2 / 1) = ((200 : Int) : ℚ) := by norm_num
    norm_num [e, Int.floor_intCast]
  refine ⟨h, ?_⟩
  rw [h]
  decide

/-! ## The report model -/

theorem reportTotal_eq (countMap : CountMapType) (suffix : String) (total : Nat)
    (h : total < 2 ^ 32) :
    reportTotal total countMap =
      (total + ((reportRows countMap suffix).map ReportRow.count).sum) % 2 ^ 32 := by
  induction countMap generalizing total with
  | nil =>
    simp only [reportTotal, reportRows, List.foldl_nil, List.map_nil, List.sum_nil, Nat.add_zero]
    exact (Nat.mod_eq_of_lt h).symm
  | cons it rest ih =>
    have hlt : (total + it.2) % 2 ^ 32 < 2 ^ 32 := Nat.mod_lt _ (by norm_num)
    have h1 := ih ((total + it.2) % 2 ^ 32) hlt
    unfold reportTotal at h1 ⊢
    rw [List.foldl_cons, h1]
    simp only [reportRows, List.map_cons, List.map_map, List.sum_cons]
    omega

theorem reportMapCategory_total (name : String) (showStepRepeat : Bool)
    (m_pos m_neg ds_pos ds_neg : CountMapType) :
    (reportMapCategory name showStepRepeat m_pos m_neg ds_pos ds_neg).total =
      (reportMapCategory name showStepRepeat m_pos m_neg ds_pos ds_neg).rowSum % 2 ^ 32 := by
  unfold reportMapCategory ReportCategory.rowSum
  simp only [List.map_append, List.sum_append]
  rw [reportTotal_eq _ " NEG" _ (by
    rw [reportTotal_eq _ " POS" 0 (by norm_num)]
    exact Nat.mod_lt _ (by norm_num)), reportTotal_eq _ " POS" 0 (by norm_num)]
  omega

/-- Claim C28, evaluated where the code departs from it. For the panel of the example
archive, built with step-repeat shown (six boards with one positive surface each, none
of its own), the report model shows under Lines and Pad totals equal to the sum of their
rows (13 and 6), but under Surface the total 6 above the rows `POS 0` and `NEG 0`, whose
sum is 0. -/
theorem C28_surface_total_differs_from_rows :
    panelInstance.m_showStepRepeat = true ∧
    panelInstance.reportModel.map (fun c => (c.name, c.total, c.rowSum)) =
      [("Lines", 13, 13), ("Pad", 6, 6), ("Arc", 0, 0), ("Surface", 6, 0), ("Text", 0, 0),
        ("Barcode", 0, 0)] ∧
    (panelInstance.reportModel.map ReportCategory.rows).getD 3 [] = [⟨"POS", 0⟩, ⟨"NEG", 0⟩] := by
  refine ⟨?_, ?_, ?_⟩ <;> decide

/-! ## Termination of the construction -/

theorem foldlM_settled {σ α : Type} (f : σ → α → Result σ) (l : List α)
    (h : ∀ a ∈ l, ∀ s, f s a ≠ .error .outOfFuel) (s : σ) :
    l.foldlM f s ≠ .error .outOfFuel := by
  induction l generalizing s with
  | nil => simp [List.foldlM_nil, pure, Except.pure]
  | cons a rest ih =>
    simp only [List.foldlM_cons]
    cases hfa : f s a with
    | error e =>
      intro hc
      exact h a (List.mem_cons_self _ _) s (hfa.trans hc)
    | ok s1 => exact ih (fun a' ha' => h a' (List.mem_cons_of_mem _ ha')) s1

theorem foldlM_agree {σ α : Type} (f g : σ → α → Result σ) (l : List α)
    (h : ∀ a ∈ l, ∀ s, f s a ≠ .error .outOfFuel → g s a = f s a) (s : σ)
    (hs : l.foldlM f s ≠ .error .outOfFuel) : l.foldlM g s = l.foldlM f s := by
  induction l generalizing s with
  | nil => rfl
  | cons a rest ih =>
    simp only [List.foldlM_cons] at hs ⊢
    cases hfa : f s a with
    | error e =>
      rw [hfa] at hs
      have hne : f s a ≠ .error .outOfFuel := by rw [hfa]; exact hs
      rw [h a (List.mem_cons_self _ _) s hne, hfa]
      rfl
    | ok s1 =>
      rw [hfa] at hs
      have hne : f s a ≠ .error .outOfFuel := by rw [hfa]; simp
      rw [h a (List.mem_cons_self _ _) s hne, hfa]
      exact ih (fun a' ha' => h a' (List.mem_cons_of_mem _ ha')) s1 hs

theorem readStepRepeat_settled (blk : StepRepeatBlock) :
    (∃ p n, readStepRepeat blk = .ok p ∧ blk.NAME = some n ∧ p.name = toLower n) ∨
    readStepRepeat blk = .error (.exception .invalidKey) := by
  obtain ⟨NAME, X, Y, DX, DY, NX, NY, ANGLE, MIRROR⟩ := blk
  cases NAME <;> cases X <;> cases Y <;> cases DX <;> cases DY <;> cases NX <;> cases NY <;>
    cases ANGLE <;> cases MIRROR <;>
    simp [readStepRepeat, GET, bind, Except.bind, pure, Except.pure]

theorem stepRepeatCell_settled (ctx : Context)
    (o : Nat → Nat → Nat → String → Result LayerFeatures)
    (b : Nat) (name : String) (x y dx dy angle : ℚ) (mirror : Bool)
    (self : LayerFeatures) (i j : Nat) :
    stepRepeatCell ctx o b name x y dx dy angle mirror self i j ≠ .error .outOfFuel ↔
      o b i j name ≠ .error .outOfFuel := by
  unfold stepRepeatCell
  cases ho : o b i j name with
  | ok step => simp
  | error f => cases f <;> simp

theorem stepRepeatCell_agree (ctx : Context)
    (o1 o2 : Nat → Nat → Nat → String → Result LayerFeatures)
    (b : Nat) (name : String) (x y dx dy angle : ℚ) (mirror : Bool)
    (self : LayerFeatures) (i j : Nat) (h : o2 b i j name = o1 b i j name) :
    stepRepeatCell ctx o2 b name x y dx dy angle mirror self i j =
      stepRepeatCell ctx o1 b name x y dx dy angle mirror self i j := by
  unfold stepRepeatCell
  rw [h]

theorem stepRepeatBlock_settled (ctx : Context)
    (o : Nat → Nat → Nat → String → Result LayerFeatures)
    (self : LayerFeatures) (b : Nat) (blk : StepRepeatBlock)
    (h : ∀ n, blk.NAME = some n → ∀ i j, o b i j (toLower n) ≠ .error .outOfFuel) :
    stepRepeatBlock ctx o self b blk ≠ .error .outOfFuel := by
  rcases readStepRepeat_settled blk with ⟨p, n, hp, hn, hname⟩ | herr
  · rw [stepRepeatBlock_eq_flat ctx o self b blk p hp]
    apply foldlM_settled
    intro c _ s
    rw [stepRepeatCell_settled, hname]
    exact h n hn c.1 c.2
  · unfold stepRepeatBlock
    rw [herr]
    simp [bind, Except.bind]

theorem stepRepeatBlock_agree (ctx : Context)
    (o1 o2 : Nat → Nat → Nat → String → Result LayerFeatures)
    (self : LayerFeatures) (b : Nat) (blk : StepRepeatBlock)
    (h : ∀ n, blk.NAME = some n → ∀ i j, o1 b i j (toLower n) ≠ .error .outOfFuel →
      o2 b i j (toLower n) = o1 b i j (toLower n))
    (hs : stepRepeatBlock ctx o1 self b blk ≠ .error .outOfFuel) :
    stepRepeatBlock ctx o2 self b blk = stepRepeatBlock ctx o1 self b blk := by
  rcases readStepRepeat_settled blk with ⟨p, n, hp, hn, hname⟩ | herr
  · rw [stepRepeatBlock_eq_flat ctx o1 self b blk p hp] at hs ⊢
    rw [stepRepeatBlock_eq_flat ctx o2 self b blk p hp]
    apply foldlM_agree _ _ _ _ _ hs
    intro c _ s hc
    rw [stepRepeatCell_settled, hname] at hc
    apply stepRepeatCell_agree
    rw [hname]
    exact h n hn c.1 c.2 hc
  · unfold stepRepeatBlock
    rw [herr]
    rfl

theorem loadStepAndRepeat_settled (ctx : Context)
    (o : Nat → Nat → Nat → String → Result LayerFeatures) (self : LayerFeatures)
    (h : ∀ name, References ctx self.m_step name →
      ∀ b i j, o b i j name ≠ .error .outOfFuel) :
    loadStepAndRepeat ctx o self ≠ .error .outOfFuel := by
  unfold loadStepAndRepeat
  cases hhdr : ctx.parseStepHdr self.m_step with
  | none => simp
  | some hds =>
    simp only []
    have hfold := foldlM_settled
      (fun self (bblk : Nat × StepRepeatBlock) => stepRepeatBlock ctx o self bblk.1 bblk.2)
      hds.stepRepeat.enum
      (fun bblk hmem s => stepRepeatBlock_settled ctx o s bblk.1 bblk.2
        (fun n hn i j => h (toLower n)
          ⟨hds, hhdr, bblk.2, (List.mem_enum hmem).2 ▸ List.getElem_mem _, n, hn, rfl⟩
          bblk.1 i j))
      (beginStepAndRepeat hds self)
    cases hr : List.foldlM
        (fun self (bblk : Nat × StepRepeatBlock) => stepRepeatBlock ctx o self bblk.1 bblk.2)
        (beginStepAndRepeat hds self) hds.stepRepeat.enum with
    | error e =>
      rw [hr] at hfold
      simpa [bind, Except.bind] using hfold
    | ok s1 => simp [bind, Except.bind, pure, Except.pure]

theorem loadStepAndRepeat_agree (ctx : Context)
    (o1 o2 : Nat → Nat → Nat → String → Result LayerFeatures) (self : LayerFeatures)
    (h : ∀ name, References ctx self.m_step name → ∀ b i j,
      o1 b i j name ≠ .error .outOfFuel → o2 b i j name = o1 b i j name)
    (hs : loadStepAndRepeat ctx o1 self ≠ .error .outOfFuel) :
    loadStepAndRepeat ctx o2 self = loadStepAndRepeat ctx o1 self := by
  unfold loadStepAndRepeat at hs ⊢
  cases hhdr : ctx.parseStepHdr self.m_step with
  | none => rfl
  | some hds =>
    rw [hhdr] at hs
    simp only [] at hs ⊢
    have hfold : List.foldlM
        (fun self (bblk : Nat × StepRepeatBlock) => stepRepeatBlock ctx o1 self bblk.1 bblk.2)
        (beginStepAndRepeat hds self) hds.stepRepeat.enum ≠ .error .outOfFuel := by
      intro hc
      rw [hc] at hs
      exact hs rfl
    have hagree := foldlM_agree
      (fun self (bblk : Nat × StepRepeatBlock) => stepRepeatBlock ctx o1 self bblk.1 bblk.2)
      (fun self (bblk : Nat × StepRepeatBlock) => stepRepeatBlock ctx o2 self bblk.1 bblk.2)
      hds.stepRepeat.enum
      (fun bblk hmem s hne => stepRepeatBlock_agree ctx o1 o2 s bblk.1 bblk.2
        (fun n hn i j => h (toLower n)
          ⟨hds, hhdr, bblk.2, (List.mem_enum hmem).2 ▸ List.getElem_mem _, n, hn, rfl⟩
          bblk.1 i j) hne)
      (beginStepAndRepeat hds self) hfold
    rw [hagree]

theorem new_agree (ctx : Context) (fuel : Nat) :
    ∀ (step path : String) (stepRepeat : Bool),
      LayerFeatures.new ctx fuel step path stepRepeat ≠ .error .outOfFuel →
      LayerFeatures.new ctx (fuel + 1) step path stepRepeat =
        LayerFeatures.new ctx fuel step path stepRepeat := by
  induction fuel with
  | zero =>
    intro step path stepRepeat h
    exact absurd rfl h
  | succ fuel ih =>
    intro step path stepRepeat h
    rw [LayerFeatures.new] at h
    conv_lhs => rw [LayerFeatures.new]
    conv_rhs => rw [LayerFeatures.new]
    cases hparse : ctx.parseFeatures path step with
    | none => rfl
    | some ds =>
      rw [hparse] at h
      simp only [] at h ⊢
      split
      · rename_i hshow
        rw [if_pos hshow] at h
        exact loadStepAndRepeat_agree ctx _ _ _
          (fun name _ b i j hne => ih name _ true hne) h
      · rfl

theorem new_agree_add (ctx : Context) (fuel : Nat) (step path : String) (stepRepeat : Bool)
    (h : LayerFeatures.new ctx fuel step path stepRepeat ≠ .error .outOfFuel) (k : Nat) :
    LayerFeatures.new ctx (fuel + k) step path stepRepeat =
      LayerFeatures.new ctx fuel step path stepRepeat := by
  induction k with
  | zero => rfl
  | succ k ih =>
    have h1 : LayerFeatures.new ctx (fuel + k) step path stepRepeat ≠ .error .outOfFuel := by
      rw [ih]; exact h
    rw [← Nat.add_assoc, new_agree ctx (fuel + k) step path stepRepeat h1, ih]

theorem new_settled (ctx : Context) (steps : List String)
    (hsteps : ∀ a b, References ctx a b → a ∈ steps) (hacyclic : Acyclic ctx) (fuel : Nat) :
    ∀ (ancestors : List String) (step path : String) (stepRepeat : Bool),
      ancestors.Nodup → ancestors ⊆ steps →
      (∀ a ∈ ancestors, Relation.TransGen (References ctx) a step) →
      steps.length < fuel + ancestors.length →
      LayerFeatures.new ctx fuel step path stepRepeat ≠ .error .outOfFuel := by
  induction fuel with
  | zero =>
    intro ancestors step path stepRepeat hnodup hsub _ hlen
    have := (List.subperm_of_subset hnodup hsub).length_le
    omega
  | succ fuel ih =>
    intro ancestors step path stepRepeat hnodup hsub hanc hlen
    rw [LayerFeatures.new]
    cases hparse : ctx.parseFeatures path step with
    | none => simp
    | some ds =>
      simp only []
      split
      · apply loadStepAndRepeat_settled
        intro name href b i j
        have href' : References ctx step name := href
        have hnotin : step ∉ ancestors := fun hin => hacyclic step (hanc step hin)
        apply ih (step :: ancestors) name _ true (List.nodup_cons.mpr ⟨hnotin, hnodup⟩)
        · intro a ha
          rcases List.mem_cons.mp ha with rfl | ha
          · exact hsteps _ _ href'
          · exact hsub ha
        · intro a ha
          rcases List.mem_cons.mp ha with rfl | ha
          · exact Relation.TransGen.single href'
          · exact Relation.TransGen.tail (hanc a ha) href'
        · simp only [List.length_cons]
          omega
      · simp

/-- Claim C26. In an archive whose steps with references are among finitely many
(`steps`) and whose reference relation has no cycle, the construction of a
`LayerFeatures` (with or without step-repeat) terminates: with any recursion budget above
the number of those steps the constructor ends without exhausting it, and always with the
same outcome. Each block whose nine keys are present runs the loop body once per cell of
its grid, the grid has `max(NX, 0) * max(NY, 0)` cells, and none when `NX <= 0` or
`NY <= 0`. -/
theorem C26_construction_terminates (ctx : Context) (steps : List String)
    (hsteps : ∀ a b, References ctx a b → a ∈ steps) (hacyclic : Acyclic ctx)
    (step path : String) (stepRepeat : Bool) :
    (∀ fuel, steps.length < fuel →
      LayerFeatures.new ctx fuel step path stepRepeat ≠ .error .outOfFuel ∧
      LayerFeatures.new ctx fuel step path stepRepeat =
        LayerFeatures.new ctx (steps.length + 1) step path stepRepeat) ∧
    (∀ (o : Nat → Nat → Nat → String → Result LayerFeatures) (self : LayerFeatures) (b : Nat)
      (blk : StepRepeatBlock) (p : StepRepeatParams), readStepRepeat blk = .ok p →
      stepRepeatBlock ctx o self b blk =
        (gridCells p.nx p.ny).foldlM (fun self c =>
          stepRepeatCell ctx o b p.name p.x p.y p.dx p.dy p.angle p.mirror self c.1 c.2)
          self ∧
      ((gridCells p.nx p.ny).length : Int) = max p.nx 0 * max p.ny 0 ∧
      (p.nx ≤ 0 ∨ p.ny ≤ 0 → gridCells p.nx p.ny = [])) := by
  have hbase : LayerFeatures.new ctx (steps.length + 1) step path stepRepeat ≠
      .error .outOfFuel :=
    new_settled ctx steps hsteps hacyclic (steps.length + 1) [] step path stepRepeat
      List.nodup_nil (List.nil_subset _) (fun a ha => absurd ha (List.not_mem_nil a))
      (by simp)
  refine ⟨fun fuel hfuel => ?_, fun o self b blk p hp => ⟨?_, ?_, ?_⟩⟩
  · obtain ⟨k, rfl⟩ : ∃ k, fuel = steps.length + 1 + k := ⟨fuel - (steps.length + 1), by omega⟩
    have heq := new_agree_add ctx (steps.length + 1) step path stepRepeat hbase k
    exact ⟨by rw [heq]; exact hbase, heq⟩
  · exact stepRepeatBlock_eq_flat ctx o self b blk p hp
  · rw [length_gridCells, Nat.cast_mul, Int.toNat_eq_max, Int.toNat_eq_max]
  · intro h
    have hlen : (gridCells p.nx p.ny).length = 0 := by
      rw [length_gridCells]
      rcases h with h | h
      · rw [Int.toNat_eq_zero.mpr h, Nat.zero_mul]
      · rw [Int.toNat_eq_zero.mpr h, Nat.mul_zero]
    exact List.length_eq_zero.mp hlen

theorem references_example (a b : String) (h : References exampleContext a b) :
    a = "panel" ∧ b = "pcb" := by
  obtain ⟨hds, hhdr, blk, hblk, n, hn, hb⟩ := h
  by_cases ha : a = "panel"
  · subst ha
    have hh : hds = panelHeader := by
      have : exampleContext.parseStepHdr "panel" = some panelHeader := rfl
      rw [this] at hhdr
      exact (Option.some.inj hhdr).symm
    subst hh
    have hb' : blk = panelBlock := by simpa [panelHeader] using hblk
    subst hb'
    have hn' : n = "PCB" := by
      have : panelBlock.NAME = some "PCB" := rfl
      rw [this] at hn
      exact (Option.some.inj hn).symm
    subst hn'
    exact ⟨rfl, hb.symm.trans (by decide)⟩
  · exfalso
    by_cases hp : a = "pcb"
    · subst hp
      have : exampleContext.parseStepHdr "pcb" = some pcbHeader := rfl
      rw [this] at hhdr
      have hh : hds = pcbHeader := (Option.some.inj hhdr).symm
      subst hh
      simp [pcbHeader] at hblk
    · have : exampleContext.parseStepHdr a = none := by
        simp [exampleContext, ha, hp]
      rw [this] at hhdr
      cases hhdr

theorem acyclic_example : Acyclic exampleContext := by
  intro a h
  have hhead : ∀ x y, Relation.TransGen (References exampleContext) x y → x = "panel" := by
    intro x y hxy
    induction hxy with
    | single h1 => exact (references_example _ _ h1).1
    | tail _ _ ih => exact ih
  have htail : ∀ x y, Relation.TransGen (References exampleContext) x y → y = "pcb" := by
    intro x y hxy
    cases hxy with
    | single h1 => exact (references_example _ _ h1).2
    | tail _ h1 => exact (references_example _ _ h1).2
  have h1 := hhead a a h
  have h2 := htail a a h
  rw [h1] at h2
  exact absurd h2 (by decide)

theorem C26_witness :
    (∀ fuel, ["panel"].length < fuel →
      LayerFeatures.new exampleContext fuel "panel" "features" true ≠ .error .outOfFuel ∧
      LayerFeatures.new exampleContext fuel "panel" "features" true =
        LayerFeatures.new exampleContext (["panel"].length + 1) "panel" "features" true) ∧
    (∀ (o : Nat → Nat → Nat → String → Result LayerFeatures) (self : LayerFeatures) (b : Nat)
      (blk : StepRepeatBlock) (p : StepRepeatParams), readStepRepeat blk = .ok p →
      stepRepeatBlock exampleContext o self b blk =
        (gridCells p.nx p.ny).foldlM (fun self c =>
          stepRepeatCell exampleContext o b p.name p.x p.y p.dx p.dy p.angle p.mirror self
            c.1 c.2) self ∧
      ((gridCells p.nx p.ny).length : Int) = max p.nx 0 * max p.ny 0 ∧
      (p.nx ≤ 0 ∨ p.ny ≤ 0 → gridCells p.nx p.ny = [])) :=
  C26_construction_terminates exampleContext ["panel"]
    (fun a b h => by rw [(references_example a b h).1]; exact List.mem_singleton_self _)
    acyclic_example "panel" "features" true

open GraphicsLayerScene

/-! ## Flood fill over connected symbols -/

theorem foldlM_invariant {σ α : Type} (f : σ → α → Result σ) (I : List α → σ → Prop)
    (l : List α)
    (hstep : ∀ pre a s, a ∈ l → I pre s → ∃ s', f s a = .ok s' ∧ I (pre ++ [a]) s') :
    ∀ (pre : List α) (s : σ), I pre s → ∃ s', l.foldlM f s = .ok s' ∧ I (pre ++ l) s' := by
  induction l with
  | nil =>
    intro pre s h
    exact ⟨s, rfl, by simpa using h⟩
  | cons a rest ih =>
    intro pre s h
    obtain ⟨s1, hf, h1⟩ := hstep pre a s (List.mem_cons_self _ _) h
    obtain ⟨s2, hfold, h2⟩ :=
      ih (fun pre' a' s' ha' => hstep pre' a' s' (List.mem_cons_of_mem _ ha')) (pre ++ [a]) s1 h1
    refine ⟨s2, ?_, ?_⟩
    · simp only [List.foldlM_cons, hf]
      exact hfold
    · simpa using h2

theorem unvisited_lt (items : List (Option Nat)) (v : List Nat) (o : Nat)
    (hitem : some o ∈ items) (hnot : o ∉ v) :
    (items.reduceOption.toFinset \ (v.insert o).toFinset).card <
      (items.reduceOption.toFinset \ v.toFinset).card := by
  apply Finset.card_lt_card
  rw [Finset.ssubset_iff_of_subset]
  · refine ⟨o, ?_, ?_⟩
    · simp [List.reduceOption_mem_iff, hitem, hnot]
    · simp
  · intro x hx
    simp only [Finset.mem_sdiff, List.mem_toFinset, List.mem_insert_iff, not_or] at hx ⊢
    exact ⟨hx.1, hx.2.2⟩

theorem unvisited_mono (items : List (Option Nat)) (v v' : List Nat) (h : v ⊆ v') :
    (items.reduceOption.toFinset \ v'.toFinset).card ≤
      (items.reduceOption.toFinset \ v.toFinset).card := by
  apply Finset.card_le_card
  intro x hx
  simp only [Finset.mem_sdiff, List.mem_toFinset] at hx ⊢
  exact ⟨hx.1, fun hv => hx.2 (h hv)⟩

/-- What one call `findConnectedSymbols(s, visited)` with `s` not yet visited achieves. -/
theorem findConnectedSymbols_spec (self : GraphicsLayerScene) (tolerance : ℚ) (fuel : Nat) :
    ∀ (s : Nat) (visited : List Nat), s ∉ visited →
      (self.items.reduceOption.toFinset \ (visited.insert s).toFinset).card < fuel →
      ∃ visited', self.findConnectedSymbols fuel (some s) visited tolerance = .ok visited' ∧
        visited ⊆ visited' ∧ s ∈ visited' ∧
        (∀ x ∈ visited', x ∉ visited →
          ReachableFrom self tolerance s x ∧
          ∀ o, Linked self tolerance x o → o ∈ visited') := by
  induction fuel with
  | zero => intro s visited _ h; omega
  | succ fuel ih =>
    intro s visited hs hfuel
    rw [findConnectedSymbols]
    simp only []
    have hc : visited.contains s = false := by simpa using hs
    rw [hc]
    simp only [Bool.false_eq_true, if_false]
    have hloop := foldlM_invariant
      (fun visited item =>
        match item with
        | none => .ok visited
        | some otherSymbol =>
          if visited.contains otherSymbol then .ok visited
          else if self.areSymbolsConnected (some s) (some otherSymbol) tolerance then
            self.findConnectedSymbols fuel (some otherSymbol) visited tolerance
          else .ok visited)
      (fun (pre : List (Option Nat)) (v : List Nat) =>
        visited.insert s ⊆ v ∧
        (∀ x ∈ v, x ∉ visited.insert s →
          ReachableFrom self tolerance s x ∧ ∀ o, Linked self tolerance x o → o ∈ v) ∧
        (∀ o, some o ∈ pre →
          self.areSymbolsConnected (some s) (some o) tolerance = true → o ∈ v))
      self.items
      (by
        intro pre item v hitem ⟨hsub, hnew, hdone⟩
        cases item with
        | none =>
          refine ⟨v, rfl, hsub, hnew, ?_⟩
          intro o ho hconn
          rcases List.mem_append.mp ho with ho | ho
          · exact hdone o ho hconn
          · simp at ho
        | some other =>
          simp only []
          by_cases hv : other ∈ v
          · have hcv : v.contains other = true := by simpa using hv
            rw [hcv]
            refine ⟨v, rfl, hsub, hnew, ?_⟩
            intro o ho hconn
            rcases List.mem_append.mp ho with ho | ho
            · exact hdone o ho hconn
            · simp only [List.mem_singleton, Option.some.injEq] at ho
              subst ho
              exact hv
          · have hcv : v.contains other = false := by simpa using hv
            rw [hcv]
            simp only [Bool.false_eq_true, if_false]
            cases hconn : self.areSymbolsConnected (some s) (some other) tolerance with
            | false =>
              simp only [Bool.false_eq_true, if_false]
              refine ⟨v, rfl, hsub, hnew, ?_⟩
              intro o ho hco
              rcases List.mem_append.mp ho with ho | ho
              · exact hdone o ho hco
              · simp only [List.mem_singleton, Option.some.injEq] at ho
                subst ho
                rw [hconn] at hco
                cases hco
            | true =>
              simp only [if_true]
              have hbudget : (self.items.reduceOption.toFinset \
                  (v.insert other).toFinset).card < fuel := by
                have h1 := unvisited_lt self.items v other hitem hv
                have h2 := unvisited_mono self.items (visited.insert s) v hsub
                omega
              obtain ⟨v', hcall, hsub', hother, hnew'⟩ := ih other v hv hbudget
              refine ⟨v', hcall, fun x hx => hsub' (hsub hx), ?_, ?_⟩
              · intro x hx hxnot
                by_cases hxv : x ∈ v
                · obtain ⟨hr, hcl⟩ := hnew x hxv hxnot
                  exact ⟨hr, fun o ho => hsub' (hcl o ho)⟩
                · obtain ⟨hr, hcl⟩ := hnew' x hx hxv
                  exact ⟨Relation.ReflTransGen.head ⟨hitem, hconn⟩ hr, hcl⟩
              · intro o ho hco
                rcases List.mem_append.mp ho with ho | ho
                · exact hsub' (hdone o ho hco)
                · simp only [List.mem_singleton, Option.some.injEq] at ho
                  subst ho
                  exact hother)
      [] (visited.insert s)
      ⟨fun x hx => hx, fun x hx hxnot => absurd hx hxnot, fun o ho => by simp at ho⟩
    obtain ⟨v', hfold, hsub, hnew, hdone⟩ := hloop
    simp only [List.nil_append] at hdone
    refine ⟨v', hfold, ?_, ?_, ?_⟩
    · intro x hx
      exact hsub (List.mem_insert_iff.mpr (Or.inr hx))
    · exact hsub (List.mem_insert_iff.mpr (Or.inl rfl))
    · intro x hx hxnot
      by_cases hxs : x = s
      · subst hxs
        exact ⟨Relation.ReflTransGen.refl, fun o ho => hdone o ho.1 ho.2⟩
      · exact hnew x hx (fun h => by
          rcases List.mem_insert_iff.mp h with h | h
          · exact hxs h
          · exact hxnot h)

/-- Claim C27. For a scene with finitely many items and a non-null start symbol,
`findConnectedSymbols` called with an empty visited set returns (any recursion budget
above the number of items is enough), and the visited set then holds exactly the symbols
reachable from the start symbol through chains of symbols of the scene that are pairwise
connected according to `areSymbolsConnected`, the start symbol included. -/
theorem C27_findConnectedSymbols_visits_reachable (self : GraphicsLayerScene)
    (tolerance : ℚ) (start fuel : Nat) (hfuel : self.items.length < fuel) :
    ∃ visited, self.findConnectedSymbols fuel (some start) [] tolerance = .ok visited ∧
      start ∈ visited ∧
      ∀ x, x ∈ visited ↔ ReachableFrom self tolerance start x := by
  have hbudget : (self.items.reduceOption.toFinset \ (([] : List Nat).insert start).toFinset).card
      < fuel := by
    have h1 : (self.items.reduceOption.toFinset \
        (([] : List Nat).insert start).toFinset).card ≤ self.items.reduceOption.toFinset.card :=
      Finset.card_le_card Finset.sdiff_subset
    have h2 := List.toFinset_card_le self.items.reduceOption
    have h3 := List.reduceOption_length_le self.items
    omega
  obtain ⟨visited, hcall, _, hstart, hnew⟩ :=
    findConnectedSymbols_spec self tolerance fuel start [] (List.not_mem_nil _) hbudget
  refine ⟨visited, hcall, hstart, fun x => ⟨fun hx => (hnew x hx (List.not_mem_nil _)).1, ?_⟩⟩
  intro hreach
  induction hreach with
  | refl => exact hstart
  | tail _ hlink ih => exact (hnew _ ih (List.not_mem_nil _)).2 _ hlink

theorem C27_witness :
    ∃ visited, twinScene.findConnectedSymbols 4 (some 1) [] (1 / 1000) = .ok visited ∧
      1 ∈ visited ∧
      ∀ x, x ∈ visited ↔ ReachableFrom twinScene (1 / 1000) 1 x :=
  C27_findConnectedSymbols_visits_reachable twinScene (1 / 1000) 1 4 (by decide)

/-! ## Trace filters -/

theorem traceSurface_measures :
    traceSurface.isTrace = true ∧ traceSurface.getWidth = 12 / 1000 := by
  constructor
  · norm_num [SurfaceSymbol.isTrace, traceSurface]
  · norm_num [SurfaceSymbol.getWidth, traceSurface]

theorem matchingTraces_traceScene (maxWidth : ℚ) (h : 12 / 1000 ≤ maxWidth) :
    traceScene.matchingTraces maxWidth = [1] := by
  have hname : (traceScene.symbol 1).name = "Surface" := rfl
  have htrace : (traceScene.symbol 1).isTrace = true := traceSurface_measures.1
  have hwidth : (traceScene.symbol 1).getWidth = 12 / 1000 := traceSurface_measures.2
  have hitems : traceScene.items = [some 1] := rfl
  unfold matchingTraces
  rw [hitems]
  simp only [List.filterMap_cons, List.filterMap_nil, hname, htrace, hwidth]
  have h0 : ¬ ((12 : ℚ) / 1000 < 0) := by norm_num
  simp [h0, h]

theorem findConnectedSymbols_traceScene (tolerance : ℚ) :
    traceScene.findConnectedSymbols 2 (some 1) [] tolerance = .ok [1] := by
  have hitems : traceScene.items = [some 1] := rfl
  rw [findConnectedSymbols]
  simp [hitems, pure, Except.pure, bind, Except.bind]

theorem selectTracesByWidth_traceScene (maxWidth : ℚ) (h : 12 / 1000 ≤ maxWidth) :
    (traceScene.selectTracesByWidth 2 maxWidth).map (fun s => s.m_selectedSymbols) =
      .ok [some 1] := by
  have hsel : traceScene.m_selectedSymbols = [] := rfl
  unfold selectTracesByWidth
  rw [matchingTraces_traceScene maxWidth h, hsel]
  simp [findConnectedSymbols_traceScene, bind, Except.bind, pure, Except.pure, Except.map]

/-- Claim C23, evaluated where the code departs from it. The filters R1, R2 and R3 call
`selectTracesByWidth` with 0.015, 0.020 and 0.025 (inches), not with 0.006, 0.010 and
0.015: on a scene holding one trace 12 mils wide, which is not below 6 mils nor below 10
mils, both R1 and R2 select that trace. -/
theorem C23_filters_select_wider_traces :
    (∀ (self : GraphicsLayerScene) (fuel : Nat),
      self.selectTracesR1 fuel = self.selectTracesByWidth fuel (15 / 1000) ∧
      self.selectTracesR2 fuel = self.selectTracesByWidth fuel (20 / 1000) ∧
      self.selectTracesR3 fuel = self.selectTracesByWidth fuel (25 / 1000)) ∧
    (traceScene.symbol 1).isTrace = true ∧
    (traceScene.symbol 1).getWidth = 12 / 1000 ∧
    ¬ (traceScene.symbol 1).getWidth < 6 / 1000 ∧
    ¬ (traceScene.symbol 1).getWidth < 10 / 1000 ∧
    (traceScene.selectTracesR1 2).map (fun s => s.m_selectedSymbols) = .ok [some 1] ∧
    (traceScene.selectTracesR2 2).map (fun s => s.m_selectedSymbols) = .ok [some 1] := by
  have hwidth : (traceScene.symbol 1).getWidth = 12 / 1000 := traceSurface_measures.2
  refine ⟨fun self fuel => ⟨rfl, rfl, rfl⟩, traceSurface_measures.1, hwidth, ?_, ?_, ?_, ?_⟩
  · rw [hwidth]; norm_num
  · rw [hwidth]; norm_num
  · exact selectTracesByWidth_traceScene (15 / 1000) (by norm_num)
  · exact selectTracesByWidth_traceScene (20 / 1000) (by norm_num)

/-! ## Saved highlights -/

theorem boundsMatch_self (r : QRectF) : boundsMatch r r = true := by
  simp [boundsMatch]

theorem getSymbolIdentifier_twin (sctx : SceneContext) (s1 s2 : GraphicsLayerScene)
    (a b : Nat) (hname : (s1.symbol a).name = (s2.symbol b).name)
    (htype : (s1.symbol a).typeName = (s2.symbol b).typeName)
    (hbounds : (s1.symbol a).boundingRect = (s2.symbol b).boundingRect) :
    s1.getSymbolIdentifier sctx (some a) = s2.getSymbolIdentifier sctx (some b) := by
  unfold getSymbolIdentifier
  simp only [hname, htype, hbounds]

theorem findSymbolByIdentifier_twin (sctx : SceneContext) (sel sel' : List (Option Nat))
    (a : Nat) :
    (twinSceneSelecting sel).findSymbolByIdentifier sctx
      ((twinSceneSelecting sel').getSymbolIdentifier sctx (some a)) = some 1 := by
  have h := getSymbolIdentifier_twin sctx (twinSceneSelecting sel) (twinSceneSelecting sel')
    1 a rfl rfl rfl
  have hitems : (twinSceneSelecting sel).items = [some 1, none, some 2] := rfl
  have hlayer : (twinSceneSelecting sel).m_graphicsLayer = some (some "top") := rfl
  unfold findSymbolByIdentifier
  rw [hlayer, hitems]
  simp only [List.find?_cons, h, beq_self_eq_true]
  rfl

theorem exportHighlightData_twin (sctx : SceneContext) (sel : List Nat) :
    ∃ data, (twinSceneSelecting (sel.map some)).exportHighlightData sctx = .ok data ∧
      data.version = "1.0" ∧
      data.symbols = sel.map (fun a =>
        { id := (twinSceneSelecting (sel.map some)).getSymbolIdentifier sctx (some a)
          name := (twinSymbol a).name
          type := (twinSymbol a).typeName
          bounds := (twinSymbol a).boundingRect
          highlightColor := sctx.highlight_color }) := by
  have hm : ∀ l : List Nat, (l.map some).mapM (fun symbol =>
      match symbol with
      | none => (.error .fault : Result SymbolJson)
      | some a =>
        .ok { id := (twinSceneSelecting (sel.map some)).getSymbolIdentifier sctx symbol
              name := ((twinSceneSelecting (sel.map some)).symbol a).name
              type := ((twinSceneSelecting (sel.map some)).symbol a).typeName
              bounds := ((twinSceneSelecting (sel.map some)).symbol a).boundingRect
              highlightColor := sctx.highlight_color }) =
      .ok (l.map (fun a =>
        { id := (twinSceneSelecting (sel.map some)).getSymbolIdentifier sctx (some a)
          name := (twinSymbol a).name
          type := (twinSymbol a).typeName
          bounds := (twinSymbol a).boundingRect
          highlightColor := sctx.highlight_color })) := by
    intro l
    induction l with
    | nil => rfl
    | cons a rest ih =>
      rw [List.map_cons, List.mapM_cons, ih]
      rfl
  unfold exportHighlightData
  have hsel : (twinSceneSelecting (sel.map some)).m_selectedSymbols = sel.map some := rfl
  rw [hsel, hm sel]
  exact ⟨_, rfl, rfl, rfl⟩

theorem importHighlightData_twin (sctx : SceneContext) (sel sel' : List Nat)
    (data : HighlightJson) (hversion : data.version = "1.0")
    (hsymbols : data.symbols = sel.map (fun a =>
      { id := (twinSceneSelecting (sel.map some)).getSymbolIdentifier sctx (some a)
        name := (twinSymbol a).name
        type := (twinSymbol a).typeName
        bounds := (twinSymbol a).boundingRect
        highlightColor := sctx.highlight_color })) :
    ((twinSceneSelecting (sel'.map some)).importHighlightData sctx data).map
      (fun r => (r.1.m_selectedSymbols, r.2)) =
      .ok (sel.map (fun _ => some 1), decide (sel.length > 0)) := by
  have hclear : (twinSceneSelecting (sel'.map some)).clearHighlight =
      .ok (twinSceneSelecting []) := by
    unfold clearHighlight
    have hall : (twinSceneSelecting (sel'.map some)).m_selectedSymbols.all Option.isSome
        = true := by
      show (sel'.map some).all Option.isSome = true
      simp
    rw [if_pos hall]
    rfl
  have hfold : ∀ (l : List Nat) (acc : List (Option Nat) × Nat),
      (l.map (fun a =>
        ({ id := (twinSceneSelecting (sel.map some)).getSymbolIdentifier sctx (some a)
           name := (twinSymbol a).name
           type := (twinSymbol a).typeName
           bounds := (twinSymbol a).boundingRect
           highlightColor := sctx.highlight_color } : SymbolJson))).foldl
        (fun (acc : List (Option Nat) × Nat) symbolObj =>
          match (twinSceneSelecting []).findSymbolByIdentifier sctx symbolObj.id with
          | some symbol =>
            if boundsMatch symbolObj.bounds ((twinSceneSelecting []).symbol symbol).boundingRect
            then (acc.1 ++ [some symbol], acc.2 + 1)
            else acc
          | none => acc) acc =
      (acc.1 ++ l.map (fun _ => some 1), acc.2 + l.length) := by
    intro l
    induction l with
    | nil => intro acc; simp
    | cons a rest ih =>
      intro acc
      rw [List.map_cons, List.foldl_cons]
      simp only [findSymbolByIdentifier_twin]
      have hb : boundsMatch (twinSymbol a).boundingRect
          ((twinSceneSelecting []).symbol 1).boundingRect = true := boundsMatch_self _
      rw [if_pos hb, ih]
      simp only [List.map_cons, List.append_assoc, List.singleton_append, List.length_cons]
      congr 1
      omega
  unfold importHighlightData
  rw [hclear]
  simp only [bind, Except.bind, hversion, ne_eq, not_true_eq_false, if_false, hsymbols,
    hfold, pure, Except.pure, Except.map]
  have hnil : (twinSceneSelecting []).m_selectedSymbols = [] := rfl
  simp [hnil]

theorem saveAndLoadHighlights_twin (sctx : SceneContext) (sel : List Nat) :
    saveAndLoadHighlights sctx (twinSceneSelecting (sel.map some)) =
      .ok (sel.map (fun _ => some 1), decide (sel.length > 0)) := by
  obtain ⟨data, hexport, hversion, hsymbols⟩ := exportHighlightData_twin sctx sel
  have himport := importHighlightData_twin sctx sel sel data hversion hsymbols
  unfold saveAndLoadHighlights
  rw [hexport]
  simp only [bind, Except.bind, pure, Except.pure]
  cases hr : (twinSceneSelecting (sel.map some)).importHighlightData sctx data with
  | error e => rw [hr] at himport; cases himport
  | ok r =>
    rw [hr] at himport
    exact himport

/-- Claim C29, evaluated where the code departs from it. In the scene of two pads of the
same shape (same name, type and bounding rectangle, hence the same identifier), shown by
a layer, with the pad at address 2 selected, saving the highlights and loading them back
returns true but leaves the pad at address 1 selected, the first item with that
identifier, instead of the pad at address 2. -/
theorem C29_saved_highlight_restores_another_symbol (sctx : SceneContext) :
    twinScene.m_graphicsLayer = some (some "top") ∧
    twinScene.updateSelection (some 2) = .ok (twinSceneSelecting [some 2]) ∧
    (twinSceneSelecting [some 2]).getSymbolIdentifier sctx (some 1) =
      (twinSceneSelecting [some 2]).getSymbolIdentifier sctx (some 2) ∧
    saveAndLoadHighlights sctx (twinSceneSelecting [some 2]) = .ok ([some 1], true) :=
  ⟨rfl, rfl, getSymbolIdentifier_twin sctx _ _ 1 2 rfl rfl rfl,
    saveAndLoadHighlights_twin sctx [2]⟩

/-! ## The selection list holds no symbol twice -/

theorem clearHighlight_selected (self s' : GraphicsLayerScene)
    (h : self.clearHighlight = .ok s') : s'.m_selectedSymbols = [] := by
  unfold clearHighlight at h
  split at h
  · cases h; rfl
  · cases h

theorem updateSelection_nodup (self s' : GraphicsLayerScene) (symbol : Option Nat)
    (h : self.updateSelection symbol = .ok s') : s'.m_selectedSymbols.Nodup := by
  unfold updateSelection at h
  cases hc : self.clearHighlight with
  | error e => rw [hc] at h; cases h
  | ok s1 =>
    rw [hc] at h
    have h1 := clearHighlight_selected self s1 hc
    cases h
    simp [h1]

theorem toggleSelection_nodup (self s' : GraphicsLayerScene) (symbol : Option Nat)
    (hnodup : self.m_selectedSymbols.Nodup) (h : self.toggleSelection symbol = .ok s') :
    s'.m_selectedSymbols.Nodup := by
  unfold toggleSelection at h
  by_cases hc : self.m_selectedSymbols.contains symbol = true
  · rw [if_pos hc] at h
    cases symbol with
    | none => cases h
    | some a =>
      cases h
      exact hnodup.erase _
  · rw [if_neg hc] at h
    cases h
    have hnot : symbol ∉ self.m_selectedSymbols := by simpa using hc
    exact List.Nodup.append hnodup (List.nodup_singleton _) (by simpa using hnot)

theorem appendMissing_nodup (connectedSymbols : List Nat) (selected : List (Option Nat))
    (hnodup : selected.Nodup) : (appendMissing selected connectedSymbols).Nodup := by
  unfold appendMissing
  induction connectedSymbols generalizing selected with
  | nil => exact hnodup
  | cons sym rest ih =>
    rw [List.foldl_cons]
    apply ih
    by_cases hc : selected.contains (some sym) = true
    · simp only [hc, Bool.not_true, Bool.false_eq_true, if_false]
      exact hnodup
    · have hnot : some sym ∉ selected := by simpa using hc
      have hc' : selected.contains (some sym) = false := by simpa using hnot
      simp only [hc', Bool.not_false, if_true]
      exact List.Nodup.append hnodup (List.nodup_singleton _) (by simpa using hnot)

theorem eraseAll_nodup (connectedSymbols : List Nat) (selected : List (Option Nat))
    (hnodup : selected.Nodup) :
    (connectedSymbols.foldl (fun selected sym => selected.erase (some sym)) selected).Nodup := by
  induction connectedSymbols generalizing selected with
  | nil => exact hnodup
  | cons sym rest ih =>
    rw [List.foldl_cons]
    exact ih _ (hnodup.erase _)

theorem selectConnectedSymbols_nodup (self s' : GraphicsLayerScene) (fuel : Nat)
    (startSymbol : Option Nat) (hnodup : self.m_selectedSymbols.Nodup)
    (h : self.selectConnectedSymbols fuel startSymbol = .ok s') :
    s'.m_selectedSymbols.Nodup := by
  unfold selectConnectedSymbols at h
  cases startSymbol with
  | none => cases h; exact hnodup
  | some start =>
    simp only [] at h
    cases hf : self.findConnectedSymbols fuel (some start) [] (1 / 1000) with
    | error e => rw [hf] at h; cases h
    | ok connectedSymbols =>
      rw [hf] at h
      simp only [bind, Except.bind, pure, Except.pure] at h
      split at h
      · cases h
        exact eraseAll_nodup _ _ hnodup
      · cases h
        exact appendMissing_nodup _ _ hnodup

theorem selectTracesByWidth_nodup (self s' : GraphicsLayerScene) (fuel : Nat) (maxWidth : ℚ)
    (hnodup : self.m_selectedSymbols.Nodup)
    (h : self.selectTracesByWidth fuel maxWidth = .ok s') : s'.m_selectedSymbols.Nodup := by
  unfold selectTracesByWidth at h
  simp only [bind, Except.bind, pure, Except.pure] at h
  have hinner : ∀ (l : List Nat) (acc : List (Option Nat) × List (Option Nat)),
      acc.1.Nodup →
      (l.foldl (fun (acc : List (Option Nat) × List (Option Nat)) sym =>
        if !acc.1.contains (some sym) then (acc.1 ++ [some sym], acc.2.insert (some sym))
        else acc) acc).1.Nodup := by
    intro l
    induction l with
    | nil => intro acc hacc; exact hacc
    | cons sym rest ih =>
      intro acc hacc
      rw [List.foldl_cons]
      apply ih
      by_cases hc : acc.1.contains (some sym) = true
      · simp only [hc, Bool.not_true, Bool.false_eq_true, if_false]
        exact hacc
      · have hnot : some sym ∉ acc.1 := by simpa using hc
        have hc' : acc.1.contains (some sym) = false := by simpa using hnot
        simp only [hc', Bool.not_false, if_true]
        exact List.Nodup.append hacc (List.nodup_singleton _) (by simpa using hnot)
  split at h
  · cases h
  · rename_i r hr
    cases h
    refine foldlM_rel
      (fun (a b : List (Option Nat) × List (Option Nat)) => a.1.Nodup → b.1.Nodup)
      (fun _ h => h) (fun _ _ _ hab hbc h => hbc (hab h)) _ _ ?_ _ _ hr hnodup
    intro trace _ acc acc' hstep hacc
    split at hstep
    · cases hstep; exact hacc
    · split at hstep
      · cases hstep
      · cases hstep
        exact hinner _ _ hacc

/-- Claim C30, evaluated where the code departs from it. In the scene of two pads of the
same shape the selection list is empty at first, and toggling the pad at address 1 and
then the pad at address 2 gives the list of the two, without repetition; loading the
highlights saved from that state leaves the list holding the pad at address 1 twice. -/
theorem C30_import_selects_a_symbol_twice (sctx : SceneContext) :
    twinScene.m_selectedSymbols = [] ∧
    twinScene.toggleSelection (some 1) = .ok (twinSceneSelecting [some 1]) ∧
    (twinSceneSelecting [some 1]).toggleSelection (some 2) =
      .ok (twinSceneSelecting [some 1, some 2]) ∧
    [some 1, some 2].Nodup ∧
    (∃ data, (twinSceneSelecting [some 1, some 2]).exportHighlightData sctx = .ok data ∧
      ((twinSceneSelecting [some 1, some 2]).importHighlightData sctx data).map
        (fun r => r.1.m_selectedSymbols) = .ok [some 1, some 1]) ∧
    ¬ [some 1, some 1].Nodup := by
  refine ⟨rfl, rfl, rfl, by decide, ?_, by decide⟩
  obtain ⟨data, hexport, hversion, hsymbols⟩ := exportHighlightData_twin sctx [1, 2]
  refine ⟨data, hexport, ?_⟩
  have himport := importHighlightData_twin sctx [1, 2] [1, 2] data hversion hsymbols
  cases hr : (twinSceneSelecting ([1, 2].map some)).importHighlightData sctx data with
  | error e => rw [hr] at himport; cases himport
  | ok r =>
    rw [hr] at himport
    have hr' : (twinSceneSelecting [some 1, some 2]).importHighlightData sctx data = .ok r := hr
    rw [hr']
    simp only [Except.map] at himport ⊢
    have h1 := congrArg Prod.fst (Except.ok.inj himport)
    simp only [List.map_cons, List.map_nil] at h1
    rw [h1]

end QCamber
